import Mathlib

/-!
# TileImgGen: a shallow embedding of `tilegen.cpp`

The four private methods of the C++ class `TileGen`
(`readLayerScheme`, `readTileScheme`, `createLayerRects`, `generateTilesImage`)
are embedded as pure functions: every method takes the members it reads and
returns an `Outcome` holding the members it wrote.  The slot `on_btnParse_clicked`
is embedded from the point where its inputs are loaded: it maps the members and
the inputs to the members after the run and the events of the run.

Conventions of the embedding

* `int` is `Int`.  `QJsonValue::toInt` only yields values of the 32 bit range, and
  the one place where a loop bound can leave that range (`end + 1` in
  `readTileScheme`) is modelled as undefined behaviour.  So are the two products
  `generateTilesImage` computes for the size of the image when one of them leaves
  that range; the products for the draw positions then stay inside it.
* `QMap<QString, V>` is an association list kept in ascending key order without
  repeated keys, exactly what `QMap::insert` maintains.
* `QList<T>` is `List T`.  `QList::operator[]` requires a valid index: an access
  outside `0 .. size()-1` has no defined result (`Outcome.undefined`).
* A `QJsonObject` is the list of its members in key order.
* `*err = "..."; return false;` is `Outcome.fail e s`, one constructor of the
  error type per message of the source; `message` renders the text.
-/

namespace TileGen

/-! ## Outcomes -/

/-- Result of running one method: `ok s` is `return true`, `fail e s` is
`return false` with `*err` set to the message `e`, and `undefined` is a run that
leaves the defined behaviour of C++ or of the Qt containers (index out of range,
division by zero, signed overflow).  `s` holds the members as the method left them. -/
inductive Outcome (ε σ : Type) where
  | ok (s : σ)
  | fail (err : ε) (s : σ)
  | undefined
  deriving DecidableEq, Repr

/-- True exactly on `Outcome.ok`. -/
def Outcome.isOk {ε σ : Type} : Outcome ε σ → Bool
  | .ok _ => true
  | _ => false

/-! ## QMap -/

/-- `QMap<QString, V>`: the entries in ascending key order. -/
abbrev QMap (V : Type) := List (String × V)

/-- `QMap::keys()`. -/
def QMap.keys {V : Type} (m : QMap V) : List String := m.map Prod.fst

/-- `QMap::find` / `QMap::value`: the value stored under `k`, if any. -/
def QMap.find {V : Type} : QMap V → String → Option V
  | [], _ => none
  | (a, b) :: t, k => if k = a then some b else QMap.find t k

/-- `QMap::contains`. -/
def QMap.contains {V : Type} (m : QMap V) (k : String) : Bool := (QMap.find m k).isSome

/-- `QMap::insert`, also the effect of `m[k] = v`: replaces the value of an existing
key, otherwise adds the entry at its place in key order. -/
def QMap.insert {V : Type} : QMap V → String → V → QMap V
  | [], k, v => [(k, v)]
  | (a, b) :: t, k, v =>
    if k.toList < a.toList then (k, v) :: (a, b) :: t
    else if k = a then (k, v) :: t
    else (a, b) :: QMap.insert t k v

/-- The map after the non-const `m[k]` has been evaluated: a missing key is
added with a default-constructed value. -/
def QMap.touch {V : Type} (m : QMap V) (k : String) (dflt : V) : QMap V :=
  if QMap.contains m k then m else QMap.insert m k dflt

/-- The value the non-const `m[k]` refers to. -/
def QMap.at {V : Type} (m : QMap V) (k : String) (dflt : V) : V :=
  (QMap.find m k).getD dflt

/-! ## Data model (`tilegen.h`) -/

/-- `QRect`, as constructed by `{ x, y, width, height }`. -/
structure QRect where
  x : Int
  y : Int
  width : Int
  height : Int
  deriving DecidableEq, Repr

/-- The default-constructed (null) `QRect`. -/
def QRect.null : QRect := ⟨0, 0, 0, 0⟩

/-- `QPoint`. -/
structure QPoint where
  x : Int
  y : Int
  deriving DecidableEq, Repr

/-- The struct `Layer`. -/
structure Layer where
  name : String
  zOrder : Int
  allowNull : Bool
  values : List String
  defaultValue : String
  valueRects : QMap QRect
  deriving DecidableEq, Repr

/-- The typedef `Tile`, a `QMap<QString, QString>`. -/
abbrev Tile := QMap String

/-- The struct `LayerDefinition`. -/
structure LayerDefinition where
  name : String
  tileSize : Int
  tilesPerRow : Int
  layers : QMap Layer
  layersOrdered : List Layer
  defaultTile : Tile
  deriving DecidableEq, Repr

/-- The definition held by a freshly constructed `TileGen`: empty containers. -/
def LayerDefinition.empty : LayerDefinition := ⟨"", 0, 0, [], [], []⟩

/-! ## JSON values (`QJsonValue`, `QJsonObject`, `QJsonArray`) -/

/-- The payload of a JSON number (a C++ `double`) as far as `QJsonValue::toInt` can
observe it: a whole number, or a number with a fractional part. -/
inductive JsonNumber where
  | whole (n : Int)
  | fractional
  deriving DecidableEq, Repr

/-- `QJsonValue`.  `undefined` is what `operator[]` yields for a missing key. -/
inductive QJsonValue where
  | null
  | bool (b : Bool)
  | double (d : JsonNumber)
  | string (s : String)
  | array (items : List QJsonValue)
  | object (members : List (String × QJsonValue))
  | undefined

/-- `QJsonObject`: the members in key order. -/
abbrev QJsonObject := QMap QJsonValue

/-- `QJsonArray`. -/
abbrev QJsonArray := List QJsonValue

/-- `QJsonValue::toString()`: the string, or the empty string for any other type. -/
def QJsonValue.toString : QJsonValue → String
  | .string s => s
  | _ => ""

/-- `QJsonValue::toInt(defaultValue)`: the number when it is whole and fits an `int`. -/
def QJsonValue.toInt (v : QJsonValue) (defaultValue : Int) : Int :=
  match v with
  | .double (.whole n) => if -2147483648 ≤ n ∧ n ≤ 2147483647 then n else defaultValue
  | _ => defaultValue

/-- `QJsonValue::toBool(defaultValue)`. -/
def QJsonValue.toBool (v : QJsonValue) (defaultValue : Bool) : Bool :=
  match v with
  | .bool b => b
  | _ => defaultValue

/-- `QJsonValue::isDouble()`. -/
def QJsonValue.isDouble : QJsonValue → Bool
  | .double _ => true
  | _ => false

/-- `QJsonValue::isArray()`. -/
def QJsonValue.isArray : QJsonValue → Bool
  | .array _ => true
  | _ => false

/-- `QJsonValue::isObject()`. -/
def QJsonValue.isObject : QJsonValue → Bool
  | .object _ => true
  | _ => false

/-- `QJsonValue::toArray()`: the array, or an empty array for any other type. -/
def QJsonValue.toArray : QJsonValue → QJsonArray
  | .array items => items
  | _ => []

/-- `QJsonValue::toObject()`: the object, or an empty object for any other type. -/
def QJsonValue.toObject : QJsonValue → QJsonObject
  | .object members => members
  | _ => []

/-- The const `QJsonObject::operator[]`: the member, or `undefined`. -/
def QJsonObject.value (json : QJsonObject) (key : String) : QJsonValue :=
  (QMap.find json key).getD .undefined

/-- The free function `quotedOrUndefined` (line 139). -/
def quotedOrUndefined (json : QJsonObject) (key : String) : String :=
  if QMap.contains json key then "\"" ++ (QJsonObject.value json key).toString ++ "\"" else "undefined"

/-! ## `readLayerScheme` -/

/-- The messages of `readLayerScheme`; `i` is the index in `Layers`. -/
inductive LayerSchemeError where
  | badSchemeType (found : String)
  | schemeNameEmpty
  | tileSizeInvalid
  | tilesPerRowInvalid
  | layersNotArray
  | layerNotObject (i : Nat)
  | nameEmpty (i : Nat)
  | valuesNotArray (i : Nat)
  | valuesEmpty (i : Nat)
  | defaultValueNull (i : Nat)
  | defaultValueNotInValues (i : Nat)
  deriving DecidableEq, Repr

/-- Text of each message. -/
def LayerSchemeError.message : LayerSchemeError → String
  | .badSchemeType found => "Bad SchemeType, should be \"Layer\" but is " ++ found
  | .schemeNameEmpty => "SchemeName is empty or undefined"
  | .tileSizeInvalid => "TileSize is 0, negative, not whole or undefined"
  | .tilesPerRowInvalid => "TilesPerRow is 0, negative, not whole or undefined"
  | .layersNotArray => "Layers is either undefined or not an array"
  | .layerNotObject i => "Layers: element " ++ toString i ++ " is not an object"
  | .nameEmpty i => "Layers[" ++ toString i ++ "]: Name is empty or undefined"
  | .valuesNotArray i => "Layers[" ++ toString i ++ "]: Values is either undefined or not an array"
  | .valuesEmpty i => "Layers[" ++ toString i ++ "]: Values doesn't contain any values"
  | .defaultValueNull i =>
    "Layers[" ++ toString i ++ "]: DefaultValue is undefined (null) but AllowNull is false"
  | .defaultValueNotInValues i =>
    "Layers[" ++ toString i ++ "]: DefaultValue isn't an element of Values"

/-- Lines 189-195: the non-empty strings of the `Values` array, in order. -/
def readValues (layerValsArr : QJsonArray) : List String :=
  (layerValsArr.map QJsonValue.toString).filter (fun layerVal => decide (layerVal ≠ ""))

/-- Lines 174-212: the `Layer` built from element `i` of `Layers`, or the message of
the first check that fails. -/
def readLayer (i : Nat) (layerObj : QJsonObject) : Except LayerSchemeError Layer :=
  let layerKey := (QJsonObject.value layerObj "Name").toString
  if layerKey = "" then .error (.nameEmpty i)
  else
    let allowNull := (QJsonObject.value layerObj "AllowNull").toBool true
    if ¬ (QMap.contains layerObj "Values" = true ∧ (QJsonObject.value layerObj "Values").isArray = true) then
      .error (.valuesNotArray i)
    else
      let values := readValues (QJsonObject.value layerObj "Values").toArray
      if values.length = 0 then .error (.valuesEmpty i)
      else
        let defVal := (QJsonObject.value layerObj "DefaultValue").toString
        if defVal = "" ∧ allowNull = false then .error (.defaultValueNull i)
        else
          let checkDefVal : Bool := if allowNull = true ∧ defVal = "" then false else true
          if checkDefVal = true ∧ defVal ∉ values then .error (.defaultValueNotInValues i)
          else .ok ⟨layerKey, i, allowNull, values, defVal, []⟩

/-- The loop over `Layers` (lines 168-215), run on the elements still to read;
`i` is the index of the first of them. -/
def readLayers : Nat → QJsonArray → LayerDefinition → Outcome LayerSchemeError LayerDefinition
  | _, [], layerDef => .ok layerDef
  | i, v :: rest, layerDef =>
    if v.isObject = false then .fail (.layerNotObject i) layerDef
    else
      match readLayer i v.toObject with
      | .error e => .fail e layerDef
      | .ok layer =>
        readLayers (i + 1) rest
          { layerDef with
            layers := QMap.insert layerDef.layers layer.name layer
            layersOrdered := layerDef.layersOrdered ++ [layer] }

/-- A default-constructed `Layer` (what `layers[key]` would add for a missing key). -/
def Layer.null : Layer := ⟨"", 0, false, [], "", []⟩

/-- Lines 217-218: `defaultTile[layer] = layers[layer].defaultValue` for the given keys. -/
def fillDefaultTile (layers : QMap Layer) : List String → Tile → Tile
  | [], defaultTile => defaultTile
  | layer :: rest, defaultTile =>
    fillDefaultTile layers rest (QMap.insert defaultTile layer (QMap.at layers layer Layer.null).defaultValue)

/-- `TileGen::readLayerScheme`.  Reads and writes the member `layerDef`; nothing is
cleared first, so the containers of `layerDef` keep what they held before the call. -/
def readLayerScheme (layerDef : LayerDefinition) (json : QJsonObject) :
    Outcome LayerSchemeError LayerDefinition :=
  if (QJsonObject.value json "SchemeType").toString ≠ "Layer" then
    .fail (.badSchemeType (quotedOrUndefined json "SchemeType")) layerDef
  else
    let ld1 := { layerDef with name := (QJsonObject.value json "SchemeName").toString }
    if ld1.name = "" then .fail .schemeNameEmpty ld1
    else
      let ld2 := { ld1 with tileSize := (QJsonObject.value json "TileSize").toInt (-1) }
      if ld2.tileSize ≤ 0 then .fail .tileSizeInvalid ld2
      else
        let ld3 := { ld2 with tilesPerRow := (QJsonObject.value json "TilesPerRow").toInt (-1) }
        if ld3.tilesPerRow ≤ 0 then .fail .tilesPerRowInvalid ld3
        else if ¬ (QMap.contains json "Layers" = true ∧ (QJsonObject.value json "Layers").isArray = true) then
          .fail .layersNotArray ld3
        else
          match readLayers 0 (QJsonObject.value json "Layers").toArray ld3 with
          | .ok ld4 =>
            .ok { ld4 with defaultTile := fillDefaultTile ld4.layers (QMap.keys ld4.layers) ld4.defaultTile }
          | other => other

/-! ## `readTileScheme` -/

/-- The messages of `readTileScheme`; `i` is the index in `Tiles`. -/
inductive TileSchemeError where
  | badSchemeType (found : String)
  | layerSchemeNameEmpty
  | badLayerSchemeName (expected found : String)
  | tileCountInvalid
  | tilesNotArray
  | tileNotObject (i : Nat)
  | startNegative (i : Nat)
  | endNegative (i : Nat)
  | startUndefined (i : Nat)
  | layerValuesNotObject (i : Nat)
  | unknownLayer (i : Nat) (layerKey : String)
  | nullNotAllowed (i : Nat) (layerKey : String)
  | invalidValue (i : Nat) (layerKey : String)
  | countMismatch (generated : Nat) (tileCount : Int)
  deriving DecidableEq, Repr

/-- Text of each message. -/
def TileSchemeError.message : TileSchemeError → String
  | .badSchemeType found => "Bad SchemeType, should be \"Tile\" but is " ++ found
  | .layerSchemeNameEmpty => "LayerSchemeName is empty or undefined"
  | .badLayerSchemeName expected found =>
    "Bad LayerSchemeName, should be \"" ++ expected ++ "\" but is \"" ++ found ++ "\""
  | .tileCountInvalid => "TileCount is 0, negative or not whole"
  | .tilesNotArray => "Tiles is either undefined or not an array"
  | .tileNotObject i => "Tiles: element " ++ toString i ++ " is not an object"
  | .startNegative i => "Tiles[" ++ toString i ++ "]: Start is negative or not whole"
  | .endNegative i => "Tiles[" ++ toString i ++ "]: End is negative or not whole"
  | .startUndefined i => "Tiles[" ++ toString i ++ "]: Start is either undefined or not a number"
  | .layerValuesNotObject i =>
    "Tiles[" ++ toString i ++ "]: LayerValues is either undefined or not an object"
  | .unknownLayer i layerKey =>
    "Tiles[" ++ toString i ++ "].LayerValues: Has value for unknown layer \"" ++ layerKey ++ "\""
  | .nullNotAllowed i layerKey =>
    "Tiles[" ++ toString i ++ "].LayerValues: Value for layer \"" ++ layerKey
      ++ "\" is null, but layer doesn't allow null"
  | .invalidValue i layerKey =>
    "Tiles[" ++ toString i ++ "].LayerValues: Value for layer \"" ++ layerKey ++ "\" is invalid"
  | .countMismatch generated tileCount =>
    "Generated tile count (" ++ toString generated ++ ") does not match TileCount ("
      ++ toString tileCount ++ ")"

/-- The message is the one of the final length check (line 316). -/
def TileSchemeError.isCountMismatch : TileSchemeError → Bool
  | .countMismatch _ _ => true
  | _ => false

/-- Lines 236-243: `tileCount`, which stays at -1 when `TileCount` is missing or not a
number; `none` is the early `return false`. -/
def readTileCount (json : QJsonObject) : Option Int :=
  if QMap.contains json "TileCount" = true ∧ (QJsonObject.value json "TileCount").isDouble = true then
    let tileCount := (QJsonObject.value json "TileCount").toInt (-1)
    if tileCount ≤ 0 then none else some tileCount
  else some (-1)

/-- Lines 258-278: `start` and `end` of element `i` of `Tiles`, swapped when
`end < start`. -/
def readRange (i : Nat) (tileDef : QJsonObject) : Except TileSchemeError (Int × Int) :=
  if QMap.contains tileDef "Start" = true ∧ (QJsonObject.value tileDef "Start").isDouble = true then
    let start := (QJsonObject.value tileDef "Start").toInt (-1)
    if start < 0 then .error (.startNegative i)
    else if QMap.contains tileDef "End" = true ∧ (QJsonObject.value tileDef "End").isDouble = true then
      let endIdx := (QJsonObject.value tileDef "End").toInt (-1)
      if endIdx < 0 then .error (.endNegative i)
      else if endIdx < start then .ok (endIdx, start)
      else .ok (start, endIdx)
    else .ok (start, start)
  else .error (.startUndefined i)

/-- The loop over `layerVals.keys()` (lines 286-308), run on the keys still to
visit: every value is checked against `layerDef.layers` and written into `tile`. -/
def readLayerValues (layerDef : LayerDefinition) (i : Nat) (layerVals : QJsonObject) :
    List String → Tile → Except TileSchemeError Tile
  | [], tile => .ok tile
  | layerKey :: rest, tile =>
    match QMap.find layerDef.layers layerKey with
    | none => .error (.unknownLayer i layerKey)
    | some layer =>
      let layerVal := (QJsonObject.value layerVals layerKey).toString
      if layerVal = "" ∧ layer.allowNull = false then .error (.nullNotAllowed i layerKey)
      else
        let checkVal : Bool := if layerVal = "" then false else true
        if checkVal = true ∧ layerVal ∉ layer.values then .error (.invalidValue i layerKey)
        else readLayerValues layerDef i layerVals rest (QMap.insert tile layerKey layerVal)

/-- Lines 312-313: `tiles[i] = tile` for `count` consecutive indices from `i` on.
`none` when an index is not below `tiles.size()`. -/
def writeRange (tile : Tile) : Nat → Nat → List Tile → Option (List Tile)
  | 0, _, tiles => some tiles
  | count + 1, i, tiles =>
    if i < tiles.length then writeRange tile count (i + 1) (tiles.set i tile) else none

/-- The loop over `Tiles` (lines 251-314), run on the elements still to read;
`i` is the index of the first of them. -/
def readTiles (layerDef : LayerDefinition) :
    Nat → QJsonArray → List Tile → Outcome TileSchemeError (List Tile)
  | _, [], tiles => .ok tiles
  | i, v :: rest, tiles =>
    if v.isObject = false then .fail (.tileNotObject i) tiles
    else
      match readRange i v.toObject with
      | .error e => .fail e tiles
      | .ok (start, endIdx) =>
        if (QJsonObject.value v.toObject "LayerValues").isObject = false then
          .fail (.layerValuesNotObject i) tiles
        else
          let layerVals := (QJsonObject.value v.toObject "LayerValues").toObject
          match readLayerValues layerDef i layerVals (QMap.keys layerVals) layerDef.defaultTile with
          | .error e => .fail e tiles
          | .ok tile =>
            if endIdx + 1 > 2147483647 then .undefined
            else
              match writeRange tile (endIdx + 1 - start).toNat start.toNat tiles with
              | none => .undefined
              | some tiles1 => readTiles layerDef (i + 1) rest tiles1

/-- `TileGen::readTileScheme`.  Reads `layerDef`, reads and writes the member `tiles`;
`tiles` is not cleared first. -/
def readTileScheme (layerDef : LayerDefinition) (tiles : List Tile) (json : QJsonObject) :
    Outcome TileSchemeError (List Tile) :=
  if (QJsonObject.value json "SchemeType").toString ≠ "Tile" then
    .fail (.badSchemeType (quotedOrUndefined json "SchemeType")) tiles
  else
    let layerDefName := (QJsonObject.value json "LayerSchemeName").toString
    if layerDefName = "" then .fail .layerSchemeNameEmpty tiles
    else if layerDefName ≠ layerDef.name then
      .fail (.badLayerSchemeName layerDef.name layerDefName) tiles
    else
      match readTileCount json with
      | none => .fail .tileCountInvalid tiles
      | some tileCount =>
        let tiles1 := tiles ++ List.replicate tileCount.toNat layerDef.defaultTile
        if ¬ (QMap.contains json "Tiles" = true ∧ (QJsonObject.value json "Tiles").isArray = true) then
          .fail .tilesNotArray tiles1
        else
          match readTiles layerDef 0 (QJsonObject.value json "Tiles").toArray tiles1 with
          | .ok tiles2 =>
            if (tiles2.length : Int) ≠ tileCount then
              .fail (.countMismatch tiles2.length tileCount) tiles2
            else .ok tiles2
          | other => other

/-! ## `createLayerRects` -/

/-- The only message of `createLayerRects`. -/
inductive LayoutError where
  | imageTooSmall
  deriving DecidableEq, Repr

/-- Text of the message. -/
def LayoutError.message : LayoutError → String
  | .imageTooSmall => "Image too small, went over maximum Y value"

/-- Variables of the inner loop of `createLayerRects`: the cursor `w`, `h` and the
layer `*layer` whose `valueRects` is written. -/
structure LayoutState where
  w : Int
  h : Int
  layer : Layer
  deriving DecidableEq, Repr

/-- The loop over `layer->values` (lines 337-350), run on the values still to place.
`Except.error` is the early `return false`. -/
def placeValues (tileSize maxW maxH : Int) : List String → LayoutState → Except LayoutState LayoutState
  | [], st => .ok st
  | value :: rest, st =>
    if st.h > maxH then .error st
    else
      let rects := QMap.insert st.layer.valueRects value ⟨st.w * tileSize, st.h * tileSize, tileSize, tileSize⟩
      let w := st.w + 1
      let st1 : LayoutState :=
        if w > maxW then ⟨0, st.h + 1, { st.layer with valueRects := rects }⟩
        else ⟨w, st.h, { st.layer with valueRects := rects }⟩
      placeValues tileSize maxW maxH rest st1

/-- The loop over `layersOrdered` (lines 329-353): `done` are the layers already laid
out, the list argument the layers still to lay out, `h` the current row; `w` is 0 at
the start of every layer.  The result is `layersOrdered`. -/
def placeLayers (tileSize maxW maxH : Int) :
    List Layer → List Layer → Int → Except (List Layer) (List Layer)
  | [], done, _ => .ok done
  | l :: ls, done, h =>
    if h > maxH then .error (done ++ l :: ls)
    else
      match placeValues tileSize maxW maxH l.values ⟨0, h, l⟩ with
      | .error st => .error (done ++ st.layer :: ls)
      | .ok st => placeLayers tileSize maxW maxH ls (done ++ [st.layer]) (st.h + 1)

/-- `TileGen::createLayerRects`.  Reads `layerDef` and the size of `baseImg`; writes
the `valueRects` of the layers of `layerDef.layersOrdered` (not those of
`layerDef.layers`). -/
def createLayerRects (layerDef : LayerDefinition) (baseWidth baseHeight : Int) :
    Outcome LayoutError LayerDefinition :=
  let tileSize := layerDef.tileSize
  if layerDef.tileSize = 0 then .undefined
  else
    let maxW := Int.tdiv baseWidth layerDef.tileSize - 1
    let maxH := Int.tdiv baseHeight layerDef.tileSize - 1
    match placeLayers tileSize maxW maxH layerDef.layersOrdered [] 0 with
    | .error ls => .fail .imageTooSmall { layerDef with layersOrdered := ls }
    | .ok ls => .ok { layerDef with layersOrdered := ls }

/-! ## `generateTilesImage` -/

/-- One call `tp.drawImage(p, baseImg, source)`. -/
structure DrawCall where
  p : QPoint
  source : QRect
  deriving DecidableEq, Repr

/-- The member `tilesImg`: the size of the `QImage` and the draw calls issued on it,
in order.  The image starts fully transparent (`fill(qRgba(0, 0, 0, 0))`). -/
structure TilesImage where
  width : Int
  height : Int
  draws : List DrawCall
  deriving DecidableEq, Repr

/-- `QImage(width, height, format)`: a null image (size 0 x 0) unless both are positive. -/
def TilesImage.create (width height : Int) : TilesImage :=
  if 0 < width ∧ 0 < height then ⟨width, height, []⟩ else ⟨0, 0, []⟩

/-- The only message of `generateTilesImage`. -/
inductive GenerateError where
  | wentOverMaxY
  deriving DecidableEq, Repr

/-- Text of the message. -/
def GenerateError.message : GenerateError → String
  | .wentOverMaxY => "Calculation error??? Went over maximum Y value"

/-- Variables of the inner loop of `generateTilesImage`: the cursor `w`, `h`, the
layer `*l` (its `valueRects` is written by `l->valueRects[lv]`) and the draw calls. -/
structure PaintState where
  w : Int
  h : Int
  layer : Layer
  draws : List DrawCall
  deriving DecidableEq, Repr

/-- Body of the loop over `j` (lines 376-395), run on the tiles still to visit.
`Except.error` is the early `return false`. -/
def paintTiles (tileSize maxW maxH : Int) : List Tile → PaintState → Except PaintState PaintState
  | [], st => .ok st
  | t :: ts, st =>
    if st.h > maxH then .error st
    else
      let p : QPoint := ⟨st.w * tileSize, st.h * tileSize⟩
      let lv := QMap.at t st.layer.name ""
      let rects := QMap.touch st.layer.valueRects lv QRect.null
      let draws := if lv ≠ "" then st.draws ++ [⟨p, QMap.at rects lv QRect.null⟩] else st.draws
      let w := st.w + 1
      let st1 : PaintState :=
        if w > maxW then ⟨0, st.h + 1, { st.layer with valueRects := rects }, draws⟩
        else ⟨w, st.h, { st.layer with valueRects := rects }, draws⟩
      paintTiles tileSize maxW maxH ts st1

/-- The loop over the layers (lines 373-398): `done` are the layers already painted,
the list argument the layers still to paint.  `w` and `h` are 0 at the start of every
layer.  The result is `layersOrdered` and the draw calls. -/
def paintLayers (tileSize maxW maxH : Int) (tiles : List Tile) :
    List Layer → List Layer → List DrawCall →
      Except (List Layer × List DrawCall) (List Layer × List DrawCall)
  | [], done, draws => .ok (done, draws)
  | l :: ls, done, draws =>
    match paintTiles tileSize maxW maxH tiles ⟨0, 0, l, draws⟩ with
    | .error st => .error (done ++ st.layer :: ls, st.draws)
    | .ok st => paintLayers tileSize maxW maxH tiles ls (done ++ [st.layer]) st.draws

/-- The value is one an `int` holds. -/
def fitsInt (n : Int) : Prop := -2147483648 ≤ n ∧ n ≤ 2147483647

instance (n : Int) : Decidable (fitsInt n) := by
  unfold fitsInt
  exact inferInstance

/-- `TileGen::generateTilesImage`.  Reads `layerDef` and `tiles`; writes `tilesImg`
and, through `l->valueRects[lv]`, `layerDef.layersOrdered`.  The division of line 368 by
`maxW = 0` and an `int` product of line 369 that overflows are undefined. -/
def generateTilesImage (layerDef : LayerDefinition) (tiles : List Tile) :
    Outcome GenerateError (LayerDefinition × TilesImage) :=
  let tileSize := layerDef.tilesPerRow
  let maxW := layerDef.tilesPerRow - 1
  if maxW = 0 then .undefined
  else
    let maxH := Int.tdiv (tiles.length : Int) maxW - 1
    if ¬ (fitsInt ((maxW + 1) * tileSize) ∧ fitsInt (maxH * tileSize)) then .undefined
    else
      let img := TilesImage.create ((maxW + 1) * tileSize) (maxH * tileSize)
      match paintLayers tileSize maxW maxH tiles layerDef.layersOrdered [] [] with
      | .error (ls, draws) => .fail .wentOverMaxY ({ layerDef with layersOrdered := ls }, { img with draws := draws })
      | .ok (ls, draws) => .ok ({ layerDef with layersOrdered := ls }, { img with draws := draws })

/-! ## The end-to-end scenario of the specification -/

/-- A whole JSON number. -/
def QJsonValue.ofInt (n : Int) : QJsonValue := .double (.whole n)

/-- The layer scheme of the scenario: scheme "S", tile size 16, 4 tiles per row, one
layer "base" with the values "a" and "b". -/
def scenarioLayerScheme : QJsonObject :=
  [("Layers", .array [.object [("AllowNull", .bool false), ("DefaultValue", .string "a"),
      ("Name", .string "base"), ("Values", .array [.string "a", .string "b"])]]),
   ("SchemeName", .string "S"), ("SchemeType", .string "Layer"),
   ("TileSize", .ofInt 16), ("TilesPerRow", .ofInt 4)]

/-- The tile scheme with `TileCount = tileCount` whose single range `first .. last` selects
value "b"; the scenario has `tileCount = 2` and the range `0 .. 1`. -/
def rangeTileScheme (tileCount first last : Int) : QJsonObject :=
  [("LayerSchemeName", .string "S"), ("SchemeType", .string "Tile"),
   ("TileCount", .ofInt tileCount),
   ("Tiles", .array [.object [("End", .ofInt last),
      ("LayerValues", .object [("base", .string "b")]), ("Start", .ofInt first)]])]

/-- The layer "base" as `readLayerScheme` builds it. -/
def scenarioLayer : Layer := ⟨"base", 0, false, ["a", "b"], "a", []⟩

/-- The definition `readLayerScheme` builds from the scenario's layer scheme. -/
def scenarioParsed : LayerDefinition :=
  ⟨"S", 16, 4, [("base", scenarioLayer)], [scenarioLayer], [("base", "a")]⟩

/-- The definition after `createLayerRects` on a 32 x 16 base image. -/
def scenarioLayerDef : LayerDefinition :=
  { scenarioParsed with
    layersOrdered :=
      [{ scenarioLayer with valueRects := [("a", ⟨0, 0, 16, 16⟩), ("b", ⟨16, 0, 16, 16⟩)] }] }

/-- The tile sequence of `n` tiles that all select value "b". -/
def scenarioTiles (n : Nat) : List Tile := List.replicate n [("base", "b")]

/-- Size of the image held by `tilesImg` after a run, when the run is defined. -/
def canvasSize : Outcome GenerateError (LayerDefinition × TilesImage) → Option (Int × Int)
  | .ok s => some (s.2.width, s.2.height)
  | .fail _ s => some (s.2.width, s.2.height)
  | .undefined => none

/-- Destination points of the draw calls of a run, in the order they were issued. -/
def drawPoints : Outcome GenerateError (LayerDefinition × TilesImage) → List (Int × Int)
  | .ok s => s.2.draws.map (fun d => (d.p.x, d.p.y))
  | .fail _ s => s.2.draws.map (fun d => (d.p.x, d.p.y))
  | .undefined => []

/-! ## Notions used to state the properties -/

/-- The value of tile `t` for layer `L` is legal: a member of `L.values`, or empty
while `L` allows null.  `t[L.name]` is the empty string when the tile has no entry. -/
def Tile.validFor (t : Tile) (L : Layer) : Prop :=
  QMap.at t L.name "" ∈ L.values ∨ (QMap.at t L.name "" = "" ∧ L.allowNull = true)

instance (t : Tile) (L : Layer) : Decidable (Tile.validFor t L) := by
  unfold Tile.validFor
  exact inferInstance

/-- The normalized range `(start, end)` of an element of `Tiles`, when it has one. -/
def rangeOf (v : QJsonValue) : Option (Int × Int) :=
  match readRange 0 v.toObject with
  | .ok r => some r
  | .error _ => none

/-- Specification side: the normalized range of a range object, read off its members and
not off `readRange`: from the smaller to the larger of `Start` and `End`, where `End`
stands for `Start` when it is not given as a number.  No range when `Start` is not a whole
number or `End` is a number that is not whole. -/
def specRange (tileDef : QJsonObject) : Option (Int × Int) :=
  match QJsonObject.value tileDef "Start" with
  | .double (.whole first) =>
    match QJsonObject.value tileDef "End" with
    | .double (.whole last) => some (min first last, max first last)
    | .double .fractional => none
    | _ => some (first, first)
  | _ => none

/-- Specification side: the normalized range of the element contains the index `i`. -/
def covers (v : QJsonValue) (i : Nat) : Bool :=
  match specRange v.toObject with
  | some (a, b) => decide (a ≤ (i : Int) ∧ (i : Int) ≤ b)
  | none => false

/-- The last element of `Tiles` whose normalized range contains `i`. -/
def lastCovering (tilesArr : QJsonArray) (i : Nat) : Option QJsonValue :=
  (tilesArr.filter (fun v => covers v i)).getLast?

/-- Specification side: `defaultTile` overridden by every entry of `layerVals`. -/
def overrideTile (defaultTile : Tile) (layerVals : QJsonObject) : Tile :=
  (QMap.keys layerVals).foldl
    (fun tile layerKey => QMap.insert tile layerKey (QJsonObject.value layerVals layerKey).toString)
    defaultTile

/-- Specification side: the tile at index `i`, `defaultTile` overridden by the
`LayerValues` of the last element of `Tiles` whose range contains `i`, and `defaultTile`
itself when no range contains `i`. -/
def specTile (defaultTile : Tile) (tilesArr : QJsonArray) (i : Nat) : Tile :=
  match lastCovering tilesArr i with
  | some v => overrideTile defaultTile (QJsonObject.value v.toObject "LayerValues").toObject
  | none => defaultTile

/-- The object with member `key`, if present, set to `v`. -/
def QJsonObject.replace (json : QJsonObject) (key : String) (v : QJsonValue) : QJsonObject :=
  json.map (fun m => if m.1 = key then (m.1, v) else m)

/-- The range object with the values of `Start` and `End` exchanged. -/
def swapStartEnd (tileDef : QJsonObject) : QJsonObject :=
  QJsonObject.replace
    (QJsonObject.replace tileDef "Start" (QJsonObject.value tileDef "End"))
    "End" (QJsonObject.value tileDef "Start")

/-- The array with `Start` and `End` of element `k` exchanged. -/
def swapEntryAt : Nat → QJsonArray → QJsonArray
  | _, [] => []
  | 0, v :: rest => .object (swapStartEnd v.toObject) :: rest
  | k + 1, v :: rest => v :: swapEntryAt k rest

/-- The tile scheme with `Start` and `End` of element `k` of `Tiles` exchanged. -/
def swapEntry (json : QJsonObject) (k : Nat) : QJsonObject :=
  QJsonObject.replace json "Tiles" (.array (swapEntryAt k (QJsonObject.value json "Tiles").toArray))

/-- The scenario's tile scheme without `TileCount`, with the single range `0 .. 0`. -/
def noCountTileScheme : QJsonObject :=
  [("LayerSchemeName", .string "S"), ("SchemeType", .string "Tile"),
   ("Tiles", .array [.object [("LayerValues", .object [("base", .string "b")]), ("Start", .ofInt 0)]])]

/-- A tile scheme for scheme "S" without `TileCount` and with an empty `Tiles` array. -/
def noCountNoTilesScheme : QJsonObject :=
  [("LayerSchemeName", .string "S"), ("SchemeType", .string "Tile"), ("Tiles", .array [])]

/-- A layer scheme that declares the name "base" twice: first with the single value
"a", then with the single value "b". -/
def twiceLayerScheme : QJsonObject :=
  [("Layers", .array
      [.object [("DefaultValue", .string "a"), ("Name", .string "base"), ("Values", .array [.string "a"])],
       .object [("DefaultValue", .string "b"), ("Name", .string "base"), ("Values", .array [.string "b"])]]),
   ("SchemeName", .string "S"), ("SchemeType", .string "Layer"),
   ("TileSize", .ofInt 16), ("TilesPerRow", .ofInt 4)]

/-- The definition `readLayerScheme` builds from `twiceLayerScheme`. -/
def twiceParsed : LayerDefinition :=
  ⟨"S", 16, 4, [("base", ⟨"base", 1, true, ["b"], "b", []⟩)],
    [⟨"base", 0, true, ["a"], "a", []⟩, ⟨"base", 1, true, ["b"], "b", []⟩], [("base", "b")]⟩

/-- A tile scheme for scheme "S" with `TileCount = 1` and one range `0 .. 0` that sets
no layer value. -/
def plainTileScheme : QJsonObject :=
  [("LayerSchemeName", .string "S"), ("SchemeType", .string "Tile"),
   ("TileCount", .ofInt 1),
   ("Tiles", .array [.object [("LayerValues", .object []), ("Start", .ofInt 0)]])]

/-- The default value of the layer is legal: a member of `values`, or empty while the
layer allows null. -/
def Layer.defaultLegal (L : Layer) : Prop :=
  L.defaultValue ∈ L.values ∨ (L.defaultValue = "" ∧ L.allowNull = true)

/-- The last layer of the sequence declared under the name `k`. -/
def lastNamed (ls : List Layer) (k : String) : Option Layer :=
  (ls.filter (fun L => decide (L.name = k))).getLast?

/-- A tile scheme for scheme "S" with `TileCount = 4` and two overlapping ranges, both
written with `End` below `Start`: `Start: 2, End: 0` selects value "b", then
`Start: 3, End: 1` sets no layer value. -/
def reversedTileScheme : QJsonObject :=
  [("LayerSchemeName", .string "S"), ("SchemeType", .string "Tile"),
   ("TileCount", .ofInt 4),
   ("Tiles", .array
      [.object [("End", .ofInt 0), ("LayerValues", .object [("base", .string "b")]),
         ("Start", .ofInt 2)],
       .object [("End", .ofInt 1), ("LayerValues", .object []), ("Start", .ofInt 3)]])]

/-- A tile scheme for scheme "S" with `TileCount = 4` and two overlapping ranges: `0 .. 2`
selects value "b", then `1 .. 3` sets no layer value. -/
def overlapTileScheme : QJsonObject :=
  [("LayerSchemeName", .string "S"), ("SchemeType", .string "Tile"),
   ("TileCount", .ofInt 4),
   ("Tiles", .array
      [.object [("End", .ofInt 2), ("LayerValues", .object [("base", .string "b")]),
         ("Start", .ofInt 0)],
       .object [("End", .ofInt 3), ("LayerValues", .object []), ("Start", .ofInt 1)]])]

/-! ## `on_btnParse_clicked` -/

/-- The data members of the class `TileGen` (`baseImg` by its size). -/
structure Members where
  baseImg : Int × Int
  layerDef : LayerDefinition
  tiles : List Tile
  tilesImg : TilesImage
  deriving DecidableEq, Repr

/-- The members of a freshly constructed `TileGen`. -/
def Members.fresh : Members := ⟨(0, 0), .empty, [], ⟨0, 0, []⟩⟩

/-- What a run of the slot does to the outside: `print(message)`,
`error(message, msgBox)` and the call `tilesImg.save(&imgOut)` with the image it saves. -/
inductive UiEvent where
  | print (message : String)
  | error (message : String) (msgBox : Bool)
  | save (image : TilesImage)
  deriving DecidableEq, Repr

/-- `QImage::save`: a null image is never written; for any other image the answer is the
one of the encoder and the device, `encoderOk`. -/
def TilesImage.saves (image : TilesImage) (encoderOk : Bool) : Bool :=
  decide (0 < image.width ∧ 0 < image.height) && encoderOk

/-- Lines 126-136 of `on_btnParse_clicked`: the compositing stage and the output.  `none`
is a run without defined result. -/
def generateAndSave (s : Members) (encoderOk : Bool) (log : List UiEvent) :
    Option (Members × List UiEvent) :=
  let log1 := log ++ [.print "Generating tiles image"]
  match generateTilesImage s.layerDef s.tiles with
  | .undefined => none
  | .fail e (layerDef, tilesImg) =>
    let s1 := { s with layerDef := layerDef, tilesImg := tilesImg }
    let log2 := log1 ++ [.error "Generate fail!" false, .error e.message true,
      .print "Generate successful!", .print "Outputting tiles image", .save s1.tilesImg]
    if s1.tilesImg.saves encoderOk then some (s1, log2 ++ [.print "DONE!"])
    else some (s1, log2 ++ [.error "Could not save tiles image!" true, .print "DONE!"])
  | .ok (layerDef, tilesImg) =>
    let s1 := { s with layerDef := layerDef, tilesImg := tilesImg }
    let log2 := log1 ++ [.print "Generate successful!", .print "Outputting tiles image",
      .save s1.tilesImg]
    if s1.tilesImg.saves encoderOk then some (s1, log2 ++ [.print "DONE!"])
    else some (s1, log2 ++ [.error "Could not save tiles image!" true, .print "DONE!"])

/-- `TileGen::on_btnParse_clicked` from line 85 on, that is once the base image of size
`baseSize` is loaded into `baseImg`, the three files are open and the two JSON documents
have been parsed to the objects `layerJson` and `tileJson`.  The result is the members
after the run and the events of the run in order; `none` is a run without defined result. -/
def on_btnParse_clicked (s : Members) (baseSize : Int × Int) (layerJson tileJson : QJsonObject)
    (encoderOk : Bool) : Option (Members × List UiEvent) :=
  let s0 := { s with baseImg := baseSize }
  let log0 : List UiEvent := [.print "Now parsing layer scheme JSON..."]
  match readLayerScheme s0.layerDef layerJson with
  | .undefined => none
  | .fail e layerDef =>
    some ({ s0 with layerDef := layerDef }, log0 ++ [.error "Parse fail!" false, .error e.message true])
  | .ok layerDef =>
    let s1 := { s0 with layerDef := layerDef }
    let log1 := log0 ++ [.print "Parse success!", .print "Now parsing tile scheme JSON..."]
    match readTileScheme s1.layerDef s1.tiles tileJson with
    | .undefined => none
    | .fail e tiles =>
      some ({ s1 with tiles := tiles }, log1 ++ [.error "Parse fail!" false, .error e.message true])
    | .ok tiles =>
      let s2 := { s1 with tiles := tiles }
      let log2 := log1 ++ [.print "Parse success!", .print "Generating layer rects"]
      match createLayerRects s2.layerDef s2.baseImg.1 s2.baseImg.2 with
      | .undefined => none
      | .fail e layerDef =>
        generateAndSave { s2 with layerDef := layerDef } encoderOk
          (log2 ++ [.error "Generate fail!" false, .error e.message true])
      | .ok layerDef => generateAndSave { s2 with layerDef := layerDef } encoderOk log2

/-! ## Notions used to state the layout and compositing properties -/

/-- The pixel `(x, y)` of the output lies in the footprint of the draw call: the rectangle
of the size of `source` whose top-left corner is `p`. -/
def DrawCall.touches (d : DrawCall) (x y : Int) : Prop :=
  d.p.x ≤ x ∧ x < d.p.x + d.source.width ∧ d.p.y ≤ y ∧ y < d.p.y + d.source.height

instance (d : DrawCall) (x y : Int) : Decidable (d.touches x y) := by
  unfold DrawCall.touches
  exact inferInstance

/-- The pixel `(x, y)` lies in the destination cell the specification gives tile `i`:
top-left `((i mod tilesPerRow) * tileSize, (i div tilesPerRow) * tileSize)`, size
`tileSize x tileSize`. -/
def inCell (layerDef : LayerDefinition) (i : Nat) (x y : Int) : Prop :=
  ((i : Int) % layerDef.tilesPerRow) * layerDef.tileSize ≤ x ∧
  x < ((i : Int) % layerDef.tilesPerRow) * layerDef.tileSize + layerDef.tileSize ∧
  ((i : Int) / layerDef.tilesPerRow) * layerDef.tileSize ≤ y ∧
  y < ((i : Int) / layerDef.tilesPerRow) * layerDef.tileSize + layerDef.tileSize

instance (layerDef : LayerDefinition) (i : Nat) (x y : Int) : Decidable (inCell layerDef i x y) := by
  unfold inCell
  exact inferInstance

/-- The rect lies entirely inside a base atlas of the given size, for tiles of size
`tileSize`. -/
def QRect.inside (r : QRect) (tileSize width height : Int) : Prop :=
  0 ≤ r.x ∧ r.x + tileSize ≤ width ∧ 0 ≤ r.y ∧ r.y + tileSize ≤ height

/-- Layer `r` is layer `l` up to `valueRects`, and `valueRects` differs at most at the
values of the layer. -/
def Layer.sameButRects (l r : Layer) : Prop :=
  r = { l with valueRects := r.valueRects } ∧
  ∀ k, k ∉ l.values → QMap.find r.valueRects k = QMap.find l.valueRects k

/-- Walk of `placeLayers` that succeeds: `rs` are the layers `ls` after they have been
laid out one after the other, the first of them from row `h` on. -/
def LaidOut (tileSize maxW maxH : Int) : Int → List Layer → List Layer → Prop
  | _, [], rs => rs = []
  | h, l :: ls, rs =>
    ∃ st rs1, h ≤ maxH ∧ placeValues tileSize maxW maxH l.values ⟨0, h, l⟩ = .ok st ∧
      rs = st.layer :: rs1 ∧ LaidOut tileSize maxW maxH (st.h + 1) ls rs1

/-- Walk of `placeLayers` that succeeds on the layers `ls`, as `LaidOut`, and that leaves
the cursor at row `next`, the row at which a layer behind `ls` would start. -/
def LaidOutTo (tileSize maxW maxH : Int) : Int → List Layer → List Layer → Int → Prop
  | h, [], rs, next => rs = [] ∧ next = h
  | h, l :: ls, rs, next =>
    ∃ st rs1, h ≤ maxH ∧ placeValues tileSize maxW maxH l.values ⟨0, h, l⟩ = .ok st ∧
      rs = st.layer :: rs1 ∧ LaidOutTo tileSize maxW maxH (st.h + 1) ls rs1 next

/-! ## Further inputs -/

/-- A layer scheme "S" with tile size 16 and the given `TilesPerRow`, whose layer "base"
has the values "a" and "b", allows null and has no default value. -/
def nullableLayerScheme (tilesPerRow : Int) : QJsonObject :=
  [("Layers", .array [.object [("Name", .string "base"),
      ("Values", .array [.string "a", .string "b"])]]),
   ("SchemeName", .string "S"), ("SchemeType", .string "Layer"),
   ("TileSize", .ofInt 16), ("TilesPerRow", .ofInt tilesPerRow)]

/-- A layer scheme "S" with tile size 16 and two layers: "body" with the values "a" and
"b", then "color" with the value "c". -/
def twoLayerScheme : QJsonObject :=
  [("Layers", .array
      [.object [("Name", .string "body"), ("Values", .array [.string "a", .string "b"])],
       .object [("Name", .string "color"), ("Values", .array [.string "c"])]]),
   ("SchemeName", .string "S"), ("SchemeType", .string "Layer"),
   ("TileSize", .ofInt 16), ("TilesPerRow", .ofInt 4)]

/-- A layer scheme "S" with tile size 16 whose layer "base" has the three values "a",
"b" and "c". -/
def threeValueScheme : QJsonObject :=
  [("Layers", .array [.object [("Name", .string "base"),
      ("Values", .array [.string "a", .string "b", .string "c"])]]),
   ("SchemeName", .string "S"), ("SchemeType", .string "Layer"),
   ("TileSize", .ofInt 16), ("TilesPerRow", .ofInt 4)]

/-- The definition read from a layer scheme into the empty definition (the empty
definition itself when the scheme is not accepted). -/
def parsed (layerJson : QJsonObject) : LayerDefinition :=
  match readLayerScheme .empty layerJson with
  | .ok layerDef => layerDef
  | _ => .empty

/-- The `layersOrdered` a method leaves behind (empty for a run without defined result). -/
def layersAfter {ε : Type} : Outcome ε LayerDefinition → List Layer
  | .ok s => s.layersOrdered
  | .fail _ s => s.layersOrdered
  | .undefined => []

/-- The rect is the one `createLayerRects` assigns at column `w` and row `h` for some
column that is 0 or at most `maxW` and some row between `lo` and `hi` that is at most
`maxH`. -/
def QRect.placedIn (r : QRect) (tileSize maxW maxH lo hi : Int) : Prop :=
  ∃ w h : Int, r = ⟨w * tileSize, h * tileSize, tileSize, tileSize⟩ ∧
    (w = 0 ∨ (0 ≤ w ∧ w ≤ maxW)) ∧ lo ≤ h ∧ h ≤ hi ∧ h ≤ maxH

/-- The definition `createLayerRects` leaves behind, whether it succeeds or fails. -/
def afterLayout (layerDef : LayerDefinition) (baseWidth baseHeight : Int) : LayerDefinition :=
  match createLayerRects layerDef baseWidth baseHeight with
  | .ok ld => ld
  | .fail _ ld => ld
  | .undefined => layerDef

/-- The `DefaultValue` of a layer object is one `readLayerScheme` does not accept:
`AllowNull` is false and the default is empty or absent, or the default is not empty and
not among the `Values` that are left once empty strings are dropped. -/
def defaultRejected (layerObj : QJsonObject) : Prop :=
  ((QJsonObject.value layerObj "AllowNull").toBool true = false ∧
    (QJsonObject.value layerObj "DefaultValue").toString = "") ∨
  ((QJsonObject.value layerObj "DefaultValue").toString ≠ "" ∧
    (QJsonObject.value layerObj "DefaultValue").toString ∉
      readValues (QJsonObject.value layerObj "Values").toArray)

instance (layerObj : QJsonObject) : Decidable (defaultRejected layerObj) := by
  unfold defaultRejected
  exact inferInstance

/-- The checks a layer object has to pass by itself: a non-empty `Name`, a `Values` array
with at least one non-empty string, and a `DefaultValue` that is not rejected.  No other
layer of the scheme takes part. -/
def layerChecksPass (layerObj : QJsonObject) : Prop :=
  (QJsonObject.value layerObj "Name").toString ≠ "" ∧
  (QMap.contains layerObj "Values" = true ∧ (QJsonObject.value layerObj "Values").isArray = true) ∧
  (∃ v ∈ (QJsonObject.value layerObj "Values").toArray, v.toString ≠ "") ∧
  ¬ defaultRejected layerObj

instance (layerObj : QJsonObject) : Decidable (layerChecksPass layerObj) := by
  unfold layerChecksPass
  exact inferInstance

/-- The checks on the fields of the scheme outside the layer objects: `SchemeType` is
"Layer", `SchemeName` is not empty, `TileSize` and `TilesPerRow` are positive whole numbers
and `Layers` is an array. -/
def headerChecksPass (json : QJsonObject) : Prop :=
  (QJsonObject.value json "SchemeType").toString = "Layer" ∧
  (QJsonObject.value json "SchemeName").toString ≠ "" ∧
  0 < (QJsonObject.value json "TileSize").toInt (-1) ∧
  0 < (QJsonObject.value json "TilesPerRow").toInt (-1) ∧
  (QMap.contains json "Layers" = true ∧ (QJsonObject.value json "Layers").isArray = true)

instance (json : QJsonObject) : Decidable (headerChecksPass json) := by
  unfold headerChecksPass
  exact inferInstance

/-- A layer object named "base" with the values "a", "" and "b" and the given `AllowNull`
and `DefaultValue`. -/
def layerObject (allowNull : Bool) (defaultValue : String) : QJsonValue :=
  .object [("AllowNull", .bool allowNull), ("DefaultValue", .string defaultValue),
    ("Name", .string "base"), ("Values", .array [.string "a", .string "", .string "b"])]

/-- A layer scheme "S" with tile size 16, 4 tiles per row and the given layer objects. -/
def schemeOfLayers (layerObjs : List QJsonValue) : QJsonObject :=
  [("Layers", .array layerObjs), ("SchemeName", .string "S"), ("SchemeType", .string "Layer"),
   ("TileSize", .ofInt 16), ("TilesPerRow", .ofInt 4)]

/-- The definition left by reading a layer scheme into `layerDef`, accepted or not. -/
def parsedFrom (layerDef : LayerDefinition) (layerJson : QJsonObject) : LayerDefinition :=
  match readLayerScheme layerDef layerJson with
  | .ok ld => ld
  | .fail _ ld => ld
  | .undefined => layerDef

/-- The events of a run of the slot (none for a run without defined result). -/
def eventsOf : Option (Members × List UiEvent) → List UiEvent
  | some (_, events) => events
  | none => []

/-- The members after a run of the slot (the fresh members for a run without defined
result). -/
def membersOf : Option (Members × List UiEvent) → Members
  | some (s, _) => s
  | none => .fresh

/-- The images the events show as written: width, height and number of draw calls of
every image handed to `save` that `save` accepts. -/
def writtenImages (events : List UiEvent) (encoderOk : Bool) : List (Int × Int × Nat) :=
  events.filterMap (fun e =>
    match e with
    | .save image =>
      if image.saves encoderOk then some (image.width, image.height, image.draws.length) else none
    | _ => none)

/-- The draw calls of a run of `generateTilesImage`, in the order they were issued. -/
def drawCalls : Outcome GenerateError (LayerDefinition × TilesImage) → List DrawCall
  | .ok s => s.2.draws
  | .fail _ s => s.2.draws
  | .undefined => []

/-- Invariant of the members over the runs of the slot: as long as `tiles` is empty, no
layer of `layersOrdered` holds a rect. -/
def Members.clean (s : Members) : Prop :=
  s.tiles ≠ [] ∨ ∀ l ∈ s.layerDef.layersOrdered, l.valueRects = []

/-! ## Theorems -/

theorem QMap.find_insert {V : Type} (m : QMap V) (k : String) (v : V) (k' : String) :
    QMap.find (QMap.insert m k v) k' = if k' = k then some v else QMap.find m k' := by
  induction m with
  | nil => simp [QMap.insert, QMap.find]
  | cons hd t ih =>
    obtain ⟨a, b⟩ := hd
    simp only [QMap.insert]
    split
    · simp [QMap.find]
    · split
      · rename_i h1 h2
        subst h2
        by_cases h3 : k' = k <;> simp [QMap.find, h3]
      · rename_i h1 h2
        simp only [QMap.find, ih]
        by_cases h3 : k' = a
        · have h4 : ¬ k' = k := fun h => h2 (h.symm.trans h3)
          simp [h3, h4, Ne.symm h2]
        · simp [h3]

theorem QMap.at_insert {V : Type} (m : QMap V) (k : String) (v : V) (k' : String) (d : V) :
    QMap.at (QMap.insert m k v) k' d = if k' = k then v else QMap.at m k' d := by
  unfold QMap.at
  rw [QMap.find_insert]
  split <;> simp

theorem QMap.mem_keys_insert {V : Type} (m : QMap V) (k : String) (v : V) (k' : String) :
    k' ∈ QMap.keys (QMap.insert m k v) ↔ k' = k ∨ k' ∈ QMap.keys m := by
  induction m with
  | nil => simp [QMap.insert, QMap.keys]
  | cons hd t ih =>
    obtain ⟨a, b⟩ := hd
    simp only [QMap.insert]
    split
    · simp [QMap.keys]
    · split
      · rename_i h1 h2
        subst h2
        simp [QMap.keys]
      · simp only [QMap.keys, List.map_cons, List.mem_cons] at ih ⊢
        rw [ih]
        tauto

theorem QMap.find_isSome_iff {V : Type} (m : QMap V) (k : String) :
    (QMap.find m k).isSome = true ↔ k ∈ QMap.keys m := by
  induction m with
  | nil => simp [QMap.find, QMap.keys]
  | cons hd t ih =>
    obtain ⟨a, b⟩ := hd
    simp only [QMap.find, QMap.keys, List.map_cons, List.mem_cons] at ih ⊢
    by_cases h : k = a
    · simp [h]
    · simp [h, ih]

/-- Keys in strictly ascending order. -/
theorem QMap.sorted_insert {V : Type} (m : QMap V) (k : String) (v : V)
    (h : (QMap.keys m).Pairwise (fun a b => a.toList < b.toList)) :
    (QMap.keys (QMap.insert m k v)).Pairwise (fun a b => a.toList < b.toList) := by
  induction m with
  | nil => simp [QMap.insert, QMap.keys]
  | cons hd t ih =>
    obtain ⟨a, b⟩ := hd
    simp only [QMap.keys, List.map_cons, List.pairwise_cons] at h
    simp only [QMap.insert]
    split
    · rename_i h1
      simp only [QMap.keys, List.map_cons, List.pairwise_cons, List.mem_cons]
      refine ⟨?_, h⟩
      rintro x (rfl | hx)
      · exact h1
      · exact lt_trans h1 (h.1 x hx)
    · split
      · rename_i h1 h2
        subst h2
        simpa [QMap.keys] using h
      · rename_i h1 h2
        have h3 : a.toList < k.toList := by
          rcases lt_trichotomy k.toList a.toList with h4 | h4 | h4
          · exact absurd h4 h1
          · exact absurd (String.ext h4) h2
          · exact h4
        have ih2 := ih h.2
        simp only [QMap.keys, List.map_cons, List.pairwise_cons]
        refine ⟨?_, ih2⟩
        intro x hx
        have := (QMap.mem_keys_insert t k v x).1 hx
        rcases this with rfl | hx
        · exact h3
        · exact h.1 x hx

theorem QMap.nodup_of_sorted (l : List String)
    (h : l.Pairwise (fun a b => a.toList < b.toList)) : l.Nodup := by
  unfold List.Nodup
  refine h.imp ?_
  intro a b hab he
  subst he
  exact lt_irrefl _ hab

theorem writeRange_length (tile : Tile) (count i : Nat) (tiles tiles1 : List Tile)
    (h : writeRange tile count i tiles = some tiles1) : tiles1.length = tiles.length := by
  induction count generalizing i tiles with
  | zero =>
    simp only [writeRange, Option.some.injEq] at h
    rw [← h]
  | succ n ih =>
    simp only [writeRange] at h
    split at h
    · rw [ih _ _ h, List.length_set]
    · exact absurd h (by simp)

theorem readTiles_length (layerDef : LayerDefinition) (arr : QJsonArray) (i : Nat)
    (tiles tiles1 : List Tile) (h : readTiles layerDef i arr tiles = .ok tiles1) :
    tiles1.length = tiles.length := by
  induction arr generalizing i tiles with
  | nil =>
    simp only [readTiles, Outcome.ok.injEq] at h
    rw [← h]
  | cons v rest ih =>
    simp only [readTiles] at h
    split at h
    · exact absurd h (by simp)
    · split at h
      · exact absurd h (by simp)
      · split at h
        · exact absurd h (by simp)
        · split at h
          · exact absurd h (by simp)
          · split at h
            · exact absurd h (by simp)
            · split at h
              · exact absurd h (by simp)
              · rename_i hw
                rw [ih _ _ h, writeRange_length _ _ _ _ _ hw]

/-- What an accepting run of `readTileScheme` went through: `tiles` was empty,
`TileCount` was given, and the loop over `Tiles` ran on `TileCount` copies of the
default tile and kept that length. -/
theorem readTileScheme_ok_inv (layerDef : LayerDefinition) (tiles : List Tile)
    (json : QJsonObject) (ts : List Tile) (h : readTileScheme layerDef tiles json = .ok ts) :
    tiles = [] ∧ ∃ n : Nat, 0 < n ∧ readTileCount json = some (n : Int) ∧ ts.length = n ∧
      readTiles layerDef 0 (QJsonObject.value json "Tiles").toArray
        (List.replicate n layerDef.defaultTile) = .ok ts := by
  unfold readTileScheme at h
  split at h
  · exact absurd h (by simp)
  · simp only at h
    split at h
    · exact absurd h (by simp)
    · split at h
      · exact absurd h (by simp)
      · split at h
        · exact absurd h (by simp)
        · rename_i tileCount hc
          split at h
          · exact absurd h (by simp)
          · split at h
            · rename_i tiles2 hr
              split at h
              · exact absurd h (by simp)
              · rename_i hlen
                simp only [Outcome.ok.injEq] at h
                subst h
                have hl := readTiles_length _ _ _ _ _ hr
                simp only [List.length_append, List.length_replicate] at hl
                have hlen2 : (tiles2.length : Int) = tileCount := by
                  by_contra hne
                  exact hlen hne
                have h0 : 0 ≤ tileCount := by omega
                have ht : tiles.length = 0 := by omega
                have htiles : tiles = [] := List.length_eq_zero.mp ht
                subst htiles
                have hpos : 0 < tileCount := by
                  unfold readTileCount at hc
                  split at hc
                  · simp only at hc
                    split at hc
                    · exact absurd hc (by simp)
                    · simp only [Option.some.injEq] at hc
                      omega
                  · simp only [Option.some.injEq] at hc
                    omega
                refine ⟨rfl, tileCount.toNat, by omega, ?_, by omega, ?_⟩
                · rw [hc]
                  congr 1
                  omega
                · simpa using hr
            · rename_i hne
              cases hr : readTiles layerDef 0 (QJsonObject.value json "Tiles").toArray
                  (tiles ++ List.replicate tileCount.toNat layerDef.defaultTile) with
              | ok s => exact absurd hr (hne s)
              | fail e s => rw [hr] at h; exact absurd h (by simp)
              | undefined => rw [hr] at h; exact absurd h (by simp)

theorem QJsonValue.toInt_le (v : QJsonValue) : v.toInt (-1) ≤ 2147483647 := by
  unfold QJsonValue.toInt
  split
  · split <;> omega
  · omega

theorem readRange_error (i : Nat) (o : QJsonObject) (e : TileSchemeError)
    (h : readRange i o = .error e) : e.isCountMismatch = false := by
  unfold readRange at h
  split at h
  · simp only at h
    split at h
    · cases h; rfl
    · split at h
      · split at h
        · cases h; rfl
        · split at h <;> cases h
      · cases h
  · cases h; rfl

theorem readRange_index (i j : Nat) (o : QJsonObject) (r : Int × Int)
    (h : readRange i o = .ok r) : readRange j o = .ok r := by
  unfold readRange at h ⊢
  split at h
  · rename_i h1
    simp only [h1, and_self, if_true] at h ⊢
    split at h
    · cases h
    · rename_i h2
      simp only [h2, if_false]
      split at h
      · rename_i h3
        simp only [h3, and_self, if_true]
        split at h
        · cases h
        · rename_i h4
          simp only [h4, if_false]
          exact h
      · rename_i h3
        simp only [h3, if_false]
        exact h
  · cases h

theorem readRange_bounds (i : Nat) (o : QJsonObject) (a b : Int)
    (h : readRange i o = .ok (a, b)) : 0 ≤ a ∧ a ≤ b ∧ b ≤ 2147483647 := by
  have hs := QJsonValue.toInt_le (QJsonObject.value o "Start")
  have he := QJsonValue.toInt_le (QJsonObject.value o "End")
  unfold readRange at h
  split at h
  · simp only at h
    split at h
    · cases h
    · split at h
      · split at h
        · cases h
        · split at h
          · simp only [Except.ok.injEq, Prod.mk.injEq] at h
            omega
          · simp only [Except.ok.injEq, Prod.mk.injEq] at h
            omega
      · simp only [Except.ok.injEq, Prod.mk.injEq] at h
        omega
  · cases h

theorem rangeOf_of_readRange (i : Nat) (v : QJsonValue) (r : Int × Int)
    (h : readRange i v.toObject = .ok r) : rangeOf v = some r := by
  unfold rangeOf
  rw [readRange_index i 0 _ _ h]

theorem readLayerValues_cons (layerDef : LayerDefinition) (i : Nat) (layerVals : QJsonObject)
    (k : String) (rest : List String) (tile : Tile) :
    readLayerValues layerDef i layerVals (k :: rest) tile =
      match QMap.find layerDef.layers k with
      | none => .error (.unknownLayer i k)
      | some layer =>
        if (QJsonObject.value layerVals k).toString = "" ∧ layer.allowNull = false then
          .error (.nullNotAllowed i k)
        else if (QJsonObject.value layerVals k).toString ≠ "" ∧
            (QJsonObject.value layerVals k).toString ∉ layer.values then
          .error (.invalidValue i k)
        else readLayerValues layerDef i layerVals rest
          (QMap.insert tile k (QJsonObject.value layerVals k).toString) := by
  simp only [readLayerValues]
  cases QMap.find layerDef.layers k with
  | none => rfl
  | some layer =>
    simp only
    by_cases h1 : (QJsonObject.value layerVals k).toString = ""
    · simp [h1]
    · simp [h1]

theorem readLayerValues_error (layerDef : LayerDefinition) (i : Nat) (layerVals : QJsonObject)
    (keys : List String) (tile : Tile) (e : TileSchemeError)
    (h : readLayerValues layerDef i layerVals keys tile = .error e) : e.isCountMismatch = false := by
  induction keys generalizing tile with
  | nil => cases h
  | cons k rest ih =>
    rw [readLayerValues_cons] at h
    split at h
    · cases h; rfl
    · split at h
      · cases h; rfl
      · split at h
        · cases h; rfl
        · exact ih _ h

theorem readTiles_fail (layerDef : LayerDefinition) (arr : QJsonArray) (i : Nat)
    (tiles s : List Tile) (e : TileSchemeError)
    (h : readTiles layerDef i arr tiles = .fail e s) : e.isCountMismatch = false := by
  induction arr generalizing i tiles with
  | nil => cases h
  | cons v rest ih =>
    simp only [readTiles] at h
    split at h
    · cases h; rfl
    · split at h
      · rename_i hr
        cases h
        exact readRange_error _ _ _ hr
      · split at h
        · cases h; rfl
        · split at h
          · rename_i hr
            cases h
            exact readLayerValues_error _ _ _ _ _ _ hr
          · split at h
            · cases h
            · split at h
              · cases h
              · exact ih _ _ h

theorem writeRange_some (tile : Tile) (count i : Nat) (tiles : List Tile)
    (h : i + count ≤ tiles.length) : ∃ tiles1, writeRange tile count i tiles = some tiles1 := by
  induction count generalizing i tiles with
  | zero => exact ⟨tiles, rfl⟩
  | succ n ih =>
    simp only [writeRange]
    have h1 : i < tiles.length := by omega
    simp only [h1, if_true]
    apply ih
    rw [List.length_set]
    omega

theorem writeRange_getElem (tile : Tile) (count i : Nat) (tiles tiles1 : List Tile)
    (h : writeRange tile count i tiles = some tiles1) (j : Nat) :
    tiles1[j]? = if i ≤ j ∧ j < i + count then some tile else tiles[j]? := by
  induction count generalizing i tiles with
  | zero =>
    simp only [writeRange, Option.some.injEq] at h
    subst h
    have h0 : ¬ (i ≤ j ∧ j < i + 0) := by omega
    rw [if_neg h0]
  | succ n ih =>
    simp only [writeRange] at h
    split at h
    · rename_i hlt
      rw [ih _ _ h]
      by_cases h1 : i + 1 ≤ j ∧ j < i + 1 + n
      · have h2 : i ≤ j ∧ j < i + (n + 1) := by omega
        simp [h1, h2]
      · simp only [h1, if_false]
        by_cases h3 : j = i
        · subst h3
          have h2 : j ≤ j ∧ j < j + (n + 1) := by omega
          simp [h2, List.getElem?_set_self, hlt]
        · have h2 : ¬ (i ≤ j ∧ j < i + (n + 1)) := by omega
          simp only [h2, if_false]
          rw [List.getElem?_set_ne]
          omega
    · cases h

theorem readTiles_cons_ok (layerDef : LayerDefinition) (i : Nat) (v : QJsonValue)
    (rest : QJsonArray) (tiles ts : List Tile)
    (h : readTiles layerDef i (v :: rest) tiles = .ok ts) :
    ∃ a b tile tiles1, readRange i v.toObject = .ok (a, b) ∧
      readLayerValues layerDef i (QJsonObject.value v.toObject "LayerValues").toObject
        (QMap.keys (QJsonObject.value v.toObject "LayerValues").toObject) layerDef.defaultTile
          = .ok tile ∧
      writeRange tile (b + 1 - a).toNat a.toNat tiles = some tiles1 ∧
      readTiles layerDef (i + 1) rest tiles1 = .ok ts := by
  simp only [readTiles] at h
  split at h
  · cases h
  · split at h
    · cases h
    · rename_i a b hr
      split at h
      · cases h
      · split at h
        · cases h
        · rename_i tile ht
          split at h
          · cases h
          · split at h
            · cases h
            · rename_i tiles1 hw
              exact ⟨a, b, tile, tiles1, hr, ht, hw, h⟩

theorem readTiles_defined (layerDef : LayerDefinition) (m : Nat) (arr : QJsonArray) (i : Nat)
    (tiles : List Tile) (hm : ∀ r ∈ arr.filterMap rangeOf, r.2 ≤ (m : Int))
    (hlen : m < tiles.length) (hmax : tiles.length ≤ 2147483647) :
    readTiles layerDef i arr tiles ≠ .undefined := by
  induction arr generalizing i tiles with
  | nil => simp [readTiles]
  | cons v rest ih =>
    have hrest : ∀ r ∈ rest.filterMap rangeOf, r.2 ≤ (m : Int) := by
      intro r hr
      apply hm r
      simp only [List.filterMap_cons]
      split
      · exact hr
      · exact List.mem_cons_of_mem _ hr
    simp only [readTiles]
    split
    · simp
    · split
      · simp
      · rename_i a b hr
        have hb := readRange_bounds _ _ _ _ hr
        have hbm : b ≤ (m : Int) := by
          apply hm (a, b)
          simp only [List.filterMap_cons, rangeOf_of_readRange _ _ _ hr]
          exact List.mem_cons_self _ _
        split
        · simp
        · split
          · simp
          · rename_i tile ht
            split
            · omega
            · obtain ⟨tiles1, hw⟩ := writeRange_some tile (b + 1 - a).toNat a.toNat tiles (by omega)
              rw [hw]
              simp only
              apply ih
              · exact hrest
              · rw [writeRange_length _ _ _ _ _ hw]; exact hlen
              · rw [writeRange_length _ _ _ _ _ hw]; exact hmax

theorem readTiles_above (layerDef : LayerDefinition) (m : Nat) (arr : QJsonArray) (i : Nat)
    (tiles ts : List Tile) (hm : ∀ r ∈ arr.filterMap rangeOf, r.2 ≤ (m : Int))
    (h : readTiles layerDef i arr tiles = .ok ts) (j : Nat) (hj : m < j) :
    ts[j]? = tiles[j]? := by
  induction arr generalizing i tiles with
  | nil =>
    simp only [readTiles, Outcome.ok.injEq] at h
    rw [h]
  | cons v rest ih =>
    have hrest : ∀ r ∈ rest.filterMap rangeOf, r.2 ≤ (m : Int) := by
      intro r hr
      apply hm r
      simp only [List.filterMap_cons]
      split
      · exact hr
      · exact List.mem_cons_of_mem _ hr
    obtain ⟨a, b, tile, tiles1, hr, ht, hw, h2⟩ := readTiles_cons_ok _ _ _ _ _ _ h
    have hb := readRange_bounds _ _ _ _ hr
    have hbm : b ≤ (m : Int) := by
      apply hm (a, b)
      simp only [List.filterMap_cons, rangeOf_of_readRange _ _ _ hr]
      exact List.mem_cons_self _ _
    rw [ih _ _ hrest h2, writeRange_getElem _ _ _ _ _ hw]
    have : ¬ (a.toNat ≤ j ∧ j < a.toNat + (b + 1 - a).toNat) := by omega
    rw [if_neg this]

theorem readTileCount_of_value (json : QJsonObject) (n : Int)
    (hn : QJsonObject.value json "TileCount" = .ofInt n) :
    readTileCount json = if 0 < n ∧ n ≤ 2147483647 then some n else none := by
  have hc : QMap.contains json "TileCount" = true := by
    unfold QMap.contains
    unfold QJsonObject.value at hn
    cases hf : QMap.find json "TileCount" with
    | none => rw [hf] at hn; cases hn
    | some x => rfl
  unfold readTileCount
  simp only [hc, hn, QJsonValue.ofInt, QJsonValue.isDouble, QJsonValue.toInt, and_self, if_true]
  by_cases h1 : -2147483648 ≤ n ∧ n ≤ 2147483647
  · rw [if_pos h1]
    by_cases h2 : n ≤ 0
    · have h3 : ¬ (0 < n ∧ n ≤ 2147483647) := by omega
      rw [if_pos h2, if_neg h3]
    · have h3 : (0 < n ∧ n ≤ 2147483647) := by omega
      rw [if_neg h2, if_pos h3]
  · have h3 : ¬ (0 < n ∧ n ≤ 2147483647) := by omega
    rw [if_neg h1, if_neg h3]
    simp

theorem readTileScheme_shape (layerDef : LayerDefinition) (tiles : List Tile) (json : QJsonObject) :
    (∃ e s, readTileScheme layerDef tiles json = .fail e s ∧ e.isCountMismatch = false) ∨
    (∃ c, readTileCount json = some c ∧ readTileScheme layerDef tiles json =
      match readTiles layerDef 0 (QJsonObject.value json "Tiles").toArray
          (tiles ++ List.replicate c.toNat layerDef.defaultTile) with
      | .ok tiles2 =>
        if (tiles2.length : Int) ≠ c then .fail (.countMismatch tiles2.length c) tiles2
        else .ok tiles2
      | other => other) := by
  unfold readTileScheme
  split
  · exact Or.inl ⟨_, _, rfl, rfl⟩
  · simp only
    split
    · exact Or.inl ⟨_, _, rfl, rfl⟩
    · split
      · exact Or.inl ⟨_, _, rfl, rfl⟩
      · split
        · exact Or.inl ⟨_, _, rfl, rfl⟩
        · rename_i c hc
          split
          · exact Or.inl ⟨_, _, rfl, rfl⟩
          · exact Or.inr ⟨c, hc, rfl⟩


theorem readLayerValues_ok_eq (layerDef : LayerDefinition) (i : Nat) (layerVals : QJsonObject)
    (keys : List String) (tile t : Tile)
    (h : readLayerValues layerDef i layerVals keys tile = .ok t) :
    t = keys.foldl
      (fun tile layerKey => QMap.insert tile layerKey (QJsonObject.value layerVals layerKey).toString)
      tile := by
  induction keys generalizing tile with
  | nil =>
    simp only [readLayerValues, Except.ok.injEq] at h
    simp [h]
  | cons k rest ih =>
    rw [readLayerValues_cons] at h
    split at h
    · cases h
    · split at h
      · cases h
      · split at h
        · cases h
        · rw [List.foldl_cons]
          exact ih _ h

theorem QJsonValue.whole_of_toInt (v : QJsonValue) (hd : v.isDouble = true)
    (h : 0 ≤ v.toInt (-1)) : v = .double (.whole (v.toInt (-1))) := by
  cases v with
  | double d =>
    cases d with
    | whole n =>
      simp only [QJsonValue.toInt] at h ⊢
      split at h
      · rename_i hr
        rw [if_pos hr]
      · omega
    | fractional =>
      simp only [QJsonValue.toInt] at h
      omega
  | null => cases hd
  | bool b => cases hd
  | string s => cases hd
  | array a => cases hd
  | object o => cases hd
  | undefined => cases hd

theorem QJsonObject.not_double_of_not_contains (o : QJsonObject) (key : String)
    (h : ¬ (QMap.contains o key = true ∧ (QJsonObject.value o key).isDouble = true)) :
    (QJsonObject.value o key).isDouble = false := by
  cases hd : (QJsonObject.value o key).isDouble with
  | false => rfl
  | true =>
    exfalso
    apply h
    refine ⟨?_, hd⟩
    unfold QMap.contains
    unfold QJsonObject.value at hd
    cases hf : QMap.find o key with
    | none => rw [hf] at hd; cases hd
    | some x => rfl

/-- The range `readRange` computes is the normalized range of the specification. -/
theorem specRange_of_readRange (i : Nat) (o : QJsonObject) (r : Int × Int)
    (h : readRange i o = .ok r) : specRange o = some r := by
  unfold readRange at h
  split at h
  · rename_i hs
    simp only at h
    split at h
    · cases h
    · rename_i hs0
      have e1 := QJsonValue.whole_of_toInt _ hs.2 (by omega)
      split at h
      · rename_i he
        split at h
        · cases h
        · rename_i he0
          have e2 := QJsonValue.whole_of_toInt _ he.2 (by omega)
          unfold specRange
          rw [e1, e2]
          simp only
          split at h
          · rename_i hlt
            simp only [Except.ok.injEq] at h
            rw [← h, min_eq_right (by omega), max_eq_left (by omega)]
          · rename_i hlt
            simp only [Except.ok.injEq] at h
            rw [← h, min_eq_left (by omega), max_eq_right (by omega)]
      · rename_i he
        have e2 := QJsonObject.not_double_of_not_contains _ _ he
        simp only [Except.ok.injEq] at h
        unfold specRange
        rw [e1]
        simp only
        rw [← h]
        cases hv : QJsonObject.value o "End" with
        | double d => rw [hv] at e2; cases e2
        | null => rfl
        | bool b => rfl
        | string s => rfl
        | array a => rfl
        | object m => rfl
        | undefined => rfl
  · cases h

theorem lastCovering_cons (v : QJsonValue) (rest : QJsonArray) (j : Nat) :
    lastCovering (v :: rest) j =
      match lastCovering rest j with
      | some x => some x
      | none => if covers v j = true then some v else none := by
  unfold lastCovering
  rw [List.filter_cons]
  generalize List.filter (fun v => covers v j) rest = l
  by_cases hc : covers v j = true
  · rw [if_pos hc, List.getLast?_cons]
    cases l.getLast? with
    | none => simp [hc]
    | some x => rfl
  · rw [if_neg hc]
    cases l.getLast? with
    | none => simp [hc]
    | some x => rfl

theorem readTiles_spec (layerDef : LayerDefinition) (arr : QJsonArray) (i : Nat)
    (tiles ts : List Tile) (h : readTiles layerDef i arr tiles = .ok ts) (j : Nat)
    (hj : j < tiles.length) :
    ts[j]? = match lastCovering arr j with
      | some v =>
        some (overrideTile layerDef.defaultTile (QJsonObject.value v.toObject "LayerValues").toObject)
      | none => tiles[j]? := by
  induction arr generalizing i tiles with
  | nil =>
    simp only [readTiles, Outcome.ok.injEq] at h
    subst h
    simp [lastCovering]
  | cons v rest ih =>
    obtain ⟨a, b, tile, tiles1, hr, ht, hw, h2⟩ := readTiles_cons_ok _ _ _ _ _ _ h
    have hb := readRange_bounds _ _ _ _ hr
    have hl := writeRange_length _ _ _ _ _ hw
    rw [ih _ _ h2 (by omega), lastCovering_cons]
    cases lastCovering rest j with
    | some x => rfl
    | none =>
      simp only
      rw [writeRange_getElem _ _ _ _ _ hw]
      have hcov : covers v j = decide (a ≤ (j : Int) ∧ (j : Int) ≤ b) := by
        unfold covers
        rw [specRange_of_readRange _ _ _ hr]
      rw [hcov]
      by_cases h3 : a ≤ (j : Int) ∧ (j : Int) ≤ b
      · have h4 : a.toNat ≤ j ∧ j < a.toNat + (b + 1 - a).toNat := by omega
        simp only [h3, h4, and_self, decide_True, if_true]
        rw [readLayerValues_ok_eq _ _ _ _ _ _ ht]
        rfl
      · have h4 : ¬ (a.toNat ≤ j ∧ j < a.toNat + (b + 1 - a).toNat) := by omega
        simp only [h3, h4, decide_False, if_false]
        simp

theorem overrideTile_find_aux (layerVals : QJsonObject) (ks : List String) (t : Tile) (k : String) :
    QMap.find (ks.foldl
      (fun tile layerKey => QMap.insert tile layerKey (QJsonObject.value layerVals layerKey).toString)
      t) k = if k ∈ ks then some (QJsonObject.value layerVals k).toString else QMap.find t k := by
  induction ks generalizing t with
  | nil => simp
  | cons a rest ih =>
    rw [List.foldl_cons, ih, QMap.find_insert]
    by_cases h1 : k ∈ rest
    · simp [h1]
    · by_cases h2 : k = a
      · simp [h2]
      · simp [h1, h2]

/-- Entries of an overridden tile: the value given by `layerVals` for its keys, the
default tile's value for every other key. -/
theorem overrideTile_find (defaultTile : Tile) (layerVals : QJsonObject) (k : String) :
    QMap.find (overrideTile defaultTile layerVals) k =
      if k ∈ QMap.keys layerVals then some (QJsonObject.value layerVals k).toString
      else QMap.find defaultTile k :=
  overrideTile_find_aux layerVals (QMap.keys layerVals) defaultTile k

theorem QJsonObject.replace_cons (a : String) (b : QJsonValue) (t : QJsonObject) (key : String)
    (v : QJsonValue) :
    QJsonObject.replace ((a, b) :: t) key v =
      (a, if a = key then v else b) :: QJsonObject.replace t key v := by
  unfold QJsonObject.replace
  simp only [List.map_cons]
  by_cases h1 : a = key
  · simp [h1]
  · simp [h1]

theorem QJsonObject.find_replace (json : QJsonObject) (key : String) (v : QJsonValue) (k : String) :
    QMap.find (QJsonObject.replace json key v) k =
      if k = key then (QMap.find json k).map (fun _ => v) else QMap.find json k := by
  induction json with
  | nil => simp [QJsonObject.replace, QMap.find]
  | cons hd t ih =>
    obtain ⟨a, b⟩ := hd
    rw [QJsonObject.replace_cons]
    simp only [QMap.find, ih]
    by_cases h2 : k = a
    · subst h2
      by_cases h1 : k = key
      · simp [h1]
      · simp [h1]
    · simp [h2]

theorem QJsonObject.value_replace_ne (json : QJsonObject) (key : String) (v : QJsonValue)
    (k : String) (h : k ≠ key) :
    QJsonObject.value (QJsonObject.replace json key v) k = QJsonObject.value json k := by
  unfold QJsonObject.value
  rw [QJsonObject.find_replace, if_neg h]

theorem QJsonObject.contains_replace (json : QJsonObject) (key : String) (v : QJsonValue)
    (k : String) :
    QMap.contains (QJsonObject.replace json key v) k = QMap.contains json k := by
  unfold QMap.contains
  rw [QJsonObject.find_replace]
  split
  · cases QMap.find json k <;> rfl
  · rfl

theorem QJsonObject.value_replace_self (json : QJsonObject) (key : String) (v : QJsonValue)
    (h : QMap.contains json key = true) :
    QJsonObject.value (QJsonObject.replace json key v) key = v := by
  unfold QJsonObject.value
  rw [QJsonObject.find_replace, if_pos rfl]
  unfold QMap.contains at h
  cases hf : QMap.find json key with
  | none => rw [hf] at h; cases h
  | some x => rfl

theorem QJsonObject.contains_of_value (json : QJsonObject) (key : String) (d : JsonNumber)
    (h : QJsonObject.value json key = .double d) : QMap.contains json key = true := by
  unfold QMap.contains
  unfold QJsonObject.value at h
  cases hf : QMap.find json key with
  | none => rw [hf] at h; cases h
  | some x => rfl

theorem readRange_swapStartEnd (i : Nat) (o : QJsonObject) (a b : Int)
    (hs : QJsonObject.value o "Start" = .ofInt a) (he : QJsonObject.value o "End" = .ofInt b)
    (hb : 0 ≤ b) (hab : b < a) (ha : a ≤ 2147483647) :
    readRange i (swapStartEnd o) = readRange i o := by
  have hcs := QJsonObject.contains_of_value o "Start" _ hs
  have hce := QJsonObject.contains_of_value o "End" _ he
  have hs' : QJsonObject.value (swapStartEnd o) "Start" = .ofInt b := by
    unfold swapStartEnd
    rw [QJsonObject.value_replace_ne _ _ _ _ (by decide),
      QJsonObject.value_replace_self _ _ _ hcs, he]
  have he' : QJsonObject.value (swapStartEnd o) "End" = .ofInt a := by
    unfold swapStartEnd
    rw [QJsonObject.value_replace_self _ _ _ (by rw [QJsonObject.contains_replace]; exact hce), hs]
  have hcs' : QMap.contains (swapStartEnd o) "Start" = true := by
    unfold swapStartEnd
    rw [QJsonObject.contains_replace, QJsonObject.contains_replace]; exact hcs
  have hce' : QMap.contains (swapStartEnd o) "End" = true := by
    unfold swapStartEnd
    rw [QJsonObject.contains_replace, QJsonObject.contains_replace]; exact hce
  have ta : (QJsonValue.ofInt a).toInt (-1) = a := by
    unfold QJsonValue.ofInt QJsonValue.toInt
    simp only
    rw [if_pos (by omega)]
  have tb : (QJsonValue.ofInt b).toInt (-1) = b := by
    unfold QJsonValue.ofInt QJsonValue.toInt
    simp only
    rw [if_pos (by omega)]
  unfold readRange
  simp only [hcs, hce, hcs', hce', hs, he, hs', he', ta, tb]
  simp only [QJsonValue.ofInt, QJsonValue.isDouble, and_self, if_true]
  have h1 : ¬ a < 0 := by omega
  have h2 : ¬ b < 0 := by omega
  have h3 : ¬ a < b := by omega
  simp only [h1, h2, h3, hab, if_true, if_false]

theorem value_swapStartEnd (o : QJsonObject) (k : String) (h1 : k ≠ "Start") (h2 : k ≠ "End") :
    QJsonObject.value (swapStartEnd o) k = QJsonObject.value o k := by
  unfold swapStartEnd
  rw [QJsonObject.value_replace_ne _ _ _ _ h2, QJsonObject.value_replace_ne _ _ _ _ h1]

theorem readTiles_swapEntryAt (layerDef : LayerDefinition) (k : Nat) (arr : QJsonArray) (i : Nat)
    (tiles : List Tile) (o : QJsonObject) (a b : Int) (hk : arr[k]? = some (.object o))
    (hs : QJsonObject.value o "Start" = .ofInt a) (he : QJsonObject.value o "End" = .ofInt b)
    (hb : 0 ≤ b) (hab : b < a) (ha : a ≤ 2147483647) :
    readTiles layerDef i (swapEntryAt k arr) tiles = readTiles layerDef i arr tiles := by
  induction k generalizing arr i tiles with
  | zero =>
    cases arr with
    | nil => cases hk
    | cons v rest =>
      simp only [List.getElem?_cons_zero, Option.some.injEq] at hk
      subst hk
      simp only [swapEntryAt, readTiles, QJsonValue.toObject, QJsonValue.isObject]
      rw [readRange_swapStartEnd i o a b hs he hb hab ha,
        value_swapStartEnd o "LayerValues" (by decide) (by decide)]
  | succ k ih =>
    cases arr with
    | nil => cases hk
    | cons v rest =>
      simp only [List.getElem?_cons_succ] at hk
      simp only [swapEntryAt, readTiles]
      split
      · rfl
      · split
        · rfl
        · split
          · rfl
          · split
            · rfl
            · split
              · rfl
              · split
                · rfl
                · exact ih _ _ _ hk

theorem readTileCount_congr (json json1 : QJsonObject)
    (hc : QMap.contains json1 "TileCount" = QMap.contains json "TileCount")
    (hv : QJsonObject.value json1 "TileCount" = QJsonObject.value json "TileCount") :
    readTileCount json1 = readTileCount json := by
  unfold readTileCount
  rw [hc, hv]

theorem quotedOrUndefined_congr (json json1 : QJsonObject) (k : String)
    (hc : QMap.contains json1 k = QMap.contains json k)
    (hv : QJsonObject.value json1 k = QJsonObject.value json k) :
    quotedOrUndefined json1 k = quotedOrUndefined json k := by
  unfold quotedOrUndefined
  rw [hc, hv]

theorem readLayer_eq (i : Nat) (o : QJsonObject) :
    readLayer i o =
      if (QJsonObject.value o "Name").toString = "" then .error (.nameEmpty i)
      else if ¬ (QMap.contains o "Values" = true ∧ (QJsonObject.value o "Values").isArray = true) then
        .error (.valuesNotArray i)
      else if (readValues (QJsonObject.value o "Values").toArray).length = 0 then
        .error (.valuesEmpty i)
      else if (QJsonObject.value o "DefaultValue").toString = "" ∧
          (QJsonObject.value o "AllowNull").toBool true = false then
        .error (.defaultValueNull i)
      else if ¬ ((QJsonObject.value o "AllowNull").toBool true = true ∧
            (QJsonObject.value o "DefaultValue").toString = "") ∧
          (QJsonObject.value o "DefaultValue").toString ∉
            readValues (QJsonObject.value o "Values").toArray then
        .error (.defaultValueNotInValues i)
      else
        .ok ⟨(QJsonObject.value o "Name").toString, i, (QJsonObject.value o "AllowNull").toBool true,
          readValues (QJsonObject.value o "Values").toArray,
          (QJsonObject.value o "DefaultValue").toString, []⟩ := by
  unfold readLayer
  simp only
  by_cases h : (QJsonObject.value o "AllowNull").toBool true = true ∧
      (QJsonObject.value o "DefaultValue").toString = ""
  · simp [h]
  · simp [h]

theorem readLayer_ok (i : Nat) (o : QJsonObject) (L : Layer) (h : readLayer i o = .ok L) :
    L.name = (QJsonObject.value o "Name").toString ∧
    L.defaultValue = (QJsonObject.value o "DefaultValue").toString ∧
    L.defaultLegal := by
  rw [readLayer_eq] at h
  split at h
  · cases h
  · split at h
    · cases h
    · split at h
      · cases h
      · split at h
        · cases h
        · rename_i hnull
          split at h
          · cases h
          · rename_i hchk
            simp only [Except.ok.injEq] at h
            subst h
            refine ⟨rfl, rfl, ?_⟩
            unfold Layer.defaultLegal
            simp only
            by_cases hd : (QJsonObject.value o "DefaultValue").toString = ""
            · right
              refine ⟨hd, ?_⟩
              cases ha : (QJsonObject.value o "AllowNull").toBool true with
              | true => rfl
              | false => exact absurd ⟨hd, ha⟩ hnull
            · left
              by_contra hmem
              apply hchk
              refine ⟨?_, hmem⟩
              intro hh
              exact hd hh.2

theorem readLayers_cons_ok (i : Nat) (v : QJsonValue) (rest : QJsonArray)
    (ld ld1 : LayerDefinition) (h : readLayers i (v :: rest) ld = .ok ld1) :
    ∃ L, readLayer i v.toObject = .ok L ∧
      readLayers (i + 1) rest
        { ld with
          layers := QMap.insert ld.layers L.name L
          layersOrdered := ld.layersOrdered ++ [L] } = .ok ld1 := by
  simp only [readLayers] at h
  split at h
  · cases h
  · split at h
    · cases h
    · rename_i L hL
      exact ⟨L, hL, h⟩

theorem lastNamed_append (ls : List Layer) (L : Layer) (k : String) :
    lastNamed (ls ++ [L]) k = if L.name = k then some L else lastNamed ls k := by
  unfold lastNamed
  rw [List.filter_append]
  by_cases h : L.name = k
  · simp [h, List.filter_cons]
  · simp [h, List.filter_cons]

theorem lastNamed_some (ls : List Layer) (k : String) (L : Layer) (h : lastNamed ls k = some L) :
    L ∈ ls ∧ L.name = k := by
  unfold lastNamed at h
  have hm := List.mem_of_getLast?_eq_some h
  rw [List.mem_filter] at hm
  exact ⟨hm.1, by simpa using hm.2⟩

theorem lastNamed_isSome (ls : List Layer) (L : Layer) (h : L ∈ ls) :
    ∃ L1, lastNamed ls L.name = some L1 := by
  unfold lastNamed
  have hm : L ∈ ls.filter (fun L1 => decide (L1.name = L.name)) := by
    rw [List.mem_filter]
    exact ⟨h, by simp⟩
  cases hl : (ls.filter (fun L1 => decide (L1.name = L.name))).getLast? with
  | some x => exact ⟨x, rfl⟩
  | none =>
    rw [List.getLast?_eq_none_iff] at hl
    rw [hl] at hm
    cases hm

theorem lastNamed_of_nodup (ls : List Layer) (L : Layer) (h : L ∈ ls)
    (hn : (ls.map Layer.name).Nodup) : lastNamed ls L.name = some L := by
  obtain ⟨L1, h1⟩ := lastNamed_isSome ls L h
  obtain ⟨hm, hname⟩ := lastNamed_some ls _ _ h1
  rw [h1]
  congr 1
  exact List.inj_on_of_nodup_map hn hm h hname

theorem readLayers_inv (i : Nat) (arr : QJsonArray) (ld ld1 : LayerDefinition)
    (h : readLayers i arr ld = .ok ld1)
    (h1 : ∀ k, QMap.find ld.layers k = lastNamed ld.layersOrdered k)
    (h2 : ∀ L ∈ ld.layersOrdered, L.defaultLegal)
    (h3 : (QMap.keys ld.layers).Pairwise (fun a b => a.toList < b.toList)) :
    (∀ k, QMap.find ld1.layers k = lastNamed ld1.layersOrdered k) ∧
    (∀ L ∈ ld1.layersOrdered, L.defaultLegal) ∧
    (QMap.keys ld1.layers).Pairwise (fun a b => a.toList < b.toList) ∧
    ld1.defaultTile = ld.defaultTile ∧
    ld1.layersOrdered.map (fun L => (L.name, L.defaultValue)) =
      ld.layersOrdered.map (fun L => (L.name, L.defaultValue)) ++
        arr.map (fun v => ((QJsonObject.value v.toObject "Name").toString,
          (QJsonObject.value v.toObject "DefaultValue").toString)) := by
  induction arr generalizing i ld with
  | nil =>
    simp only [readLayers, Outcome.ok.injEq] at h
    subst h
    exact ⟨h1, h2, h3, rfl, by simp⟩
  | cons v rest ih =>
    obtain ⟨L, hL, hrest⟩ := readLayers_cons_ok _ _ _ _ _ h
    obtain ⟨hname, hdef, hlegal⟩ := readLayer_ok _ _ _ hL
    have := ih _ _ hrest
      (by
        intro k
        simp only
        rw [QMap.find_insert, lastNamed_append, h1]
        by_cases hk : k = L.name
        · simp [hk]
        · have hk2 : ¬ L.name = k := fun hh => hk hh.symm
          simp [hk, hk2])
      (by
        intro L1 hL1
        simp only [List.mem_append, List.mem_singleton] at hL1
        rcases hL1 with hL1 | hL1
        · exact h2 L1 hL1
        · rw [hL1]; exact hlegal)
      (QMap.sorted_insert _ _ _ h3)
    obtain ⟨g1, g2, g3, g4, g5⟩ := this
    refine ⟨g1, g2, g3, g4, ?_⟩
    rw [g5]
    simp [hname, hdef]

theorem fillDefaultTile_find (layers : QMap Layer) (ks : List String) (dt : Tile) (k : String) :
    QMap.find (fillDefaultTile layers ks dt) k =
      if k ∈ ks then some (QMap.at layers k Layer.null).defaultValue else QMap.find dt k := by
  induction ks generalizing dt with
  | nil => simp [fillDefaultTile]
  | cons a rest ih =>
    simp only [fillDefaultTile]
    rw [ih, QMap.find_insert]
    by_cases h1 : k ∈ rest
    · simp [h1]
    · by_cases h2 : k = a
      · simp [h2]
      · simp [h1, h2]

theorem fillDefaultTile_keys (layers : QMap Layer) (ks : List String) (dt : Tile) (k : String) :
    k ∈ QMap.keys (fillDefaultTile layers ks dt) ↔ k ∈ ks ∨ k ∈ QMap.keys dt := by
  induction ks generalizing dt with
  | nil => simp [fillDefaultTile]
  | cons a rest ih =>
    simp only [fillDefaultTile]
    rw [ih, QMap.mem_keys_insert]
    simp only [List.mem_cons]
    tauto

theorem fillDefaultTile_sorted (layers : QMap Layer) (ks : List String) (dt : Tile)
    (h : (QMap.keys dt).Pairwise (fun a b => a.toList < b.toList)) :
    (QMap.keys (fillDefaultTile layers ks dt)).Pairwise (fun a b => a.toList < b.toList) := by
  induction ks generalizing dt with
  | nil => exact h
  | cons a rest ih =>
    simp only [fillDefaultTile]
    exact ih _ (QMap.sorted_insert _ _ _ h)

theorem readLayerScheme_ok_inv (layerDef : LayerDefinition) (json : QJsonObject)
    (ld : LayerDefinition) (h : readLayerScheme layerDef json = .ok ld) :
    ∃ ld3 ld4, ld3.layers = layerDef.layers ∧ ld3.layersOrdered = layerDef.layersOrdered ∧
      ld3.defaultTile = layerDef.defaultTile ∧
      readLayers 0 (QJsonObject.value json "Layers").toArray ld3 = .ok ld4 ∧
      ld = { ld4 with
        defaultTile := fillDefaultTile ld4.layers (QMap.keys ld4.layers) ld4.defaultTile } := by
  unfold readLayerScheme at h
  split at h
  · cases h
  · simp only at h
    split at h
    · cases h
    · split at h
      · cases h
      · split at h
        · cases h
        · split at h
          · cases h
          · split at h
            · rename_i ld4 hr
              simp only [Outcome.ok.injEq] at h
              exact ⟨_, ld4, by rfl, by rfl, by rfl, hr, h.symm⟩
            · rename_i hne
              cases hr : readLayers 0 (QJsonObject.value json "Layers").toArray
                  { name := (QJsonObject.value json "SchemeName").toString,
                    tileSize := (QJsonObject.value json "TileSize").toInt (-1),
                    tilesPerRow := (QJsonObject.value json "TilesPerRow").toInt (-1),
                    layers := layerDef.layers, layersOrdered := layerDef.layersOrdered,
                    defaultTile := layerDef.defaultTile } with
              | ok s => exact absurd hr (hne s)
              | fail e s => rw [hr] at h; cases h
              | undefined => rw [hr] at h; cases h

/-- What `readLayerScheme` establishes when it accepts a scheme from the empty definition. -/
theorem readLayerScheme_empty_inv (json : QJsonObject) (ld : LayerDefinition)
    (h : readLayerScheme .empty json = .ok ld) :
    (∀ k, QMap.find ld.layers k = lastNamed ld.layersOrdered k) ∧
    (∀ L ∈ ld.layersOrdered, L.defaultLegal) ∧
    (∀ k, QMap.find ld.defaultTile k = (QMap.find ld.layers k).map Layer.defaultValue) ∧
    (QMap.keys ld.defaultTile).Pairwise (fun a b => a.toList < b.toList) ∧
    ld.layersOrdered.map (fun L => (L.name, L.defaultValue)) =
      (QJsonObject.value json "Layers").toArray.map
        (fun v => ((QJsonObject.value v.toObject "Name").toString,
          (QJsonObject.value v.toObject "DefaultValue").toString)) := by
  obtain ⟨ld3, ld4, e1, e2, e3, hr, hld⟩ := readLayerScheme_ok_inv _ _ _ h
  have e1' : ld3.layers = [] := e1
  have e2' : ld3.layersOrdered = [] := e2
  have e3' : ld3.defaultTile = [] := e3
  obtain ⟨g1, g2, g3, g4, g5⟩ := readLayers_inv 0 _ ld3 ld4 hr
    (by intro k; rw [e1', e2']; rfl)
    (by intro L hL; rw [e2'] at hL; cases hL)
    (by rw [e1']; exact List.Pairwise.nil)
  subst hld
  simp only
  refine ⟨g1, g2, ?_, ?_, ?_⟩
  · intro k
    rw [fillDefaultTile_find, g4, e3']
    by_cases hk : k ∈ QMap.keys ld4.layers
    · rw [if_pos hk]
      have hs := (QMap.find_isSome_iff ld4.layers k).2 hk
      unfold QMap.at
      cases hf : QMap.find ld4.layers k with
      | none => rw [hf] at hs; cases hs
      | some L => rfl
    · rw [if_neg hk]
      have hs : ¬ (QMap.find ld4.layers k).isSome = true :=
        fun hh => hk ((QMap.find_isSome_iff ld4.layers k).1 hh)
      cases hf : QMap.find ld4.layers k with
      | none => rfl
      | some L => rw [hf] at hs; exact absurd rfl hs
  · apply fillDefaultTile_sorted
    rw [g4, e3']
    exact List.Pairwise.nil
  · rw [g5, e2']
    rfl

theorem QMap.find_eq_none_iff {V : Type} (m : QMap V) (k : String) :
    QMap.find m k = none ↔ k ∉ QMap.keys m := by
  rw [← QMap.find_isSome_iff]
  cases QMap.find m k <;> simp

theorem writeRange_mem (tile : Tile) (count i : Nat) (tiles tiles1 : List Tile)
    (h : writeRange tile count i tiles = some tiles1) (t : Tile) (ht : t ∈ tiles1) :
    t = tile ∨ t ∈ tiles := by
  induction count generalizing i tiles with
  | zero =>
    simp only [writeRange, Option.some.injEq] at h
    subst h
    exact Or.inr ht
  | succ n ih =>
    simp only [writeRange] at h
    split at h
    · rcases ih _ _ h with h1 | h1
      · exact Or.inl h1
      · rcases List.mem_or_eq_of_mem_set h1 with h2 | h2
        · exact Or.inr h2
        · exact Or.inl h2
    · cases h

theorem readLayerValues_valid (layerDef : LayerDefinition) (i : Nat) (layerVals : QJsonObject)
    (keys : List String) (tile t : Tile)
    (hname : ∀ k L, QMap.find layerDef.layers k = some L → L.name = k)
    (hinv : ∀ k L, QMap.find layerDef.layers k = some L → Tile.validFor tile L)
    (h : readLayerValues layerDef i layerVals keys tile = .ok t) :
    ∀ k L, QMap.find layerDef.layers k = some L → Tile.validFor t L := by
  induction keys generalizing tile with
  | nil =>
    simp only [readLayerValues, Except.ok.injEq] at h
    subst h
    exact hinv
  | cons key rest ih =>
    rw [readLayerValues_cons] at h
    split at h
    · cases h
    · rename_i layer hfind
      split at h
      · cases h
      · rename_i hnull
        split at h
        · cases h
        · rename_i hval
          apply ih _ _ h
          intro k L hkL
          unfold Tile.validFor
          rw [QMap.at_insert]
          by_cases hk : L.name = key
          · rw [if_pos hk]
            have hLk := hname k L hkL
            have hkk : k = key := hLk.symm.trans hk
            subst hkk
            rw [hfind] at hkL
            simp only [Option.some.injEq] at hkL
            subst hkL
            by_cases hv : (QJsonObject.value layerVals k).toString = ""
            · right
              refine ⟨hv, ?_⟩
              cases ha : layer.allowNull with
              | true => rfl
              | false => exact absurd ⟨hv, ha⟩ hnull
            · left
              by_contra hmem
              exact hval ⟨hv, hmem⟩
          · rw [if_neg hk]
            exact hinv k L hkL

theorem readTiles_valid (layerDef : LayerDefinition) (arr : QJsonArray) (i : Nat)
    (tiles ts : List Tile)
    (hname : ∀ k L, QMap.find layerDef.layers k = some L → L.name = k)
    (hdef : ∀ k L, QMap.find layerDef.layers k = some L → Tile.validFor layerDef.defaultTile L)
    (hinv : ∀ t ∈ tiles, ∀ k L, QMap.find layerDef.layers k = some L → Tile.validFor t L)
    (h : readTiles layerDef i arr tiles = .ok ts) :
    ∀ t ∈ ts, ∀ k L, QMap.find layerDef.layers k = some L → Tile.validFor t L := by
  induction arr generalizing i tiles with
  | nil =>
    simp only [readTiles, Outcome.ok.injEq] at h
    subst h
    exact hinv
  | cons v rest ih =>
    obtain ⟨a, b, tile, tiles1, hr, ht, hw, h2⟩ := readTiles_cons_ok _ _ _ _ _ _ h
    apply ih _ _ _ h2
    intro t htm
    rcases writeRange_mem _ _ _ _ _ hw t htm with h3 | h3
    · rw [h3]
      exact readLayerValues_valid _ _ _ _ _ _ hname hdef ht
    · exact hinv t h3

/-- The image `generateTilesImage` allocates, for any definition and tiles whose image
size stays in the range of `int`: its size is computed from `tilesPerRow` and the number of
tiles alone, `layerDef.tileSize` is not read. -/
theorem generateTilesImage_canvas (layerDef : LayerDefinition) (tiles : List Tile)
    (h : layerDef.tilesPerRow ≠ 1)
    (hw : fitsInt (layerDef.tilesPerRow * layerDef.tilesPerRow))
    (hh : fitsInt ((Int.tdiv tiles.length (layerDef.tilesPerRow - 1) - 1) * layerDef.tilesPerRow)) :
    canvasSize (generateTilesImage layerDef tiles) =
      some ((TilesImage.create (layerDef.tilesPerRow * layerDef.tilesPerRow)
          ((Int.tdiv tiles.length (layerDef.tilesPerRow - 1) - 1) * layerDef.tilesPerRow)).width,
        (TilesImage.create (layerDef.tilesPerRow * layerDef.tilesPerRow)
          ((Int.tdiv tiles.length (layerDef.tilesPerRow - 1) - 1) * layerDef.tilesPerRow)).height) := by
  have h0 : ¬ (layerDef.tilesPerRow - 1 = 0) := by omega
  have h1 : layerDef.tilesPerRow - 1 + 1 = layerDef.tilesPerRow := by omega
  unfold generateTilesImage
  simp only [h0, if_false, h1, hw, hh, and_self, not_true_eq_false]
  split <;> rfl

/-! ## The claims -/

/-- The fixtures are what the methods compute on the scenario: `readLayerScheme`,
`readTileScheme` and `createLayerRects` succeed with the states named above. -/
theorem scenario_pipeline :
    readLayerScheme .empty scenarioLayerScheme = .ok scenarioParsed ∧
    readTileScheme scenarioParsed [] (rangeTileScheme 2 0 1) = .ok (scenarioTiles 2) ∧
    createLayerRects scenarioParsed 32 16 = .ok scenarioLayerDef := by
  decide

/-- C1 (the code departs from it): on the scenario (tile size 16, 4 tiles per row, 2 tiles)
the image allocated is the null image, not 64 x 16, and with 8 tiles it is 16 x 4, not
64 x 32: line 366 takes `tilesPerRow` for the tile size and line 368 divides by
`tilesPerRow - 1`. -/
theorem generateTilesImage_canvas_scenario :
    canvasSize (generateTilesImage scenarioLayerDef (scenarioTiles 2)) = some (0, 0) ∧
    canvasSize (generateTilesImage scenarioLayerDef (scenarioTiles 8)) = some (16, 4) := by
  decide

/-- C2 (the code departs from it): with tile size 16 and 4 tiles per row the eight tiles are
painted at multiples of 4, the value of `tilesPerRow`, so tile 1 lands at (4, 0) and
not at (16, 0). -/
theorem generateTilesImage_points_scenario :
    drawPoints (generateTilesImage scenarioLayerDef (scenarioTiles 8)) =
      [(0, 0), (4, 0), (8, 0), (12, 0), (0, 4), (4, 4), (8, 4), (12, 4)] := by
  decide

/-- C3 (the code departs from it): on the scenario (4 tiles per row, 2 tiles, one layer)
the method takes the "went over maximum Y value" branch before any tile is painted, and
with 1 tile per row the row bound divides by zero. -/
theorem generateTilesImage_fails_scenario :
    generateTilesImage scenarioLayerDef (scenarioTiles 2) =
      .fail .wentOverMaxY (scenarioLayerDef, ⟨0, 0, []⟩) ∧
    generateTilesImage { scenarioLayerDef with tilesPerRow := 1 } (scenarioTiles 2) = .undefined := by
  decide

/-- Without `TileCount` no tile scheme is accepted, whatever `tiles` held before: the
length is compared with the value -1 that `tileCount` keeps. -/
theorem readTileScheme_needs_TileCount (layerDef : LayerDefinition) (tiles ts : List Tile)
    (json : QJsonObject) (hc : QMap.contains json "TileCount" = false) :
    readTileScheme layerDef tiles json ≠ .ok ts := by
  intro h
  obtain ⟨_, n, hpos, hcount, _, _⟩ := readTileScheme_ok_inv _ _ _ _ h
  unfold readTileCount at hcount
  rw [hc] at hcount
  simp only [Bool.false_eq_true, false_and, if_false, Option.some.injEq] at hcount
  omega

/-- C4 (the code departs from it): the scenario's tile scheme without `TileCount` is not
accepted.  From the empty sequence the first write `tiles[0] = tile` is out of range; from
a sequence that already holds one tile the write succeeds and the final check, which is
not skipped, compares the length 1 with -1; with no range at all the check compares the
length 0 with -1. -/
theorem readTileScheme_without_TileCount :
    readTileScheme scenarioParsed [] noCountTileScheme = .undefined ∧
    readTileScheme scenarioParsed [[("base", "a")]] noCountTileScheme =
      .fail (.countMismatch 1 (-1)) [[("base", "b")]] ∧
    readTileScheme scenarioParsed [] noCountNoTilesScheme = .fail (.countMismatch 0 (-1)) [] ∧
    (TileSchemeError.countMismatch 1 (-1)).message =
      "Generated tile count (1) does not match TileCount (-1)" := by
  decide

/-- C5, as amended: when `TileCount = n` is declared and every range ends at or below `m`
with `m < n - 1`, a run from the empty sequence is defined and never ends in the count
mismatch message; if it is accepted the sequence has exactly `n` tiles and those above
`m` are `defaultTile`. -/
theorem readTileScheme_presized (layerDef : LayerDefinition) (json : QJsonObject) (n m : Nat)
    (hn : QJsonObject.value json "TileCount" = .ofInt n)
    (hm : ∀ r ∈ (QJsonObject.value json "Tiles").toArray.filterMap rangeOf, r.2 ≤ (m : Int))
    (hmn : m + 1 < n) :
    readTileScheme layerDef [] json ≠ .undefined ∧
    (∀ e s, readTileScheme layerDef [] json = .fail e s → e.isCountMismatch = false) ∧
    (∀ ts, readTileScheme layerDef [] json = .ok ts →
      ts.length = n ∧ ∀ j, m < j → j < n → ts[j]? = some layerDef.defaultTile) := by
  rcases readTileScheme_shape layerDef [] json with ⟨e, s, h1, h2⟩ | ⟨c, hc, h1⟩
  · rw [h1]
    refine ⟨by simp, ?_, by simp⟩
    intro e' s' h3
    cases h3
    exact h2
  · rw [readTileCount_of_value json n hn] at hc
    split at hc
    · rename_i hrange
      simp only [Option.some.injEq] at hc
      subst hc
      simp only [List.nil_append, Int.toNat_ofNat] at h1
      have hdef := readTiles_defined layerDef m (QJsonObject.value json "Tiles").toArray 0
        (List.replicate n layerDef.defaultTile) hm (by simp; omega) (by simp; omega)
      cases hr : readTiles layerDef 0 (QJsonObject.value json "Tiles").toArray
          (List.replicate n layerDef.defaultTile) with
      | undefined => exact absurd hr hdef
      | fail e s =>
        rw [hr] at h1
        simp only at h1
        rw [h1]
        refine ⟨by simp, ?_, by simp⟩
        intro e' s' h3
        cases h3
        exact readTiles_fail _ _ _ _ _ _ hr
      | ok ts =>
        rw [hr] at h1
        have hl := readTiles_length _ _ _ _ _ hr
        simp only [List.length_replicate] at hl
        have hl2 : ¬ ((ts.length : Int) ≠ (n : Int)) := by simp [hl]
        simp only [hl2, if_false] at h1
        rw [h1]
        refine ⟨by simp, by simp, ?_⟩
        intro ts' h3
        cases h3
        refine ⟨hl, ?_⟩
        intro j hj1 hj2
        rw [readTiles_above layerDef m _ 0 _ _ hm hr j hj1]
        simp [hj2]
    · cases hc

/-- Witness for C5 as amended: `TileCount = 10` with the single range `0 .. 7`. -/
theorem readTileScheme_presized_witness :
    (∀ r ∈ (QJsonObject.value (rangeTileScheme 10 0 7) "Tiles").toArray.filterMap rangeOf,
      r.2 ≤ ((7 : Nat) : Int)) ∧
    readTileScheme scenarioParsed [] (rangeTileScheme 10 0 7) ≠ .undefined ∧
    (∀ e s, readTileScheme scenarioParsed [] (rangeTileScheme 10 0 7) = .fail e s →
      e.isCountMismatch = false) ∧
    (∀ ts, readTileScheme scenarioParsed [] (rangeTileScheme 10 0 7) = .ok ts →
      ts.length = 10 ∧ ∀ j, 7 < j → j < 10 → ts[j]? = some scenarioParsed.defaultTile) :=
  ⟨by decide,
    readTileScheme_presized scenarioParsed (rangeTileScheme 10 0 7) 10 7 rfl (by decide)
      (by decide)⟩

/-- C5 as stated fails: `TileCount = 10` with the single range `0 .. 7`, read from the
empty sequence, is accepted with ten tiles; tiles 8 and 9 are the default tile. -/
theorem readTileScheme_count_ten_accepts :
    readTileScheme scenarioParsed [] (rangeTileScheme 10 0 7) =
      .ok (List.replicate 8 [("base", "b")] ++ List.replicate 2 [("base", "a")]) := by
  decide

/-- C6 (the code departs from it): with `TileCount = 1` the sequence has length 1 when the
range `0 .. 1` is applied; the write `tiles[1] = tile` is out of range and the sequence
does not grow to length 2. -/
theorem readTileScheme_write_past_end :
    readTileScheme scenarioParsed [] (rangeTileScheme 1 0 1) = .undefined := by
  decide

/-- C7, as amended: after an accepted layer scheme (read into the empty definition) and an
accepted tile scheme, every tile holds a legal value for every layer of the name lookup
`layers`; when the layer names are pairwise distinct the same holds for every layer of
`layersOrdered`. -/
theorem readTileScheme_values_legal (json1 json2 : QJsonObject) (ld : LayerDefinition)
    (tiles ts : List Tile) (h1 : readLayerScheme .empty json1 = .ok ld)
    (h2 : readTileScheme ld tiles json2 = .ok ts) :
    ∀ t ∈ ts,
      (∀ k L, QMap.find ld.layers k = some L → Tile.validFor t L) ∧
      ((ld.layersOrdered.map Layer.name).Nodup → ∀ L ∈ ld.layersOrdered, Tile.validFor t L) := by
  obtain ⟨g1, g2, g3, _, _⟩ := readLayerScheme_empty_inv _ _ h1
  obtain ⟨_, n, _, _, _, hr⟩ := readTileScheme_ok_inv _ _ _ _ h2
  have hname : ∀ k L, QMap.find ld.layers k = some L → L.name = k := by
    intro k L hkL
    rw [g1] at hkL
    exact (lastNamed_some _ _ _ hkL).2
  have hdef : ∀ k L, QMap.find ld.layers k = some L → Tile.validFor ld.defaultTile L := by
    intro k L hkL
    have hn := hname k L hkL
    have hL : L ∈ ld.layersOrdered := by
      rw [g1] at hkL
      exact (lastNamed_some _ _ _ hkL).1
    have hat : QMap.at ld.defaultTile L.name "" = L.defaultValue := by
      unfold QMap.at
      rw [g3, hn, hkL]
      rfl
    unfold Tile.validFor
    rw [hat]
    exact g2 L hL
  have hall := readTiles_valid ld _ 0 _ ts hname hdef
    (by
      intro t ht
      rw [List.mem_replicate] at ht
      rw [ht.2]
      exact hdef) hr
  intro t ht
  refine ⟨hall t ht, ?_⟩
  intro hnodup L hL
  apply hall t ht L.name L
  rw [g1]
  exact lastNamed_of_nodup _ _ hL hnodup

/-- Witness for C7 as amended: the end-to-end scenario. -/
theorem readTileScheme_values_legal_witness :
    readLayerScheme .empty scenarioLayerScheme = .ok scenarioParsed ∧
    readTileScheme scenarioParsed [] (rangeTileScheme 2 0 1) = .ok (scenarioTiles 2) ∧
    ∀ t ∈ scenarioTiles 2,
      (∀ k L, QMap.find scenarioParsed.layers k = some L → Tile.validFor t L) ∧
      ((scenarioParsed.layersOrdered.map Layer.name).Nodup →
        ∀ L ∈ scenarioParsed.layersOrdered, Tile.validFor t L) :=
  ⟨by decide, by decide,
    readTileScheme_values_legal scenarioLayerScheme (rangeTileScheme 2 0 1) scenarioParsed []
      (scenarioTiles 2) (by decide) (by decide)⟩

/-- C7 as stated fails: a layer scheme that declares the name "base" twice is accepted, and
the tile of the accepted tile scheme then holds "b" for the first layer of `layersOrdered`,
whose only value is "a". -/
theorem readTileScheme_value_illegal_twice :
    readLayerScheme .empty twiceLayerScheme = .ok twiceParsed ∧
    readTileScheme twiceParsed [] plainTileScheme = .ok [[("base", "b")]] ∧
    ¬ (∀ t ∈ [[("base", "b")]], ∀ L ∈ twiceParsed.layersOrdered, Tile.validFor t L) := by
  decide

/-- C8: in an accepted tile scheme with `TileCount = n`, tile `i < n` is `defaultTile`
overridden by the `LayerValues` of the last element of `Tiles` whose normalized range
contains `i`, and `defaultTile` when no range contains `i`; nothing of an earlier
element covering `i` remains.  The normalized range is the one of the specification,
`min(Start, End) .. max(Start, End)` with `End` defaulting to `Start` (`specRange`). -/
theorem readTileScheme_last_entry_wins (layerDef : LayerDefinition) (tiles : List Tile)
    (json : QJsonObject) (ts : List Tile) (n : Nat)
    (hn : QJsonObject.value json "TileCount" = .ofInt n)
    (h : readTileScheme layerDef tiles json = .ok ts) (i : Nat) (hi : i < n) :
    ts[i]? = some (specTile layerDef.defaultTile (QJsonObject.value json "Tiles").toArray i) := by
  obtain ⟨_, n', hpos, hc, hlen, hr⟩ := readTileScheme_ok_inv _ _ _ _ h
  rw [readTileCount_of_value json n hn] at hc
  split at hc
  · simp only [Option.some.injEq, Nat.cast_inj] at hc
    subst hc
    rw [readTiles_spec _ _ _ _ _ hr i (by simp; exact hi)]
    unfold specTile
    cases lastCovering (QJsonObject.value json "Tiles").toArray i with
    | some v => rfl
    | none => simp [hi]
  · cases hc

/-- Witness for C8: `TileCount = 4`, the range `Start: 2, End: 0` selecting "b", then the
range `Start: 3, End: 1` setting nothing.  Tile 0 lies in the first range only and holds
"b"; tile 1 lies in both and is the plain default tile, as tile 3 is. -/
theorem readTileScheme_last_entry_wins_witness :
    readTileScheme scenarioParsed [] reversedTileScheme =
      .ok [[("base", "b")], [("base", "a")], [("base", "a")], [("base", "a")]] ∧
    [[("base", "b")], [("base", "a")], [("base", "a")], [("base", "a")]][1]? =
      some (specTile scenarioParsed.defaultTile
        (QJsonObject.value reversedTileScheme "Tiles").toArray 1) :=
  ⟨by decide,
    readTileScheme_last_entry_wins scenarioParsed [] reversedTileScheme
      [[("base", "b")], [("base", "a")], [("base", "a")], [("base", "a")]] 4 rfl (by decide) 1
      (by decide)⟩

/-- C9, as amended: when `Start` and `End` of an element of `Tiles` are whole numbers with
`0 <= End < Start` (and `Start` fits an `int`), exchanging them leaves the outcome of
`readTileScheme` unchanged: same result, same message, same tile sequence. -/
theorem readTileScheme_swapEntry (layerDef : LayerDefinition) (tiles : List Tile)
    (json : QJsonObject) (k : Nat) (o : QJsonObject) (a b : Int)
    (hk : (QJsonObject.value json "Tiles").toArray[k]? = some (.object o))
    (hs : QJsonObject.value o "Start" = .ofInt a) (he : QJsonObject.value o "End" = .ofInt b)
    (hb : 0 ≤ b) (hab : b < a) (ha : a ≤ 2147483647) :
    readTileScheme layerDef tiles (swapEntry json k) = readTileScheme layerDef tiles json := by
  obtain ⟨arr, harr⟩ : ∃ arr, QJsonObject.value json "Tiles" = .array arr := by
    cases hv : QJsonObject.value json "Tiles" with
    | array items => exact ⟨items, rfl⟩
    | null => rw [hv] at hk; cases hk
    | bool x => rw [hv] at hk; cases hk
    | double x => rw [hv] at hk; cases hk
    | string x => rw [hv] at hk; cases hk
    | object x => rw [hv] at hk; cases hk
    | undefined => rw [hv] at hk; cases hk
  have hct : QMap.contains json "Tiles" = true := by
    unfold QMap.contains
    unfold QJsonObject.value at harr
    cases hf : QMap.find json "Tiles" with
    | none => rw [hf] at harr; cases harr
    | some x => rfl
  have hT : QJsonObject.value (swapEntry json k) "Tiles" = .array (swapEntryAt k arr) := by
    unfold swapEntry
    rw [QJsonObject.value_replace_self _ _ _ hct, harr]
    rfl
  have hcT : QMap.contains (swapEntry json k) "Tiles" = true := by
    unfold swapEntry
    rw [QJsonObject.contains_replace]; exact hct
  have hv1 : QJsonObject.value (swapEntry json k) "SchemeType" = QJsonObject.value json "SchemeType" :=
    QJsonObject.value_replace_ne _ _ _ _ (by decide)
  have hv2 : QJsonObject.value (swapEntry json k) "LayerSchemeName"
      = QJsonObject.value json "LayerSchemeName" :=
    QJsonObject.value_replace_ne _ _ _ _ (by decide)
  have hq : quotedOrUndefined (swapEntry json k) "SchemeType" = quotedOrUndefined json "SchemeType" :=
    quotedOrUndefined_congr _ _ _ (QJsonObject.contains_replace _ _ _ _) hv1
  have hc : readTileCount (swapEntry json k) = readTileCount json :=
    readTileCount_congr _ _ (QJsonObject.contains_replace _ _ _ _)
      (QJsonObject.value_replace_ne _ _ _ _ (by decide))
  rw [harr] at hk
  simp only [QJsonValue.toArray] at hk
  unfold readTileScheme
  simp only [hv1, hv2, hq, hc, hT, hcT, hct, harr, QJsonValue.toArray, QJsonValue.isArray]
  simp only [readTiles_swapEntryAt layerDef k arr 0 _ o a b hk hs he hb hab ha]

/-- Witness for C9 as amended: `Start: 5, End: 2` against `Start: 2, End: 5`. -/
theorem readTileScheme_swapEntry_witness :
    swapEntry (rangeTileScheme 10 5 2) 0 = rangeTileScheme 10 2 5 ∧
    readTileScheme scenarioParsed [] (swapEntry (rangeTileScheme 10 5 2) 0) =
      readTileScheme scenarioParsed [] (rangeTileScheme 10 5 2) :=
  ⟨rfl, readTileScheme_swapEntry scenarioParsed [] (rangeTileScheme 10 5 2) 0
    [("End", .ofInt 2), ("LayerValues", .object [("base", .string "b")]), ("Start", .ofInt 5)]
    5 2 rfl rfl rfl (by decide) (by decide) (by decide)⟩

/-- C9 as stated fails: with `Start: 5, End: -1` the message names `End`, with the two
exchanged it names `Start`. -/
theorem readTileScheme_swap_message_differs :
    readTileScheme scenarioParsed [] (rangeTileScheme 10 5 (-1)) =
      .fail (.endNegative 0) (List.replicate 10 [("base", "a")]) ∧
    readTileScheme scenarioParsed [] (swapEntry (rangeTileScheme 10 5 (-1)) 0) =
      .fail (.startNegative 0) (List.replicate 10 [("base", "a")]) ∧
    readTileScheme scenarioParsed [] (swapEntry (rangeTileScheme 10 5 (-1)) 0) ≠
      readTileScheme scenarioParsed [] (rangeTileScheme 10 5 (-1)) ∧
    (TileSchemeError.endNegative 0).message ≠ (TileSchemeError.startNegative 0).message := by
  decide

/-- C10, as amended: for an accepted layer scheme read into the empty definition,
`defaultTile` has one entry per distinct layer name and no other key, the entry being the
`DefaultValue` of the last layer declared under that name (the layers and their defaults
are those of the `Layers` array, an absent `DefaultValue` reading as the empty string).
When the names are pairwise distinct this is one entry per declared layer, holding that
layer's `DefaultValue` for every layer of `layersOrdered`. -/
theorem readLayerScheme_defaultTile (json : QJsonObject) (ld : LayerDefinition)
    (h : readLayerScheme .empty json = .ok ld) :
    (QMap.keys ld.defaultTile).Nodup ∧
    (∀ k, k ∈ QMap.keys ld.defaultTile ↔ k ∈ ld.layersOrdered.map Layer.name) ∧
    (∀ k, QMap.find ld.defaultTile k = (lastNamed ld.layersOrdered k).map Layer.defaultValue) ∧
    ld.layersOrdered.map (fun L => (L.name, L.defaultValue)) =
      (QJsonObject.value json "Layers").toArray.map
        (fun v => ((QJsonObject.value v.toObject "Name").toString,
          (QJsonObject.value v.toObject "DefaultValue").toString)) ∧
    ((ld.layersOrdered.map Layer.name).Nodup →
      (QMap.keys ld.defaultTile).Perm (ld.layersOrdered.map Layer.name) ∧
      ∀ L ∈ ld.layersOrdered, QMap.find ld.defaultTile L.name = some L.defaultValue) := by
  obtain ⟨g1, g2, g3, g4, g5⟩ := readLayerScheme_empty_inv _ _ h
  have hnodup := QMap.nodup_of_sorted _ g4
  have hfind : ∀ k, QMap.find ld.defaultTile k
      = (lastNamed ld.layersOrdered k).map Layer.defaultValue := by
    intro k
    rw [g3, g1]
  have hkeys : ∀ k, k ∈ QMap.keys ld.defaultTile ↔ k ∈ ld.layersOrdered.map Layer.name := by
    intro k
    rw [← QMap.find_isSome_iff, hfind, List.mem_map]
    constructor
    · intro hs
      cases hl : lastNamed ld.layersOrdered k with
      | none => rw [hl] at hs; cases hs
      | some L => exact ⟨L, lastNamed_some _ _ _ hl⟩
    · rintro ⟨L, hL, rfl⟩
      obtain ⟨L1, hL1⟩ := lastNamed_isSome _ _ hL
      rw [hL1]
      rfl
  refine ⟨hnodup, hkeys, hfind, g5, ?_⟩
  intro hn
  refine ⟨(List.perm_ext_iff_of_nodup hnodup hn).2 hkeys, ?_⟩
  intro L hL
  rw [hfind, lastNamed_of_nodup _ _ hL hn]
  rfl

/-- Witness for C10 as amended: the layer scheme of the end-to-end scenario. -/
theorem readLayerScheme_defaultTile_witness :
    readLayerScheme .empty scenarioLayerScheme = .ok scenarioParsed ∧
    (QMap.keys scenarioParsed.defaultTile).Perm (scenarioParsed.layersOrdered.map Layer.name) ∧
    ∀ L ∈ scenarioParsed.layersOrdered,
      QMap.find scenarioParsed.defaultTile L.name = some L.defaultValue :=
  ⟨by decide,
    (readLayerScheme_defaultTile scenarioLayerScheme scenarioParsed (by decide)).2.2.2.2
      (by decide)⟩

/-- C10 as stated fails: a layer scheme that declares the name "base" twice is accepted;
`defaultTile` then has one entry for the two declared layers, and it differs from the
`DefaultValue` "a" of the first layer of `layersOrdered`. -/
theorem readLayerScheme_twice_defaultTile :
    readLayerScheme .empty twiceLayerScheme = .ok twiceParsed ∧
    twiceParsed.layersOrdered.length = 2 ∧
    (QMap.keys twiceParsed.defaultTile).length = 1 ∧
    ¬ (∀ L ∈ twiceParsed.layersOrdered,
        QMap.find twiceParsed.defaultTile L.name = some L.defaultValue) := by
  decide

/-! ## Layout, pipeline and compositing: lemmas -/

theorem placeValues_cons (tileSize maxW maxH : Int) (value : String) (rest : List String)
    (st : LayoutState) :
    placeValues tileSize maxW maxH (value :: rest) st =
      if st.h > maxH then .error st
      else placeValues tileSize maxW maxH rest
        ⟨if st.w + 1 > maxW then 0 else st.w + 1, if st.w + 1 > maxW then st.h + 1 else st.h,
          { st.layer with
            valueRects := QMap.insert st.layer.valueRects value
              ⟨st.w * tileSize, st.h * tileSize, tileSize, tileSize⟩ }⟩ := by
  simp only [placeValues]
  by_cases h1 : st.h > maxH
  · simp [h1]
  · simp only [h1, if_false]
    by_cases h2 : st.w + 1 > maxW
    · simp [h2]
    · simp [h2]

/-- Frame of `placeValues`, whether it succeeds or not: the layer changes in `valueRects`
only, and there only at the values handed in. -/
theorem placeValues_frame (tileSize maxW maxH : Int) (vals : List String) (st : LayoutState)
    (res : Except LayoutState LayoutState) (h : placeValues tileSize maxW maxH vals st = res) :
    ∀ st1, (res = .ok st1 ∨ res = .error st1) →
      st1.layer = { st.layer with valueRects := st1.layer.valueRects } ∧
      ∀ k, k ∉ vals → QMap.find st1.layer.valueRects k = QMap.find st.layer.valueRects k := by
  induction vals generalizing st with
  | nil =>
    intro st1 hres
    simp only [placeValues] at h
    rw [← h] at hres
    have : st1 = st := by
      rcases hres with h1 | h1
      · cases h1; rfl
      · cases h1
    subst this
    exact ⟨rfl, fun _ _ => rfl⟩
  | cons v rest ih =>
    intro st1 hres
    rw [placeValues_cons] at h
    split at h
    · rw [← h] at hres
      have : st1 = st := by
        rcases hres with h1 | h1
        · cases h1
        · cases h1; rfl
      subst this
      exact ⟨rfl, fun _ _ => rfl⟩
    · obtain ⟨g1, g2⟩ := ih _ h st1 hres
      refine ⟨?_, ?_⟩
      · rw [g1]
      · intro k hk
        simp only [List.mem_cons, not_or] at hk
        rw [g2 k hk.2]
        simp only
        rw [QMap.find_insert, if_neg hk.1]

theorem placeValues_mono (tileSize maxW maxH : Int) (vals : List String) (st st1 : LayoutState)
    (h : placeValues tileSize maxW maxH vals st = .ok st1) : st.h ≤ st1.h := by
  induction vals generalizing st with
  | nil =>
    simp only [placeValues, Except.ok.injEq] at h
    rw [h]
  | cons v rest ih =>
    rw [placeValues_cons] at h
    split at h
    · cases h
    · have := ih _ h
      simp only at this
      split at this <;> omega

/-- Every value handed to a successful `placeValues` ends with a rect placed in one of the
rows the walk went through. -/
theorem placeValues_values (tileSize maxW maxH : Int) (vals : List String) (st st1 : LayoutState)
    (hw : st.w = 0 ∨ (0 ≤ st.w ∧ st.w ≤ maxW))
    (h : placeValues tileSize maxW maxH vals st = .ok st1) :
    ∀ k ∈ vals, ∃ r, QMap.find st1.layer.valueRects k = some r ∧
      r.placedIn tileSize maxW maxH st.h st1.h := by
  induction vals generalizing st with
  | nil => intro k hk; cases hk
  | cons v rest ih =>
    rw [placeValues_cons] at h
    split at h
    · cases h
    · rename_i hle
      have hmono := placeValues_mono _ _ _ _ _ _ h
      simp only at hmono
      have hw1 : (if st.w + 1 > maxW then (0 : Int) else st.w + 1) = 0 ∨
          (0 ≤ (if st.w + 1 > maxW then (0 : Int) else st.w + 1) ∧
            (if st.w + 1 > maxW then (0 : Int) else st.w + 1) ≤ maxW) := by
        split
        · exact Or.inl rfl
        · right; omega
      have hle1 : st.h ≤ (if st.w + 1 > maxW then st.h + 1 else st.h) := by
        split <;> omega
      have ih1 := ih _ hw1 h
      intro k hk
      by_cases hkr : k ∈ rest
      · obtain ⟨r, hr, w, hh, e1, e2, e3, e4, e5⟩ := ih1 k hkr
        simp only at e3
        exact ⟨r, hr, w, hh, e1, e2, by omega, e4, e5⟩
      · have hkv : k = v := by
          simp only [List.mem_cons] at hk
          rcases hk with hk | hk
          · exact hk
          · exact absurd hk hkr
        subst hkv
        obtain ⟨_, g2⟩ := placeValues_frame _ _ _ _ _ _ h st1 (Or.inl rfl)
        refine ⟨⟨st.w * tileSize, st.h * tileSize, tileSize, tileSize⟩, ?_, ?_⟩
        · rw [g2 k hkr]
          simp only
          rw [QMap.find_insert, if_pos rfl]
        · exact ⟨st.w, st.h, rfl, hw, le_refl _, by omega, by omega⟩

/-- Every entry of `valueRects` after a successful `placeValues` was there before or is a
rect placed for one of the values. -/
theorem placeValues_entries (tileSize maxW maxH : Int) (vals : List String) (st st1 : LayoutState)
    (hw : st.w = 0 ∨ (0 ≤ st.w ∧ st.w ≤ maxW))
    (h : placeValues tileSize maxW maxH vals st = .ok st1) (k : String) (r : QRect)
    (hr : QMap.find st1.layer.valueRects k = some r) :
    QMap.find st.layer.valueRects k = some r ∨
      (k ∈ vals ∧ r.placedIn tileSize maxW maxH st.h st1.h) := by
  by_cases hk : k ∈ vals
  · right
    obtain ⟨r1, h1, h2⟩ := placeValues_values _ _ _ _ _ _ hw h k hk
    rw [h1] at hr
    cases hr
    exact ⟨hk, h2⟩
  · left
    obtain ⟨_, g2⟩ := placeValues_frame _ _ _ _ _ _ h st1 (Or.inl rfl)
    rw [← g2 k hk]
    exact hr
/-- Exact position of every value of a successful `placeValues` when the values are
pairwise distinct and the atlas has `maxW + 1 >= 1` columns: the value at index `k` sits
`k` cells after the cursor the walk started at, counting row by row. -/
theorem placeValues_positions (tileSize maxW maxH : Int) (vals : List String)
    (st st1 : LayoutState) (hw0 : 0 ≤ st.w) (hw1 : st.w ≤ maxW) (hd : vals.Nodup)
    (h : placeValues tileSize maxW maxH vals st = .ok st1) (k : Nat) (v : String)
    (hk : vals[k]? = some v) :
    QMap.find st1.layer.valueRects v =
      some ⟨((st.w + k) % (maxW + 1)) * tileSize, (st.h + (st.w + k) / (maxW + 1)) * tileSize,
        tileSize, tileSize⟩ := by
  induction vals generalizing st k with
  | nil => cases hk
  | cons a rest ih =>
    rw [placeValues_cons] at h
    split at h
    · cases h
    · rw [List.nodup_cons] at hd
      cases k with
      | zero =>
        simp only [List.getElem?_cons_zero, Option.some.injEq] at hk
        subst hk
        obtain ⟨_, g2⟩ := placeValues_frame _ _ _ _ _ _ h st1 (Or.inl rfl)
        rw [g2 a hd.1]
        simp only
        rw [QMap.find_insert, if_pos rfl]
        have e1 : (st.w + ((0 : Nat) : Int)) % (maxW + 1) = st.w := by
          simp only [Nat.cast_zero, add_zero]
          exact Int.emod_eq_of_lt hw0 (by omega)
        have e2 : (st.w + ((0 : Nat) : Int)) / (maxW + 1) = 0 := by
          simp only [Nat.cast_zero, add_zero]
          exact Int.ediv_eq_zero_of_lt hw0 (by omega)
        rw [e1, e2]
        simp
      | succ k =>
        simp only [List.getElem?_cons_succ] at hk
        by_cases hwrap : st.w + 1 > maxW
        · simp only [hwrap, if_true] at h
          have := ih _ (le_refl 0) (by show (0 : Int) ≤ maxW; omega) hd.2 h k hk
          rw [this]
          simp only
          have hne : maxW + 1 ≠ 0 := by omega
          have e1 : (st.w + ((k + 1 : Nat) : Int)) = (k : Int) + (maxW + 1) * 1 := by
            push_cast
            omega
          rw [e1, Int.add_mul_emod_self_left, Int.add_mul_ediv_left _ _ hne]
          simp only [zero_add]
          have e2 : st.h + 1 + (k : Int) / (maxW + 1) = st.h + ((k : Int) / (maxW + 1) + 1) := by
            ring
          rw [e2]
        · simp only [hwrap, if_false] at h
          have := ih _ (by show 0 ≤ st.w + 1; omega) (by show st.w + 1 ≤ maxW; omega) hd.2 h k hk
          rw [this]
          simp only
          have e1 : st.w + 1 + (k : Int) = st.w + ((k + 1 : Nat) : Int) := by
            push_cast
            omega
          rw [e1]

theorem placeLayers_ok (tileSize maxW maxH : Int) (ls done out : List Layer) (h : Int)
    (hok : placeLayers tileSize maxW maxH ls done h = .ok out) :
    ∃ rs, out = done ++ rs ∧ LaidOut tileSize maxW maxH h ls rs := by
  induction ls generalizing done h with
  | nil =>
    simp only [placeLayers, Except.ok.injEq] at hok
    exact ⟨[], by simp [hok], rfl⟩
  | cons l ls ih =>
    simp only [placeLayers] at hok
    split at hok
    · cases hok
    · rename_i hle
      split at hok
      · cases hok
      · rename_i st hst
        obtain ⟨rs, e1, e2⟩ := ih _ _ hok
        refine ⟨st.layer :: rs, ?_, ?_⟩
        · rw [e1]; simp
        · exact ⟨st, rs, by omega, hst, rfl, e2⟩

/-- The layer at position `i` of a successful layout: it is the result of `placeValues` on
the layer before, started at column 0 of some row `r0` not above the first row of the walk,
and the layers after it are laid out from the row below its last row on. -/
theorem LaidOut_get (tileSize maxW maxH : Int) (ls rs : List Layer) (h : Int)
    (hl : LaidOut tileSize maxW maxH h ls rs) (i : Nat) (r : Layer) (hr : rs[i]? = some r) :
    ∃ l r0 st, ls[i]? = some l ∧ h ≤ r0 ∧ (i = 0 → r0 = h) ∧ r0 ≤ maxH ∧
      placeValues tileSize maxW maxH l.values ⟨0, r0, l⟩ = .ok st ∧ r = st.layer ∧
      LaidOut tileSize maxW maxH (st.h + 1) (ls.drop (i + 1)) (rs.drop (i + 1)) := by
  induction ls generalizing rs h i with
  | nil =>
    simp only [LaidOut] at hl
    subst hl
    cases hr
  | cons l ls ih =>
    simp only [LaidOut] at hl
    obtain ⟨st, rs1, h1, h2, h3, h4⟩ := hl
    subst h3
    cases i with
    | zero =>
      simp only [List.getElem?_cons_zero, Option.some.injEq] at hr
      subst hr
      exact ⟨l, h, st, by simp, le_refl _, fun _ => rfl, h1, h2, rfl, by simpa using h4⟩
    | succ i =>
      simp only [List.getElem?_cons_succ] at hr
      obtain ⟨l1, r0, st1, g1, g2, _, g4, g5, g6, g7⟩ := ih _ _ h4 i hr
      have hm := placeValues_mono _ _ _ _ _ _ h2
      simp only at hm
      refine ⟨l1, r0, st1, by simpa using g1, by omega, ?_, g4, g5, g6, by simpa using g7⟩
      intro hi
      cases hi
theorem createLayerRects_ok (layerDef ld : LayerDefinition) (baseWidth baseHeight : Int)
    (h : createLayerRects layerDef baseWidth baseHeight = .ok ld) :
    layerDef.tileSize ≠ 0 ∧ ld = { layerDef with layersOrdered := ld.layersOrdered } ∧
    LaidOut layerDef.tileSize (Int.tdiv baseWidth layerDef.tileSize - 1)
      (Int.tdiv baseHeight layerDef.tileSize - 1) 0 layerDef.layersOrdered ld.layersOrdered := by
  unfold createLayerRects at h
  simp only at h
  split at h
  · cases h
  · rename_i hts
    split at h
    · cases h
    · rename_i ls hls
      simp only [Outcome.ok.injEq] at h
      subst h
      obtain ⟨rs, e1, e2⟩ := placeLayers_ok _ _ _ _ _ _ _ hls
      simp only [List.nil_append] at e1
      subst e1
      exact ⟨hts, rfl, e2⟩

theorem placedIn_y_lt (tileSize maxW maxH lo1 hi1 lo2 hi2 : Int) (r1 r2 : QRect)
    (hts : 0 < tileSize) (h1 : r1.placedIn tileSize maxW maxH lo1 hi1)
    (h2 : r2.placedIn tileSize maxW maxH lo2 hi2) (hlt : hi1 < lo2) : r1.y < r2.y := by
  obtain ⟨w1, a1, e1, _, _, g1, _⟩ := h1
  obtain ⟨w2, a2, e2, _, g2, _, _⟩ := h2
  subst e1 e2
  simp only
  exact Int.mul_lt_mul_of_pos_right (by omega) hts

theorem tileSize_pos_of_row (tileSize : Int) (baseHeight : Nat) (r0 : Int)
    (h0 : 0 ≤ r0) (h1 : r0 ≤ Int.tdiv baseHeight tileSize - 1) : 0 < tileSize := by
  by_contra hneg
  have hle : tileSize ≤ 0 := by omega
  have := Int.tdiv_nonpos (Int.ofNat_nonneg baseHeight) hle
  omega
theorem Layer.sameButRects_refl (l : Layer) : l.sameButRects l :=
  ⟨rfl, fun _ _ => rfl⟩

theorem forall₂_sameButRects_refl (ls : List Layer) : List.Forall₂ Layer.sameButRects ls ls := by
  induction ls with
  | nil => exact List.Forall₂.nil
  | cons l ls ih => exact List.Forall₂.cons (Layer.sameButRects_refl l) ih

/-- Frame of `placeLayers`, whether it succeeds or not: the layers handed in come back in
the same order, changed in `valueRects` only and there only at their values. -/
theorem placeLayers_frame (tileSize maxW maxH : Int) (ls done : List Layer) (h : Int)
    (out : List Layer)
    (hres : placeLayers tileSize maxW maxH ls done h = .ok out ∨
      placeLayers tileSize maxW maxH ls done h = .error out) :
    ∃ rs, out = done ++ rs ∧ List.Forall₂ Layer.sameButRects ls rs := by
  induction ls generalizing done h with
  | nil =>
    simp only [placeLayers] at hres
    rcases hres with h1 | h1
    · cases h1
      exact ⟨[], by simp, List.Forall₂.nil⟩
    · cases h1
  | cons l ls ih =>
    simp only [placeLayers] at hres
    split at hres
    · rcases hres with h1 | h1
      · cases h1
      · cases h1
        exact ⟨l :: ls, rfl, forall₂_sameButRects_refl _⟩
    · split at hres
      · rename_i st hst
        rcases hres with h1 | h1
        · cases h1
        · cases h1
          have f := placeValues_frame _ _ _ _ _ _ hst st (Or.inr rfl)
          exact ⟨st.layer :: ls, rfl, List.Forall₂.cons ⟨f.1, f.2⟩ (forall₂_sameButRects_refl _)⟩
      · rename_i st hst
        obtain ⟨rs, e1, e2⟩ := ih _ _ hres
        have f := placeValues_frame _ _ _ _ _ _ hst st (Or.inl rfl)
        refine ⟨st.layer :: rs, ?_, List.Forall₂.cons ⟨f.1, f.2⟩ e2⟩
        rw [e1]
        simp
theorem readLayer_rejects (i : Nat) (o : QJsonObject) (h : defaultRejected o) :
    ∃ e, readLayer i o = .error e := by
  rw [readLayer_eq]
  split
  · exact ⟨_, rfl⟩
  · split
    · exact ⟨_, rfl⟩
    · split
      · exact ⟨_, rfl⟩
      · split
        · exact ⟨_, rfl⟩
        · rename_i hnull
          split
          · exact ⟨_, rfl⟩
          · rename_i hchk
            exfalso
            rcases h with ⟨h1, h2⟩ | ⟨h1, h2⟩
            · exact hnull ⟨h2, h1⟩
            · exact hchk ⟨fun hh => h1 hh.2, h2⟩

theorem readLayers_rejects (i : Nat) (arr : QJsonArray) (ld : LayerDefinition) (v : QJsonValue)
    (hv : v ∈ arr) (h : defaultRejected v.toObject) :
    ∃ e s, readLayers i arr ld = .fail e s := by
  induction arr generalizing i ld with
  | nil => cases hv
  | cons a rest ih =>
    simp only [readLayers]
    split
    · exact ⟨_, _, rfl⟩
    · split
      · exact ⟨_, _, rfl⟩
      · rename_i L hL
        rcases List.mem_cons.1 hv with h1 | h1
        · subst h1
          obtain ⟨e, he⟩ := readLayer_rejects i _ h
          rw [he] at hL
          cases hL
        · exact ih _ _ h1

theorem readLayers_defined (i : Nat) (arr : QJsonArray) (ld : LayerDefinition) :
    readLayers i arr ld ≠ .undefined := by
  induction arr generalizing i ld with
  | nil => simp [readLayers]
  | cons a rest ih =>
    simp only [readLayers]
    split
    · simp
    · split
      · simp
      · exact ih _ _

/-- The layers a successful `readLayers` appends all have a legal default value. -/
theorem readLayers_appended (i : Nat) (arr : QJsonArray) (ld ld1 : LayerDefinition)
    (h : readLayers i arr ld = .ok ld1) :
    ∃ news, ld1.layersOrdered = ld.layersOrdered ++ news ∧ ∀ L ∈ news, L.defaultLegal := by
  induction arr generalizing i ld with
  | nil =>
    simp only [readLayers, Outcome.ok.injEq] at h
    subst h
    exact ⟨[], by simp, fun _ hL => by cases hL⟩
  | cons v rest ih =>
    obtain ⟨L, hL, hrest⟩ := readLayers_cons_ok _ _ _ _ _ h
    obtain ⟨_, _, hlegal⟩ := readLayer_ok _ _ _ hL
    obtain ⟨news, e1, e2⟩ := ih _ _ hrest
    refine ⟨L :: news, ?_, ?_⟩
    · rw [e1]; simp
    · intro L1 hL1
      rcases List.mem_cons.1 hL1 with h1 | h1
      · rw [h1]; exact hlegal
      · exact e2 L1 h1

/-- The outcome of `readLayerScheme` is always defined: it accepts or it fails with a message. -/
theorem readLayerScheme_defined (layerDef : LayerDefinition) (json : QJsonObject) :
    readLayerScheme layerDef json ≠ .undefined := by
  unfold readLayerScheme
  split
  · simp
  · simp only
    split
    · simp
    · split
      · simp
      · split
        · simp
        · split
          · simp
          · split
            · simp
            · exact readLayers_defined _ _ _

theorem QMap.mem_of_find {V : Type} (m : QMap V) (k : String) (v : V)
    (h : QMap.find m k = some v) : (k, v) ∈ m := by
  induction m with
  | nil => cases h
  | cons hd t ih =>
    obtain ⟨a, b⟩ := hd
    simp only [QMap.find] at h
    split at h
    · rename_i hk
      simp only [Option.some.injEq] at h
      subst hk h
      exact List.mem_cons_self _ _
    · exact List.mem_cons_of_mem _ (ih h)

theorem QMap.find_of_mem {V : Type} (m : QMap V) (k : String) (v : V)
    (hn : (QMap.keys m).Nodup) (h : (k, v) ∈ m) : QMap.find m k = some v := by
  induction m with
  | nil => cases h
  | cons hd t ih =>
    obtain ⟨a, b⟩ := hd
    simp only [QMap.keys, List.map_cons, List.nodup_cons] at hn
    simp only [QMap.find]
    rcases List.mem_cons.1 h with h1 | h1
    · cases h1
      simp
    · have hne : k ≠ a := by
        intro hka
        apply hn.1
        rw [← hka]
        exact List.mem_map.2 ⟨(k, v), h1, rfl⟩
      rw [if_neg hne]
      exact ih hn.2 h1

theorem readLayerScheme_layers_sorted (json : QJsonObject) (ld : LayerDefinition)
    (h : readLayerScheme .empty json = .ok ld) :
    (QMap.keys ld.layers).Pairwise (fun a b => a.toList < b.toList) := by
  obtain ⟨ld3, ld4, e1, e2, _, hr, hld⟩ := readLayerScheme_ok_inv _ _ _ h
  have e1' : ld3.layers = [] := e1
  have e2' : ld3.layersOrdered = [] := e2
  obtain ⟨_, _, g3, _, _⟩ := readLayers_inv 0 _ ld3 ld4 hr
    (by intro k; rw [e1', e2']; rfl)
    (by intro L hL; rw [e2'] at hL; cases hL)
    (by rw [e1']; exact List.Pairwise.nil)
  rw [hld]
  exact g3

/-- Cursor of a successful `placeValues` on an atlas with `maxW + 1 >= 1` columns: after `n`
values it has moved `n` cells on, counting row by row.  The layer that follows starts one
row below this cursor, that is in row `h + n div (maxW + 1) + 1` when this layer started at
column 0 of row `h`: a row is skipped whenever `n` is a positive multiple of the number of
columns. -/
theorem placeValues_cursor (tileSize maxW maxH : Int) (vals : List String)
    (st st1 : LayoutState) (hw0 : 0 ≤ st.w) (hw1 : st.w ≤ maxW)
    (h : placeValues tileSize maxW maxH vals st = .ok st1) :
    st1.w = (st.w + vals.length) % (maxW + 1) ∧
    st1.h = st.h + (st.w + vals.length) / (maxW + 1) := by
  induction vals generalizing st with
  | nil =>
    simp only [placeValues, Except.ok.injEq] at h
    subst h
    simp only [List.length_nil, Nat.cast_zero, add_zero]
    rw [Int.emod_eq_of_lt hw0 (by omega), Int.ediv_eq_zero_of_lt hw0 (by omega)]
    simp
  | cons a rest ih =>
    rw [placeValues_cons] at h
    split at h
    · cases h
    · by_cases hwrap : st.w + 1 > maxW
      · simp only [hwrap, if_true] at h
        obtain ⟨g1, g2⟩ := ih _ (le_refl 0) (by show (0 : Int) ≤ maxW; omega) h
        simp only [zero_add] at g1 g2
        have hne : maxW + 1 ≠ 0 := by omega
        have e1 : st.w + ((a :: rest).length : Int) = (rest.length : Int) + (maxW + 1) * 1 := by
          simp only [List.length_cons]
          push_cast
          omega
        rw [e1, Int.add_mul_emod_self_left, Int.add_mul_ediv_left _ _ hne, g1, g2]
        constructor
        · rfl
        · ring
      · simp only [hwrap, if_false] at h
        obtain ⟨g1, g2⟩ := ih _ (by show 0 ≤ st.w + 1; omega) (by show st.w + 1 ≤ maxW; omega) h
        simp only at g1 g2
        have e1 : st.w + ((a :: rest).length : Int) = st.w + 1 + (rest.length : Int) := by
          simp only [List.length_cons]
          push_cast
          omega
        rw [e1]
        exact ⟨g1, g2⟩

theorem readLayer_rects (i : Nat) (o : QJsonObject) (L : Layer) (h : readLayer i o = .ok L) :
    L.valueRects = [] := by
  rw [readLayer_eq] at h
  split at h
  · cases h
  · split at h
    · cases h
    · split at h
      · cases h
      · split at h
        · cases h
        · split at h
          · cases h
          · simp only [Except.ok.injEq] at h
            rw [← h]

theorem readLayers_rects (i : Nat) (arr : QJsonArray) (ld ld1 : LayerDefinition)
    (h : readLayers i arr ld = .ok ld1 ∨ ∃ e, readLayers i arr ld = .fail e ld1) :
    ∀ l ∈ ld1.layersOrdered, l ∈ ld.layersOrdered ∨ l.valueRects = [] := by
  induction arr generalizing i ld with
  | nil =>
    simp only [readLayers] at h
    rcases h with h | ⟨e, h⟩
    · cases h
      exact fun l hl => Or.inl hl
    · cases h
  | cons v rest ih =>
    simp only [readLayers] at h
    split at h
    · rcases h with h | ⟨e, h⟩
      · cases h
      · cases h
        exact fun l hl => Or.inl hl
    · split at h
      · rcases h with h | ⟨e, h⟩
        · cases h
        · cases h
          exact fun l hl => Or.inl hl
      · rename_i L hL
        intro l hl
        rcases ih _ _ h l hl with h1 | h1
        · simp only [List.mem_append, List.mem_singleton] at h1
          rcases h1 with h1 | h1
          · exact Or.inl h1
          · right
            rw [h1]
            exact readLayer_rects _ _ _ hL
        · exact Or.inr h1

theorem readLayerScheme_rects (layerDef ld : LayerDefinition) (json : QJsonObject)
    (h : readLayerScheme layerDef json = .ok ld ∨ ∃ e, readLayerScheme layerDef json = .fail e ld) :
    ∀ l ∈ ld.layersOrdered, l ∈ layerDef.layersOrdered ∨ l.valueRects = [] := by
  unfold readLayerScheme at h
  split at h
  · rcases h with h | ⟨e, h⟩
    · cases h
    · cases h
      exact fun l hl => Or.inl hl
  · simp only at h
    split at h
    · rcases h with h | ⟨e, h⟩
      · cases h
      · cases h
        exact fun l hl => Or.inl hl
    · split at h
      · rcases h with h | ⟨e, h⟩
        · cases h
        · cases h
          exact fun l hl => Or.inl hl
      · split at h
        · rcases h with h | ⟨e, h⟩
          · cases h
          · cases h
            exact fun l hl => Or.inl hl
        · split at h
          · rcases h with h | ⟨e, h⟩
            · cases h
            · cases h
              exact fun l hl => Or.inl hl
          · split at h
            · rename_i ld4 hr
              rcases h with h | ⟨e, h⟩
              · simp only [Outcome.ok.injEq] at h
                subst h
                have := readLayers_rects _ _ _ ld4 (Or.inl hr)
                exact this
              · cases h
            · rename_i x hne
              rcases h with h | ⟨e, h⟩
              · exact absurd h (hne ld)
              · have := readLayers_rects _ _ _ ld (Or.inr ⟨e, h⟩)
                exact this

/-- At every call of `createLayerRects` the slot makes from clean members, no layer of
`layersOrdered` holds a rect: an accepted `readTileScheme` found `tiles` empty. -/
theorem layout_starts_without_rects (s : Members) (hs : s.clean) (layerJson tileJson : QJsonObject)
    (ld : LayerDefinition) (ts : List Tile) (h1 : readLayerScheme s.layerDef layerJson = .ok ld)
    (h2 : readTileScheme ld s.tiles tileJson = .ok ts) :
    ∀ l ∈ ld.layersOrdered, l.valueRects = [] := by
  obtain ⟨hempty, _⟩ := readTileScheme_ok_inv _ _ _ _ h2
  rcases hs with hs | hs
  · exact absurd hempty hs
  · intro l hl
    rcases readLayerScheme_rects _ _ _ (Or.inl h1) l hl with h3 | h3
    · exact hs l h3
    · exact h3

theorem readTiles_fail_length (layerDef : LayerDefinition) (arr : QJsonArray) (i : Nat)
    (tiles s : List Tile) (e : TileSchemeError) (h : readTiles layerDef i arr tiles = .fail e s) :
    s.length = tiles.length := by
  induction arr generalizing i tiles with
  | nil => cases h
  | cons v rest ih =>
    simp only [readTiles] at h
    split at h
    · cases h; rfl
    · split at h
      · cases h; rfl
      · split at h
        · cases h; rfl
        · split at h
          · cases h; rfl
          · split at h
            · cases h
            · split at h
              · cases h
              · rename_i hw
                rw [ih _ _ h, writeRange_length _ _ _ _ _ hw]

theorem readTileScheme_fail_nonempty (layerDef : LayerDefinition) (tiles s : List Tile)
    (json : QJsonObject) (e : TileSchemeError) (h : readTileScheme layerDef tiles json = .fail e s)
    (hne : tiles ≠ []) : s ≠ [] := by
  have hpos : 0 < tiles.length := List.length_pos.2 hne
  suffices hlen : tiles.length ≤ s.length by
    intro hs
    rw [hs, List.length_nil] at hlen
    omega
  unfold readTileScheme at h
  split at h
  · cases h; exact le_refl _
  · simp only at h
    split at h
    · cases h; exact le_refl _
    · split at h
      · cases h; exact le_refl _
      · split at h
        · cases h; exact le_refl _
        · split at h
          · cases h
            simp
          · split at h
            · rename_i tiles2 hr
              have hl := readTiles_length _ _ _ _ _ hr
              split at h
              · cases h
                rw [hl]
                simp
              · cases h
            · rename_i x hx
              have hl := readTiles_fail_length _ _ _ _ _ _ h
              rw [hl]
              simp

theorem generateAndSave_tiles (s s1 : Members) (encoderOk : Bool) (log ev : List UiEvent)
    (h : generateAndSave s encoderOk log = some (s1, ev)) : s1.tiles = s.tiles := by
  unfold generateAndSave at h
  simp only at h
  split at h
  · cases h
  · split at h
    · cases h; rfl
    · cases h; rfl
  · split at h
    · cases h; rfl
    · cases h; rfl

/-- The members of a fresh `TileGen` are clean. -/
theorem Members.fresh_clean : Members.fresh.clean :=
  Or.inr (fun _ hl => by cases hl)

/-- A run of the slot keeps the members clean: rects are written only in a run whose tile
scheme was accepted, and such a run leaves `tiles` non-empty. -/
theorem on_btnParse_clicked_clean (s s1 : Members) (hs : s.clean) (baseSize : Int × Int)
    (layerJson tileJson : QJsonObject) (encoderOk : Bool) (ev : List UiEvent)
    (h : on_btnParse_clicked s baseSize layerJson tileJson encoderOk = some (s1, ev)) :
    s1.clean := by
  unfold on_btnParse_clicked at h
  simp only at h
  split at h
  · cases h
  · rename_i e ld h1
    simp only [Option.some.injEq, Prod.mk.injEq] at h
    rw [← h.1]
    rcases hs with hs | hs
    · exact Or.inl hs
    · right
      intro l hl
      rcases readLayerScheme_rects _ _ _ (Or.inr ⟨e, h1⟩) l hl with h3 | h3
      · exact hs l h3
      · exact h3
  · rename_i ld h1
    split at h
    · cases h
    · rename_i e ts h2
      simp only [Option.some.injEq, Prod.mk.injEq] at h
      rw [← h.1]
      rcases hs with hs | hs
      · exact Or.inl (readTileScheme_fail_nonempty _ _ _ _ _ h2 hs)
      · right
        intro l hl
        rcases readLayerScheme_rects _ _ _ (Or.inl h1) l hl with h3 | h3
        · exact hs l h3
        · exact h3
    · rename_i ts h2
      obtain ⟨_, n, hn, _, hlen, _⟩ := readTileScheme_ok_inv _ _ _ _ h2
      have hts : ts ≠ [] := by
        intro hnil
        rw [hnil] at hlen
        simp at hlen
        omega
      left
      split at h
      · cases h
      · rw [generateAndSave_tiles _ _ _ _ _ h]
        exact hts
      · rw [generateAndSave_tiles _ _ _ _ _ h]
        exact hts

/-! ## The claims on layout, pipeline and compositing -/

/-- C13: after a successful `createLayerRects` on an atlas of size `baseWidth x baseHeight`,
for layers at positions `i < j` of `layersOrdered` the rect of every value of layer `i` has
a strictly smaller `y` than the rect of every value of layer `j`; when no layer held a rect
before the call this covers every entry of the two `valueRects`. -/
theorem createLayerRects_rows_disjoint (layerDef ld : LayerDefinition) (baseWidth baseHeight : Nat)
    (h : createLayerRects layerDef baseWidth baseHeight = .ok ld) (i j : Nat) (hij : i < j)
    (li lj : Layer) (hi : ld.layersOrdered[i]? = some li) (hj : ld.layersOrdered[j]? = some lj) :
    (∀ v ∈ li.values, ∀ w ∈ lj.values, ∃ ri rj, QMap.find li.valueRects v = some ri ∧
      QMap.find lj.valueRects w = some rj ∧ ri.y < rj.y) ∧
    ((∀ l ∈ layerDef.layersOrdered, l.valueRects = []) →
      ∀ ki ri kj rj, QMap.find li.valueRects ki = some ri →
        QMap.find lj.valueRects kj = some rj → ri.y < rj.y) := by
  obtain ⟨_, _, hlaid⟩ := createLayerRects_ok _ _ _ _ h
  obtain ⟨l1, r1, st1, a1, a2, _, a4, a5, a6, a7⟩ := LaidOut_get _ _ _ _ _ _ hlaid i li hi
  have hj2 : (ld.layersOrdered.drop (i + 1))[j - (i + 1)]? = some lj := by
    rw [List.getElem?_drop]
    have : i + 1 + (j - (i + 1)) = j := by omega
    rw [this]
    exact hj
  obtain ⟨l2, r2, st2, b1, b2, _, b4, b5, b6, _⟩ := LaidOut_get _ _ _ _ _ _ a7 _ lj hj2
  have hpos : 0 < layerDef.tileSize := tileSize_pos_of_row _ baseHeight r1 a2 a4
  have f1 := placeValues_frame _ _ _ _ _ _ a5 st1 (Or.inl rfl)
  have f2 := placeValues_frame _ _ _ _ _ _ b5 st2 (Or.inl rfl)
  have v1 : li.values = l1.values := by rw [a6, f1.1]
  have v2 : lj.values = l2.values := by rw [b6, f2.1]
  have hm1 := placeValues_mono _ _ _ _ _ _ a5
  have hm2 := placeValues_mono _ _ _ _ _ _ b5
  simp only at hm1 hm2
  constructor
  · intro v hv w hw
    rw [v1] at hv
    rw [v2] at hw
    obtain ⟨ri, hri, pi⟩ := placeValues_values _ _ _ _ _ _ (Or.inl rfl) a5 v hv
    obtain ⟨rj, hrj, pj⟩ := placeValues_values _ _ _ _ _ _ (Or.inl rfl) b5 w hw
    refine ⟨ri, rj, by rw [a6]; exact hri, by rw [b6]; exact hrj, ?_⟩
    exact placedIn_y_lt _ _ _ _ _ _ _ _ _ hpos pi pj (by simp only; omega)
  · intro hempty ki ri kj rj hki hkj
    have e1 : l1.valueRects = [] := hempty l1 (List.mem_iff_getElem?.2 ⟨_, a1⟩)
    have e2 : l2.valueRects = [] :=
      hempty l2 (List.mem_of_mem_drop (List.mem_iff_getElem?.2 ⟨_, b1⟩))
    rw [a6] at hki
    rw [b6] at hkj
    rcases placeValues_entries _ _ _ _ _ _ (Or.inl rfl) a5 ki ri hki with c1 | c1
    · simp only [e1, QMap.find] at c1
      cases c1
    · rcases placeValues_entries _ _ _ _ _ _ (Or.inl rfl) b5 kj rj hkj with c2 | c2
      · simp only [e2, QMap.find] at c2
        cases c2
      · exact placedIn_y_lt _ _ _ _ _ _ _ _ _ hpos c1.2 c2.2 (by simp only; omega)

/-- Witness for C13: the two-layer scheme on a 32 x 48 atlas; "a" and "b" of the first
layer lie in row 0, "c" of the second layer lies below. -/
theorem createLayerRects_rows_disjoint_witness :
    createLayerRects (parsed twoLayerScheme) ((32 : Nat) : Int) ((48 : Nat) : Int) =
      .ok (afterLayout (parsed twoLayerScheme) 32 48) ∧
    ∀ v ∈ ["a", "b"], ∀ w ∈ ["c"], ∃ ri rj,
      QMap.find [("a", (⟨0, 0, 16, 16⟩ : QRect)), ("b", ⟨16, 0, 16, 16⟩)] v = some ri ∧
      QMap.find [("c", (⟨0, 32, 16, 16⟩ : QRect))] w = some rj ∧ ri.y < rj.y :=
  ⟨by decide,
    (createLayerRects_rows_disjoint (parsed twoLayerScheme)
      (afterLayout (parsed twoLayerScheme) 32 48) 32 48 (by decide) 0 1 (by decide)
      ⟨"body", 0, true, ["a", "b"], "", [("a", ⟨0, 0, 16, 16⟩), ("b", ⟨16, 0, 16, 16⟩)]⟩
      ⟨"color", 1, true, ["c"], "", [("c", ⟨0, 32, 16, 16⟩)]⟩ (by decide) (by decide)).1⟩

theorem LaidOut_length (tileSize maxW maxH : Int) (ls rs : List Layer) (h : Int)
    (hl : LaidOut tileSize maxW maxH h ls rs) : rs.length = ls.length := by
  induction ls generalizing rs h with
  | nil =>
    simp only [LaidOut] at hl
    rw [hl]
  | cons l ls ih =>
    simp only [LaidOut] at hl
    obtain ⟨st, rs1, _, _, h3, h4⟩ := hl
    rw [h3, List.length_cons, List.length_cons, ih _ _ h4]

/-- C18: on an atlas with `cols = floor(baseWidth / tileSize) >= 1` columns, after a
successful `createLayerRects` every layer of the definition is still at its position in
`layersOrdered`, changed in `valueRects` only, and when its values are pairwise distinct
its value of index `k` has the rect
`((k mod cols) * tileSize, (r0 + k div cols) * tileSize, tileSize, tileSize)`, where `r0` is
the row of its first value, and `r0 = 0` for the first layer. -/
theorem createLayerRects_positions (layerDef ld : LayerDefinition) (baseWidth baseHeight : Nat)
    (hcols : 1 ≤ (baseWidth : Int) / layerDef.tileSize)
    (h : createLayerRects layerDef baseWidth baseHeight = .ok ld) (i : Nat) (l : Layer)
    (hl : layerDef.layersOrdered[i]? = some l) (hd : l.values.Nodup) :
    ∃ (r : Layer) (r0 : Int), ld.layersOrdered[i]? = some r ∧
      r = { l with valueRects := r.valueRects } ∧ (i = 0 → r0 = 0) ∧
      ∀ (k : Nat) (v : String), l.values[k]? = some v →
        QMap.find r.valueRects v =
          some ⟨((k : Int) % ((baseWidth : Int) / layerDef.tileSize)) * layerDef.tileSize,
            (r0 + (k : Int) / ((baseWidth : Int) / layerDef.tileSize)) * layerDef.tileSize,
            layerDef.tileSize, layerDef.tileSize⟩ := by
  have hts : 0 < layerDef.tileSize := by
    by_contra hneg
    have := Int.ediv_nonpos (Int.ofNat_nonneg baseWidth) (show layerDef.tileSize ≤ 0 by omega)
    omega
  have hdiv : Int.tdiv (baseWidth : Int) layerDef.tileSize = (baseWidth : Int) / layerDef.tileSize :=
    Int.tdiv_eq_ediv (Int.ofNat_nonneg baseWidth) (by omega)
  obtain ⟨_, _, hlaid⟩ := createLayerRects_ok _ _ _ _ h
  have hlen := LaidOut_length _ _ _ _ _ _ hlaid
  have hi : i < ld.layersOrdered.length := by
    rw [hlen]
    exact (List.getElem?_eq_some.1 hl).1
  obtain ⟨l1, r0, st, a1, a2, a3, a4, a5, a6, _⟩ :=
    LaidOut_get _ _ _ _ _ _ hlaid i (ld.layersOrdered[i]) (List.getElem?_eq_getElem hi)
  rw [hl] at a1
  simp only [Option.some.injEq] at a1
  subst a1
  have f1 := placeValues_frame _ _ _ _ _ _ a5 st (Or.inl rfl)
  refine ⟨st.layer, r0, ?_, f1.1, a3, ?_⟩
  · rw [← a6]
    exact List.getElem?_eq_getElem hi
  · intro k v hk
    have := placeValues_positions _ _ _ _ _ _ (le_refl 0) (by show (0 : Int) ≤ _; omega) hd a5 k v hk
    rw [this]
    simp only [zero_add, hdiv, sub_add_cancel]

/-- Witness for C18: tile size 16, atlas 32 x 16, values "a" and "b": the layer "base" of
the scenario, which holds no rect before the call, comes back with "a" at (0, 0, 16, 16)
and "b" at (16, 0, 16, 16). -/
theorem createLayerRects_positions_witness :
    createLayerRects scenarioParsed ((32 : Nat) : Int) ((16 : Nat) : Int) = .ok scenarioLayerDef ∧
    scenarioLayerDef.layersOrdered.map Layer.valueRects =
      [[("a", ⟨0, 0, 16, 16⟩), ("b", ⟨16, 0, 16, 16⟩)]] ∧
    ∃ (r : Layer) (r0 : Int), scenarioLayerDef.layersOrdered[0]? = some r ∧
      r = { scenarioLayer with valueRects := r.valueRects } ∧ (0 = 0 → r0 = 0) ∧
      ∀ (k : Nat) (v : String), scenarioLayer.values[k]? = some v →
        QMap.find r.valueRects v =
          some ⟨((k : Int) % (((32 : Nat) : Int) / scenarioParsed.tileSize)) * scenarioParsed.tileSize,
            (r0 + (k : Int) / (((32 : Nat) : Int) / scenarioParsed.tileSize)) * scenarioParsed.tileSize,
            scenarioParsed.tileSize, scenarioParsed.tileSize⟩ :=
  ⟨by decide, by decide,
    createLayerRects_positions scenarioParsed scenarioLayerDef 32 16 (by decide) (by decide) 0
      scenarioLayer (by decide) (by decide)⟩

theorem placedIn_inside (tileSize : Int) (baseWidth baseHeight : Nat) (lo hi : Int) (r : QRect)
    (hts : 0 < tileSize) (hW : tileSize ≤ baseWidth) (hlo : 0 ≤ lo)
    (h : r.placedIn tileSize (Int.tdiv baseWidth tileSize - 1) (Int.tdiv baseHeight tileSize - 1)
      lo hi) :
    r.inside tileSize baseWidth baseHeight := by
  obtain ⟨w, a, e, hw, h1, h2, h3⟩ := h
  subst e
  have dW : Int.tdiv (baseWidth : Int) tileSize = (baseWidth : Int) / tileSize :=
    Int.tdiv_eq_ediv (Int.ofNat_nonneg baseWidth) (by omega)
  have dH : Int.tdiv (baseHeight : Int) tileSize = (baseHeight : Int) / tileSize :=
    Int.tdiv_eq_ediv (Int.ofNat_nonneg baseHeight) (by omega)
  rw [dW] at hw
  rw [dH] at h3
  have mW := Int.ediv_mul_le (baseWidth : Int) (show tileSize ≠ 0 by omega)
  have mH := Int.ediv_mul_le (baseHeight : Int) (show tileSize ≠ 0 by omega)
  unfold QRect.inside
  simp only
  have ha : 0 ≤ a := by omega
  refine ⟨?_, ?_, ?_, ?_⟩
  · rcases hw with hw | hw
    · rw [hw]; simp
    · exact Int.mul_nonneg hw.1 (by omega)
  · rcases hw with hw | hw
    · rw [hw]; simp; exact hW
    · have : (w + 1) * tileSize ≤ ((baseWidth : Int) / tileSize) * tileSize :=
        Int.mul_le_mul_of_nonneg_right (by omega) (by omega)
      have e2 : (w + 1) * tileSize = w * tileSize + tileSize := by ring
      omega
  · exact Int.mul_nonneg ha (by omega)
  · have : (a + 1) * tileSize ≤ ((baseHeight : Int) / tileSize) * tileSize :=
      Int.mul_le_mul_of_nonneg_right (by omega) (by omega)
    have e2 : (a + 1) * tileSize = a * tileSize + tileSize := by ring
    omega

/-- C20: with `tileSize > 0` and an atlas at least `tileSize` wide, after a successful
`createLayerRects` the rect of every value of every layer lies inside the atlas: `0 <= x`,
`x + tileSize <= width`, `0 <= y`, `y + tileSize <= height`.  Every other entry of
`valueRects` is an entry the layer held before the call, so every entry lies inside the
atlas when those held before did (in particular when there were none). -/
theorem createLayerRects_inside (layerDef ld : LayerDefinition) (baseWidth baseHeight : Nat)
    (hts : 0 < layerDef.tileSize) (hW : layerDef.tileSize ≤ baseWidth)
    (h : createLayerRects layerDef baseWidth baseHeight = .ok ld) (l : Layer)
    (hl : l ∈ ld.layersOrdered) :
    (∀ v ∈ l.values, ∃ r, QMap.find l.valueRects v = some r ∧
      r.inside layerDef.tileSize baseWidth baseHeight) ∧
    ((∀ l0 ∈ layerDef.layersOrdered, ∀ k r, QMap.find l0.valueRects k = some r →
        r.inside layerDef.tileSize baseWidth baseHeight) →
      ∀ k r, QMap.find l.valueRects k = some r →
        r.inside layerDef.tileSize baseWidth baseHeight) := by
  obtain ⟨_, _, hlaid⟩ := createLayerRects_ok _ _ _ _ h
  obtain ⟨i, hi⟩ := List.mem_iff_getElem?.1 hl
  obtain ⟨l1, r0, st, a1, a2, _, a4, a5, a6, _⟩ := LaidOut_get _ _ _ _ _ _ hlaid i l hi
  have f1 := placeValues_frame _ _ _ _ _ _ a5 st (Or.inl rfl)
  have v1 : l.values = l1.values := by rw [a6, f1.1]
  constructor
  · intro v hv
    rw [v1] at hv
    obtain ⟨r, hr, hp⟩ := placeValues_values _ _ _ _ _ _ (Or.inl rfl) a5 v hv
    exact ⟨r, by rw [a6]; exact hr, placedIn_inside _ _ _ _ _ _ hts hW a2 hp⟩
  · intro hbefore k r hk
    rw [a6] at hk
    rcases placeValues_entries _ _ _ _ _ _ (Or.inl rfl) a5 k r hk with c | c
    · exact hbefore l1 (List.mem_iff_getElem?.2 ⟨_, a1⟩) k r c
    · exact placedIn_inside _ _ _ _ _ _ hts hW a2 c.2

/-- Witness for C20: the scenario, tile size 16 on a 32 x 16 atlas. -/
theorem createLayerRects_inside_witness :
    createLayerRects scenarioParsed ((32 : Nat) : Int) ((16 : Nat) : Int) = .ok scenarioLayerDef ∧
    ∀ l ∈ scenarioLayerDef.layersOrdered,
      (∀ v ∈ l.values, ∃ r, QMap.find l.valueRects v = some r ∧
        r.inside scenarioParsed.tileSize ((32 : Nat) : Int) ((16 : Nat) : Int)) ∧
      ((∀ l0 ∈ scenarioParsed.layersOrdered, ∀ k r, QMap.find l0.valueRects k = some r →
          r.inside scenarioParsed.tileSize ((32 : Nat) : Int) ((16 : Nat) : Int)) →
        ∀ k r, QMap.find l.valueRects k = some r →
          r.inside scenarioParsed.tileSize ((32 : Nat) : Int) ((16 : Nat) : Int)) :=
  ⟨by decide, fun l hl =>
    createLayerRects_inside scenarioParsed scenarioLayerDef 32 16 (by decide) (by decide)
      (by decide) l hl⟩

/-- A failing `placeValues` stopped in front of one of the values: the state it leaves is
the state of the successful walk over the values before that one, and the row of that
state is beyond `maxH`. -/
theorem placeValues_error (tileSize maxW maxH : Int) (vals : List String) (st st1 : LayoutState)
    (h : placeValues tileSize maxW maxH vals st = .error st1) :
    ∃ placed v rest, vals = placed ++ v :: rest ∧
      placeValues tileSize maxW maxH placed st = .ok st1 ∧ maxH < st1.h := by
  induction vals generalizing st with
  | nil => cases h
  | cons a rest ih =>
    rw [placeValues_cons] at h
    split at h
    · rename_i hgt
      cases h
      exact ⟨[], a, rest, rfl, rfl, by omega⟩
    · rename_i hle
      obtain ⟨placed, v, rest1, e1, e2, e3⟩ := ih _ h
      refine ⟨a :: placed, v, rest1, by rw [e1]; rfl, ?_, e3⟩
      rw [placeValues_cons, if_neg hle]
      exact e2

theorem LaidOutTo_laidOut (tileSize maxW maxH : Int) (ls rs : List Layer) (h next : Int)
    (hl : LaidOutTo tileSize maxW maxH h ls rs next) : LaidOut tileSize maxW maxH h ls rs := by
  induction ls generalizing rs h with
  | nil =>
    simp only [LaidOutTo] at hl
    exact hl.1
  | cons l ls ih =>
    simp only [LaidOutTo] at hl
    obtain ⟨st, rs1, h1, h2, h3, h4⟩ := hl
    exact ⟨st, rs1, h1, h2, h3, ih _ _ h4⟩

/-- A failing `placeLayers` stopped at one layer `l`: the layers before it are laid out as
in a successful walk, which leaves the cursor at row `hp`; `l` holds the result of placing,
from column 0 of row `hp` on, the values `placed` that precede the failing check; the
layers after it are as they were. -/
theorem placeLayers_error (tileSize maxW maxH : Int) (ls done out : List Layer) (h : Int)
    (herr : placeLayers tileSize maxW maxH ls done h = .error out) :
    ∃ pre pre1 l suf placed rest st hp, ls = pre ++ l :: suf ∧
      out = done ++ (pre1 ++ st.layer :: suf) ∧ LaidOutTo tileSize maxW maxH h pre pre1 hp ∧
      l.values = placed ++ rest ∧ h ≤ hp ∧
      placeValues tileSize maxW maxH placed ⟨0, hp, l⟩ = .ok st ∧ maxH < st.h := by
  induction ls generalizing done h with
  | nil => simp only [placeLayers] at herr; cases herr
  | cons l ls ih =>
    simp only [placeLayers] at herr
    split at herr
    · rename_i hgt
      cases herr
      exact ⟨[], [], l, ls, [], l.values, ⟨0, h, l⟩, h, rfl, rfl, ⟨rfl, rfl⟩, rfl, le_refl _, rfl,
        by show maxH < h; omega⟩
    · rename_i hle
      split at herr
      · rename_i st hst
        cases herr
        obtain ⟨placed, v, rest, e1, e2, e3⟩ := placeValues_error _ _ _ _ _ _ hst
        exact ⟨[], [], l, ls, placed, v :: rest, st, h, rfl, rfl, ⟨rfl, rfl⟩, e1, le_refl _, e2, e3⟩
      · rename_i st0 hst0
        obtain ⟨pre, pre1, l2, suf, placed, rest, st, hp, e1, e2, e3, e4, e5, e6, e7⟩ :=
          ih _ _ herr
        have hm := placeValues_mono _ _ _ _ _ _ hst0
        simp only at hm
        refine ⟨l :: pre, st0.layer :: pre1, l2, suf, placed, rest, st, hp, by rw [e1]; rfl,
          by rw [e2]; simp, ?_, e4, by omega, e6, e7⟩
        exact ⟨st0, pre1, by omega, hst0, rfl, e3⟩

theorem QRect.placedIn_weaken (r : QRect) (tileSize maxW maxH lo hi lo1 : Int)
    (h : r.placedIn tileSize maxW maxH lo hi) (hlo : lo1 ≤ lo) :
    r.placedIn tileSize maxW maxH lo1 maxH := by
  obtain ⟨w, a, e, hw, h1, h2, h3⟩ := h
  exact ⟨w, a, e, hw, by omega, h3, h3⟩

/-- Every value of every layer of a successful walk has a rect placed in a row from the
first row of the walk on. -/
theorem LaidOut_values (tileSize maxW maxH : Int) (ls rs : List Layer) (h : Int)
    (hl : LaidOut tileSize maxW maxH h ls rs) (r : Layer) (hr : r ∈ rs) :
    ∀ v ∈ r.values, ∃ q, QMap.find r.valueRects v = some q ∧
      q.placedIn tileSize maxW maxH h maxH := by
  obtain ⟨i, hi⟩ := List.mem_iff_getElem?.1 hr
  obtain ⟨l1, r0, st, _, a2, _, _, a5, a6, _⟩ := LaidOut_get _ _ _ _ _ _ hl i r hi
  have f1 := placeValues_frame _ _ _ _ _ _ a5 st (Or.inl rfl)
  have v1 : r.values = l1.values := by rw [a6, f1.1]
  intro v hv
  rw [v1] at hv
  obtain ⟨q, hq, hp⟩ := placeValues_values _ _ _ _ _ _ (Or.inl rfl) a5 v hv
  exact ⟨q, by rw [a6]; exact hq, QRect.placedIn_weaken _ _ _ _ _ _ _ hp a2⟩

/-- C14, as amended: when `createLayerRects` fails with the atlas-too-small message, nothing
is undone.  `layerDef` is changed in the `valueRects` of the layers of `layersOrdered` only,
each `valueRects` only at values of its layer, and `layersOrdered` is left as
`pre1 ++ l1 :: suf`: `pre1` are the layers before the failing one, laid out completely from
row 0 on so that each of their values has its rect, the cursor then being at row `hp`;
`l1` is the failing layer `l` after its values `placed`, those in front of the failing
check, were placed from column 0 of row `hp` on, each of them holding its rect, and the
cursor is then beyond the last row; `suf` are the layers behind, unchanged. -/
theorem createLayerRects_fail_frame (layerDef ld : LayerDefinition) (baseWidth baseHeight : Int)
    (h : createLayerRects layerDef baseWidth baseHeight = .fail .imageTooSmall ld) :
    ld = { layerDef with layersOrdered := ld.layersOrdered } ∧
    List.Forall₂ Layer.sameButRects layerDef.layersOrdered ld.layersOrdered ∧
    ∃ (pre pre1 : List Layer) (l : Layer) (suf : List Layer) (placed rest : List String)
      (st : LayoutState) (hp : Int),
      layerDef.layersOrdered = pre ++ l :: suf ∧ ld.layersOrdered = pre1 ++ st.layer :: suf ∧
      LaidOutTo layerDef.tileSize (Int.tdiv baseWidth layerDef.tileSize - 1)
        (Int.tdiv baseHeight layerDef.tileSize - 1) 0 pre pre1 hp ∧
      l.values = placed ++ rest ∧
      placeValues layerDef.tileSize (Int.tdiv baseWidth layerDef.tileSize - 1)
        (Int.tdiv baseHeight layerDef.tileSize - 1) placed ⟨0, hp, l⟩ = .ok st ∧
      Int.tdiv baseHeight layerDef.tileSize - 1 < st.h ∧
      (∀ r ∈ pre1, ∀ v ∈ r.values, ∃ q, QMap.find r.valueRects v = some q ∧
        q.placedIn layerDef.tileSize (Int.tdiv baseWidth layerDef.tileSize - 1)
          (Int.tdiv baseHeight layerDef.tileSize - 1) 0
          (Int.tdiv baseHeight layerDef.tileSize - 1)) ∧
      (∀ v ∈ placed, ∃ q, QMap.find st.layer.valueRects v = some q ∧
        q.placedIn layerDef.tileSize (Int.tdiv baseWidth layerDef.tileSize - 1)
          (Int.tdiv baseHeight layerDef.tileSize - 1) 0
          (Int.tdiv baseHeight layerDef.tileSize - 1)) := by
  unfold createLayerRects at h
  simp only at h
  split at h
  · cases h
  · split at h
    · rename_i ls hls
      simp only [Outcome.fail.injEq, true_and] at h
      subst h
      obtain ⟨rs, e1, e2⟩ := placeLayers_frame _ _ _ _ _ _ _ (Or.inr hls)
      simp only [List.nil_append] at e1
      subst e1
      refine ⟨rfl, e2, ?_⟩
      obtain ⟨pre, pre1, l, suf, placed, rest, st, hp, g1, g2, g3, g4, g5, g6, g7⟩ :=
        placeLayers_error _ _ _ _ _ _ _ hls
      simp only [List.nil_append] at g2
      refine ⟨pre, pre1, l, suf, placed, rest, st, hp, g1, g2, g3, g4, g6, g7, ?_, ?_⟩
      · intro r hr
        exact LaidOut_values _ _ _ _ _ _ (LaidOutTo_laidOut _ _ _ _ _ _ _ g3) r hr
      · intro v hv
        obtain ⟨q, hq, hpl⟩ := placeValues_values _ _ _ _ _ _ (Or.inl rfl) g6 v hv
        exact ⟨q, hq, QRect.placedIn_weaken _ _ _ _ _ _ _ hpl g5⟩
    · cases h

/-- Witness for C14 as amended: a layer with the values "a", "b", "c" on a 32 x 16 atlas;
the call fails in front of "c" and "a" and "b" keep the rects they were given. -/
theorem createLayerRects_fail_frame_witness :
    createLayerRects (parsed threeValueScheme) 32 16 =
      .fail .imageTooSmall (afterLayout (parsed threeValueScheme) 32 16) ∧
    ∃ (pre pre1 : List Layer) (l : Layer) (suf : List Layer) (placed rest : List String)
      (st : LayoutState) (hp : Int),
      (parsed threeValueScheme).layersOrdered = pre ++ l :: suf ∧
      (afterLayout (parsed threeValueScheme) 32 16).layersOrdered = pre1 ++ st.layer :: suf ∧
      LaidOutTo (parsed threeValueScheme).tileSize
        (Int.tdiv 32 (parsed threeValueScheme).tileSize - 1)
        (Int.tdiv 16 (parsed threeValueScheme).tileSize - 1) 0 pre pre1 hp ∧
      l.values = placed ++ rest ∧
      placeValues (parsed threeValueScheme).tileSize
        (Int.tdiv 32 (parsed threeValueScheme).tileSize - 1)
        (Int.tdiv 16 (parsed threeValueScheme).tileSize - 1) placed ⟨0, hp, l⟩ = .ok st ∧
      Int.tdiv 16 (parsed threeValueScheme).tileSize - 1 < st.h ∧
      (∀ r ∈ pre1, ∀ v ∈ r.values, ∃ q, QMap.find r.valueRects v = some q ∧
        q.placedIn (parsed threeValueScheme).tileSize
          (Int.tdiv 32 (parsed threeValueScheme).tileSize - 1)
          (Int.tdiv 16 (parsed threeValueScheme).tileSize - 1) 0
          (Int.tdiv 16 (parsed threeValueScheme).tileSize - 1)) ∧
      (∀ v ∈ placed, ∃ q, QMap.find st.layer.valueRects v = some q ∧
        q.placedIn (parsed threeValueScheme).tileSize
          (Int.tdiv 32 (parsed threeValueScheme).tileSize - 1)
          (Int.tdiv 16 (parsed threeValueScheme).tileSize - 1) 0
          (Int.tdiv 16 (parsed threeValueScheme).tileSize - 1)) :=
  ⟨by decide,
    (createLayerRects_fail_frame (parsed threeValueScheme)
      (afterLayout (parsed threeValueScheme) 32 16) 32 16 (by decide)).2.2⟩

/-- C14 as stated fails: a layer with the values "a", "b", "c" on a 32 x 16 atlas (two
columns, one row) makes `createLayerRects` fail at "c", and the rects assigned to "a" and
"b" before that remain in `valueRects`, which was empty before the call. -/
theorem createLayerRects_fail_keeps_rects :
    createLayerRects (parsed threeValueScheme) 32 16 =
      .fail .imageTooSmall (afterLayout (parsed threeValueScheme) 32 16) ∧
    (parsed threeValueScheme).layersOrdered.map Layer.valueRects = [[]] ∧
    (afterLayout (parsed threeValueScheme) 32 16).layersOrdered.map Layer.valueRects =
      [[("a", ⟨0, 0, 16, 16⟩), ("b", ⟨16, 0, 16, 16⟩)]] := by
  decide

/-- C11: `readLayerScheme` fails whenever some layer object of the scheme has `AllowNull`
false with an empty or absent `DefaultValue`, or a non-empty `DefaultValue` outside its
`Values` (empty strings dropped); and every layer an accepted scheme appends to
`layersOrdered` has its default value among its values, or an empty default value with
`allowNull` true. -/
theorem readLayerScheme_default_checked (layerDef : LayerDefinition) (json : QJsonObject) :
    (∀ v ∈ (QJsonObject.value json "Layers").toArray, defaultRejected v.toObject →
      ∃ e s, readLayerScheme layerDef json = .fail e s) ∧
    (∀ ld, readLayerScheme layerDef json = .ok ld →
      ∃ news, ld.layersOrdered = layerDef.layersOrdered ++ news ∧ ∀ L ∈ news, L.defaultLegal) := by
  constructor
  · intro v hv hbad
    cases hres : readLayerScheme layerDef json with
    | undefined => exact absurd hres (readLayerScheme_defined _ _)
    | fail e s => exact ⟨e, s, rfl⟩
    | ok ld =>
      obtain ⟨ld3, ld4, _, _, _, hr, _⟩ := readLayerScheme_ok_inv _ _ _ hres
      obtain ⟨e, s, hf⟩ := readLayers_rejects 0 _ ld3 v hv hbad
      rw [hf] at hr
      cases hr
  · intro ld hres
    obtain ⟨ld3, ld4, _, e2, _, hr, hld⟩ := readLayerScheme_ok_inv _ _ _ hres
    obtain ⟨news, g1, g2⟩ := readLayers_appended _ _ _ _ hr
    refine ⟨news, ?_, g2⟩
    rw [hld]
    simp only
    rw [g1, e2]

/-- Witness for C11: a layer with `AllowNull` false and an empty `DefaultValue`, and a layer
with the `DefaultValue` "z" that is not among the values "a" and "b", each make the scheme
fail; the scheme with the `DefaultValue` "b" is accepted with a legal default. -/
theorem readLayerScheme_default_checked_witness :
    (∃ e s, readLayerScheme .empty (schemeOfLayers [layerObject false ""]) = .fail e s) ∧
    (∃ e s, readLayerScheme .empty (schemeOfLayers [layerObject true "z"]) = .fail e s) ∧
    (∃ news, (parsed (schemeOfLayers [layerObject false "b"])).layersOrdered
        = LayerDefinition.empty.layersOrdered ++ news ∧ ∀ L ∈ news, L.defaultLegal) :=
  ⟨(readLayerScheme_default_checked .empty (schemeOfLayers [layerObject false ""])).1
      (layerObject false "") (List.mem_cons_self _ _) (by decide),
    (readLayerScheme_default_checked .empty (schemeOfLayers [layerObject true "z"])).1
      (layerObject true "z") (List.mem_cons_self _ _) (by decide),
    (readLayerScheme_default_checked .empty (schemeOfLayers [layerObject false "b"])).2
      (parsed (schemeOfLayers [layerObject false "b"])) (by decide)⟩

/-- A layer object is read into a layer exactly when it passes its own checks. -/
theorem readLayer_accepts (i : Nat) (o : QJsonObject) :
    (∃ L, readLayer i o = .ok L) ↔ layerChecksPass o := by
  have hvals : (readValues (QJsonObject.value o "Values").toArray).length = 0 ↔
      ¬ ∃ v ∈ (QJsonObject.value o "Values").toArray, v.toString ≠ "" := by
    unfold readValues
    rw [List.length_eq_zero, List.filter_eq_nil_iff]
    constructor
    · rintro h ⟨v, hv, hne⟩
      exact h v.toString (List.mem_map.2 ⟨v, hv, rfl⟩) (by simpa using hne)
    · intro h x hx hd
      obtain ⟨v, hv, rfl⟩ := List.mem_map.1 hx
      exact h ⟨v, hv, by simpa using hd⟩
  rw [readLayer_eq]
  unfold layerChecksPass defaultRejected
  split
  · rename_i h1
    constructor
    · rintro ⟨L, hL⟩
      cases hL
    · intro h
      exact absurd h1 h.1
  · rename_i h1
    split
    · rename_i h2
      constructor
      · rintro ⟨L, hL⟩
        cases hL
      · intro h
        exact absurd h.2.1 h2
    · rename_i h2
      split
      · rename_i h3
        constructor
        · rintro ⟨L, hL⟩
          cases hL
        · intro h
          exact absurd h.2.2.1 (hvals.1 h3)
      · rename_i h3
        split
        · rename_i h4
          constructor
          · rintro ⟨L, hL⟩
            cases hL
          · intro h
            exact absurd (Or.inl ⟨h4.2, h4.1⟩) h.2.2.2
        · rename_i h4
          split
          · rename_i h5
            constructor
            · rintro ⟨L, hL⟩
              cases hL
            · intro h
              refine absurd (Or.inr ⟨?_, h5.2⟩) h.2.2.2
              intro hd
              cases ha : (QJsonObject.value o "AllowNull").toBool true with
              | true => exact h5.1 ⟨ha, hd⟩
              | false => exact h4 ⟨hd, ha⟩
          · rename_i h5
            constructor
            · intro _
              refine ⟨h1, not_not.1 h2, ?_, ?_⟩
              · by_contra hc
                exact h3 (hvals.2 hc)
              · rintro (⟨ha, hd⟩ | ⟨hd, hm⟩)
                · exact h4 ⟨hd, ha⟩
                · exact h5 ⟨fun hh => hd hh.2, hm⟩
            · intro _
              exact ⟨_, rfl⟩

/-- The loop over `Layers` accepts exactly the arrays whose elements are all objects that
pass their own checks, whatever the definition held before. -/
theorem readLayers_accepts (i : Nat) (arr : QJsonArray) (ld : LayerDefinition) :
    (∃ ld1, readLayers i arr ld = .ok ld1) ↔
      ∀ v ∈ arr, v.isObject = true ∧ layerChecksPass v.toObject := by
  induction arr generalizing i ld with
  | nil =>
    constructor
    · intro _ v hv
      cases hv
    · intro _
      exact ⟨ld, rfl⟩
  | cons a rest ih =>
    constructor
    · rintro ⟨ld1, h⟩
      have hobj : a.isObject = true := by
        simp only [readLayers] at h
        split at h
        · cases h
        · rename_i hno
          simpa using hno
      obtain ⟨L, hL, hrest⟩ := readLayers_cons_ok _ _ _ _ _ h
      intro v hv
      rcases List.mem_cons.1 hv with h1 | h1
      · subst h1
        exact ⟨hobj, (readLayer_accepts i _).1 ⟨L, hL⟩⟩
      · exact (ih _ _).1 ⟨ld1, hrest⟩ v h1
    · intro h
      obtain ⟨hobj, hpass⟩ := h a (List.mem_cons_self _ _)
      obtain ⟨L, hL⟩ := (readLayer_accepts i _).2 hpass
      obtain ⟨ld1, h1⟩ := (ih (i + 1)
        { ld with
          layers := QMap.insert ld.layers L.name L
          layersOrdered := ld.layersOrdered ++ [L] }).2
        (fun v hv => h v (List.mem_cons_of_mem _ hv))
      refine ⟨ld1, ?_⟩
      simp only [readLayers]
      rw [if_neg (by simp [hobj]), hL]
      exact h1

/-- The function `readLayerScheme` accepts exactly the schemes whose header passes its
checks and whose `Layers` are all objects that pass their own checks. -/
theorem readLayerScheme_accepts (layerDef : LayerDefinition) (json : QJsonObject) :
    (∃ ld, readLayerScheme layerDef json = .ok ld) ↔
      headerChecksPass json ∧
      ∀ v ∈ (QJsonObject.value json "Layers").toArray,
        v.isObject = true ∧ layerChecksPass v.toObject := by
  unfold readLayerScheme headerChecksPass
  split
  · rename_i h1
    constructor
    · rintro ⟨ld, h⟩
      cases h
    · intro h
      exact absurd h.1.1 h1
  · rename_i h1
    simp only
    split
    · rename_i h2
      constructor
      · rintro ⟨ld, h⟩
        cases h
      · intro h
        exact absurd h2 h.1.2.1
    · rename_i h2
      split
      · rename_i h3
        constructor
        · rintro ⟨ld, h⟩
          cases h
        · intro h
          exact absurd h.1.2.2.1 (not_lt.2 h3)
      · rename_i h3
        split
        · rename_i h4
          constructor
          · rintro ⟨ld, h⟩
            cases h
          · intro h
            exact absurd h.1.2.2.2.1 (not_lt.2 h4)
        · rename_i h4
          split
          · rename_i h5
            constructor
            · rintro ⟨ld, h⟩
              cases h
            · intro h
              exact absurd h.1.2.2.2.2 h5
          · rename_i h5
            have hhead : (QJsonObject.value json "SchemeType").toString = "Layer" ∧
                (QJsonObject.value json "SchemeName").toString ≠ "" ∧
                0 < (QJsonObject.value json "TileSize").toInt (-1) ∧
                0 < (QJsonObject.value json "TilesPerRow").toInt (-1) ∧
                (QMap.contains json "Layers" = true ∧
                  (QJsonObject.value json "Layers").isArray = true) :=
              ⟨not_not.1 h1, h2, not_le.1 h3, not_le.1 h4, not_not.1 h5⟩
            rw [← readLayers_accepts 0 (QJsonObject.value json "Layers").toArray
              { name := (QJsonObject.value json "SchemeName").toString,
                tileSize := (QJsonObject.value json "TileSize").toInt (-1),
                tilesPerRow := (QJsonObject.value json "TilesPerRow").toInt (-1),
                layers := layerDef.layers, layersOrdered := layerDef.layersOrdered,
                defaultTile := layerDef.defaultTile }]
            constructor
            · rintro ⟨ld, h⟩
              refine ⟨hhead, ?_⟩
              split at h
              · rename_i ld4 hr
                exact ⟨ld4, hr⟩
              · rename_i hne
                cases hr : readLayers 0 (QJsonObject.value json "Layers").toArray
                    { name := (QJsonObject.value json "SchemeName").toString,
                      tileSize := (QJsonObject.value json "TileSize").toInt (-1),
                      tilesPerRow := (QJsonObject.value json "TilesPerRow").toInt (-1),
                      layers := layerDef.layers, layersOrdered := layerDef.layersOrdered,
                      defaultTile := layerDef.defaultTile } with
                | ok s => exact absurd hr (hne s)
                | fail e s => rw [hr] at h; cases h
                | undefined => rw [hr] at h; cases h
            · rintro ⟨_, ld4, hr⟩
              rw [hr]
              exact ⟨_, rfl⟩

/-- C12, as amended: a layer scheme is accepted, from the empty definition, exactly when
its header passes its checks and every element of `Layers` is an object that passes its own
checks; the names of the layers are compared with nothing, so a scheme that declares two
layers with the same `Name` is accepted when each layer passes its own checks.  For an
accepted scheme the names in `layersOrdered` are the `Name`s of the layer objects in
declaration order, repeated ones included; the lookup `layers` has pairwise distinct keys,
every entry is filed under its own name, and under each name it holds the last layer of
`layersOrdered` declared with that name.  When the names in `layersOrdered` are pairwise
distinct, `layers` holds exactly the layers of `layersOrdered`. -/
theorem readLayerScheme_layers_lookup (json : QJsonObject) :
    ((∃ ld, readLayerScheme .empty json = .ok ld) ↔
      headerChecksPass json ∧
      ∀ v ∈ (QJsonObject.value json "Layers").toArray,
        v.isObject = true ∧ layerChecksPass v.toObject) ∧
    ∀ ld, readLayerScheme .empty json = .ok ld →
      ld.layersOrdered.map Layer.name =
        (QJsonObject.value json "Layers").toArray.map
          (fun v => (QJsonObject.value v.toObject "Name").toString) ∧
      (QMap.keys ld.layers).Nodup ∧
      (∀ p ∈ ld.layers, p.2.name = p.1) ∧
      (∀ k, QMap.find ld.layers k = lastNamed ld.layersOrdered k) ∧
      ((ld.layersOrdered.map Layer.name).Nodup →
        (ld.layers.map Prod.snd).Perm ld.layersOrdered) := by
  refine ⟨readLayerScheme_accepts _ _, ?_⟩
  intro ld h
  obtain ⟨g1, _, _, _, g5⟩ := readLayerScheme_empty_inv _ _ h
  have hkeys := QMap.nodup_of_sorted _ (readLayerScheme_layers_sorted _ _ h)
  have hname : ∀ p ∈ ld.layers, p.2.name = p.1 := by
    intro p hp
    have hf := QMap.find_of_mem ld.layers p.1 p.2 hkeys hp
    rw [g1] at hf
    exact (lastNamed_some _ _ _ hf).2
  have hnames : ld.layersOrdered.map Layer.name =
      (QJsonObject.value json "Layers").toArray.map
        (fun v => (QJsonObject.value v.toObject "Name").toString) := by
    have := congrArg (List.map Prod.fst) g5
    simpa [List.map_map, Function.comp_def] using this
  refine ⟨hnames, hkeys, hname, g1, ?_⟩
  intro hn
  have hlo : ld.layersOrdered.Nodup := List.Nodup.of_map _ hn
  have hl : ld.layers.Nodup := List.Nodup.of_map _ hkeys
  have hsnd : (ld.layers.map Prod.snd).Nodup := by
    apply List.Nodup.map_on _ hl
    intro p hp q hq hpq
    have e1 := hname p hp
    have e2 := hname q hq
    exact Prod.ext (by rw [← e1, ← e2, hpq]) hpq
  rw [List.perm_ext_iff_of_nodup hsnd hlo]
  intro L
  constructor
  · intro hL
    obtain ⟨p, hp, rfl⟩ := List.mem_map.1 hL
    have hf := QMap.find_of_mem ld.layers p.1 p.2 hkeys hp
    rw [g1] at hf
    exact (lastNamed_some _ _ _ hf).1
  · intro hL
    have hf := lastNamed_of_nodup _ _ hL hn
    rw [← g1] at hf
    exact List.mem_map.2 ⟨(L.name, L), QMap.mem_of_find _ _ _ hf, rfl⟩

/-- Witness for C12 as amended: the scheme that declares the name "base" twice passes the
checks of the header and of each layer and is accepted; the two-layer scheme with the names
"body" and "color" is accepted with `layers` holding the layers of `layersOrdered`. -/
theorem readLayerScheme_layers_lookup_witness :
    (headerChecksPass twiceLayerScheme ∧
      ∀ v ∈ (QJsonObject.value twiceLayerScheme "Layers").toArray,
        v.isObject = true ∧ layerChecksPass v.toObject) ∧
    (∃ ld, readLayerScheme .empty twiceLayerScheme = .ok ld) ∧
    readLayerScheme .empty twoLayerScheme = .ok (parsed twoLayerScheme) ∧
    ((parsed twoLayerScheme).layers.map Prod.snd).Perm (parsed twoLayerScheme).layersOrdered :=
  ⟨by decide, (readLayerScheme_layers_lookup twiceLayerScheme).1.2 (by decide), by decide,
    ((readLayerScheme_layers_lookup twoLayerScheme).2 (parsed twoLayerScheme)
      (by decide)).2.2.2.2 (by decide)⟩

/-- C12 as stated fails: the scheme that declares the name "base" twice is accepted; the
names in `layersOrdered` are not pairwise distinct and `layers` holds one entry for the two
layers of `layersOrdered`. -/
theorem readLayerScheme_accepts_repeated_name :
    readLayerScheme .empty twiceLayerScheme = .ok twiceParsed ∧
    twiceParsed.layersOrdered.map Layer.name = ["base", "base"] ∧
    ¬ (twiceParsed.layersOrdered.map Layer.name).Nodup ∧
    twiceParsed.layers.length = 1 := by
  decide

/-- C15 (the code departs from it): lines 122-135 do not return after a failed stage.  On an
8 x 8 base image `createLayerRects` fails, yet `generateTilesImage` is run and `save` is
called; with 10 tiles per row and 21 tiles `generateTilesImage` fails after 20 draw calls,
yet the 100 x 10 image it left is saved and the run reports "Generate successful!". -/
theorem on_btnParse_clicked_runs_on :
    (createLayerRects scenarioParsed 8 8).isOk = false ∧
    eventsOf (on_btnParse_clicked .fresh (8, 8) scenarioLayerScheme (rangeTileScheme 2 0 1) true) =
      [.print "Now parsing layer scheme JSON...", .print "Parse success!",
       .print "Now parsing tile scheme JSON...", .print "Parse success!",
       .print "Generating layer rects", .error "Generate fail!" false,
       .error "Image too small, went over maximum Y value" true,
       .print "Generating tiles image", .error "Generate fail!" false,
       .error "Calculation error??? Went over maximum Y value" true,
       .print "Generate successful!", .print "Outputting tiles image",
       .save ⟨0, 0, []⟩, .error "Could not save tiles image!" true, .print "DONE!"] ∧
    (generateTilesImage (afterLayout (parsed (nullableLayerScheme 10)) 32 16)
      (scenarioTiles 21)).isOk = false ∧
    (eventsOf (on_btnParse_clicked .fresh (32, 16) (nullableLayerScheme 10)
      (rangeTileScheme 21 0 20) true)).filter (fun e => !(e matches .save _)) =
      [.print "Now parsing layer scheme JSON...", .print "Parse success!",
       .print "Now parsing tile scheme JSON...", .print "Parse success!",
       .print "Generating layer rects", .print "Generating tiles image",
       .error "Generate fail!" false,
       .error "Calculation error??? Went over maximum Y value" true,
       .print "Generate successful!", .print "Outputting tiles image", .print "DONE!"] ∧
    writtenImages (eventsOf (on_btnParse_clicked .fresh (32, 16) (nullableLayerScheme 10)
      (rangeTileScheme 21 0 20) true)) true = [(100, 10, 20)] := by
  decide

/-- C16 (the code departs from it): the members are not cleared between runs.  The first run
of the scenario from fresh members reads both schemes; the same two schemes read from the
members that run left behind give a definition with the layer "base" twice and a tile
scheme that fails, the two default tiles having been appended to the two old tiles. -/
theorem second_run_differs :
    readLayerScheme Members.fresh.layerDef scenarioLayerScheme = .ok scenarioParsed ∧
    readTileScheme scenarioParsed Members.fresh.tiles (rangeTileScheme 2 0 1) =
      .ok (scenarioTiles 2) ∧
    (membersOf (on_btnParse_clicked .fresh (32, 16) scenarioLayerScheme
      (rangeTileScheme 2 0 1) true)).layerDef = scenarioLayerDef ∧
    (membersOf (on_btnParse_clicked .fresh (32, 16) scenarioLayerScheme
      (rangeTileScheme 2 0 1) true)).tiles = scenarioTiles 2 ∧
    readLayerScheme scenarioLayerDef scenarioLayerScheme =
      .ok (parsedFrom scenarioLayerDef scenarioLayerScheme) ∧
    (parsedFrom scenarioLayerDef scenarioLayerScheme).layersOrdered.map Layer.name
      = ["base", "base"] ∧
    readTileScheme (parsedFrom scenarioLayerDef scenarioLayerScheme) (scenarioTiles 2)
        (rangeTileScheme 2 0 1) =
      .fail (.countMismatch 4 2) (scenarioTiles 2 ++ List.replicate 2 [("base", "a")]) ∧
    (TileSchemeError.countMismatch 4 2).message =
      "Generated tile count (4) does not match TileCount (2)" := by
  decide

/-- C17 (the code departs from it): tile size 16, 4 tiles per row, 8 tiles of which tile 0
has the empty value for the only layer.  `generateTilesImage` succeeds, and the draw call
for tile 1, issued at (4, 0) with a 16 x 16 source, covers the pixel (4, 0) of the 16 x 4
image, which lies in the cell (0, 0) .. (15, 15) of tile 0. -/
theorem generateTilesImage_null_cell_touched :
    readTileScheme (parsed (nullableLayerScheme 4)) [] (rangeTileScheme 8 1 7) =
      .ok ([("base", "")] :: scenarioTiles 7) ∧
    (generateTilesImage (afterLayout (parsed (nullableLayerScheme 4)) 32 16)
      ([("base", "")] :: scenarioTiles 7)).isOk = true ∧
    canvasSize (generateTilesImage (afterLayout (parsed (nullableLayerScheme 4)) 32 16)
      ([("base", "")] :: scenarioTiles 7)) = some (16, 4) ∧
    (∀ L ∈ (afterLayout (parsed (nullableLayerScheme 4)) 32 16).layersOrdered,
      QMap.at [("base", "")] L.name "" = "") ∧
    inCell (afterLayout (parsed (nullableLayerScheme 4)) 32 16) 0 4 0 ∧
    (drawCalls (generateTilesImage (afterLayout (parsed (nullableLayerScheme 4)) 32 16)
      ([("base", "")] :: scenarioTiles 7)))[0]? = some ⟨⟨4, 0⟩, ⟨16, 0, 16, 16⟩⟩ ∧
    DrawCall.touches ⟨⟨4, 0⟩, ⟨16, 0, 16, 16⟩⟩ 4 0 := by
  decide

/-- C19 (the code departs from it): tile size 16, layers with the values "a", "b" and with
the value "c".  On a 32 x 32 atlas (2 columns, 2 rows) the layers need 1 + 1 rows, yet
`createLayerRects` fails: after "b" the row has been advanced by the wrap and is advanced
again at the end of the layer.  On a 32 x 48 atlas "c" is placed in row 2 (y = 32), not in
row 1 directly below the row of "a" and "b". -/
theorem createLayerRects_skips_row :
    createLayerRects (parsed twoLayerScheme) 32 32 =
      .fail .imageTooSmall (afterLayout (parsed twoLayerScheme) 32 32) ∧
    (createLayerRects (parsed twoLayerScheme) 32 48).isOk = true ∧
    (afterLayout (parsed twoLayerScheme) 32 48).layersOrdered.map Layer.valueRects =
      [[("a", ⟨0, 0, 16, 16⟩), ("b", ⟨16, 0, 16, 16⟩)], [("c", ⟨0, 32, 16, 16⟩)]] := by
  decide

end TileGen
